import Mathlib

/-!
# Audio DRM controller (`mb/drm_audio_fw/src/main.c`)

A shallow embedding of the command handlers of the MicroBlaze DRM firmware,
and the properties of its session, authorization, sharing, metadata, query,
dispatch and playback logic.

Conventions of the embedding.

* `char` and `u8` cells are natural numbers, read unsigned; an arithmetic
  result stored into a one-byte cell is reduced `% 256`, a result stored into
  a `u32` cell is reduced `% 2 ^ 32`.  The `int` that `gen_song_md` returns is
  `buf[0]` read through the plain `char *buf`, which is signed (`char_val`),
  and the length it becomes in `memcpy` is that `int` as a 32-bit `size_t`.
* Fixed-size text buffers (`username`, `pin`, name slots of the query area)
  are lists of bytes; a list shorter than its buffer stands for the buffer
  padded with NUL bytes.  A C string inside a buffer ends at its first NUL.
  `strcmp` and `strcpy` are those of C as long as the strings they read end
  inside their buffers.  On a buffer filled to its last byte without a NUL the
  C functions read on into the memory that follows the buffer, whose layout
  `constants.h` fixes; the functions here stop at the end of the list.  The
  theorems that depend on such a comparison or copy keep to names that end
  inside their buffers, by hypothesis.
* The song area of the channel and the `rids`/`uids` arrays of the snapshot
  are idealised arrays `Nat → Nat` (offset to byte): a copy of `n` bytes
  writes the offsets below `n` of its target array and nothing else, whatever
  the declared length of the array.
* The constants of `constants.h` and the tables of `secrets.h` are parameters
  (`Constants`, `Secrets`).  The channel structs and the layout macros
  `get_drm_rids`, `get_drm_uids`, `get_drm_song` follow the documented song
  layout, which is the one `gen_song_md` writes.
* `mb_printf` lines and the LED are not modelled; `usleep` is recorded in a
  trace together with the channel as it stands when the sleep starts.
* The wolfCrypt calls of `play_song` are oracles, and its interrupts and
  hardware reads are scripted by an environment (`PlayEnv`).
-/

namespace Drm

/-! ## Parameters -/

/-- Build constants of `constants.h`, taken as parameters. -/
structure Constants where
  USERNAME_SZ : Nat
  MAX_PIN_SZ : Nat
  MAX_USERS : Nat
  MAX_REGIONS : Nat
  CHUNK_SZ : Nat
  PREVIEW_SZ : Nat
  FIFO_CAP : Nat
  AES_BLK_SZ : Nat
  SIGNATURE_SZ : Nat
  NAME_SZ : Nat

/-- Tables of `secrets.h`, taken as parameters.  An array is a function of
its index; its declared length is the matching `NUM_` field. -/
structure Secrets where
  NUM_REGIONS : Nat
  REGION_IDS : Nat → Nat
  REGION_NAMES : Nat → List Nat
  NUM_PROVISIONED_REGIONS : Nat
  PROVISIONED_RIDS : Nat → Nat
  NUM_USERS : Nat
  USER_IDS : Nat → Nat
  USERNAMES : Nat → List Nat
  NUM_PROVISIONED_USERS : Nat
  PROVISIONED_UIDS : Nat → Nat
  PROVISIONED_PINS : Nat → List Nat

/-! ## Data model -/

/-- Local store for drm metadata (`song_md`). -/
structure song_md where
  md_size : Nat
  owner_id : Nat
  num_regions : Nat
  rids : Nat → Nat
  num_users : Nat
  uids : Nat → Nat

/-- Store of internal state (`internal_state`, the global `s`). -/
structure internal_state where
  logged_in : Nat
  uid : Nat
  username : List Nat
  pin : List Nat
  song_md : song_md

/-- Modelled from the spec: the `song` view of the channel declared in
`constants.h`.  `md` is the memory that starts at `&c->song.md`: the metadata
block `md_size | owner_id | num_regions | num_users | rids | uids`, then the
rest of the song. -/
structure song where
  file_size : Nat
  wav_size : Nat
  md : Nat → Nat

/-- Modelled from the spec: the `query` view of the channel declared in
`constants.h`; slot `i` of `regions`/`users` is what `q_region_lookup`/
`q_user_lookup` point at. -/
structure query where
  num_regions : Nat
  num_users : Nat
  owner : List Nat
  regions : Nat → List Nat
  users : Nat → List Nat

/-- Modelled from the spec: the command discriminators `enum commands` of
`constants.h`; `other` stands for every value that names none of them. -/
inductive commands where
  | LOGIN | LOGOUT | QUERY_PLAYER | QUERY_SONG | SHARE | PLAY | PAUSE | STOP | RESTART
  | DIGITAL_OUT
  | other (code : Nat)
  deriving DecidableEq

/-- Modelled from the spec: the controller states `enum states` of
`constants.h`. -/
inductive states where
  | STOPPED | WORKING | PLAYING | PAUSED
  deriving DecidableEq

/-- Modelled from the spec: the shared command channel `cmd_channel` declared
in `constants.h` (the global `c`). -/
structure cmd_channel where
  cmd : commands
  drm_state : states
  login_status : Nat
  username : List Nat
  pin : List Nat
  song : song
  query : query

/-- Where `play_song` takes the IV of a chunk from: the stored IV of the song
(`get_drm_aesiv`) or 16 bytes of the ciphertext at an offset. -/
inductive IvSource where
  | stored
  | song (offset : Nat)
  deriving DecidableEq

/-- Observable events of a run, in program order: a sleep (with the channel
as it stands when the sleep starts), the HMAC check of a chunk, the decryption
of a chunk, the copy of a decrypted chunk into the DMA BRAM, and the start of
a DMA transfer (`fnAudioPlay`). -/
inductive Event where
  | usleep (usec : Nat) (chan : cmd_channel)
  | verify (pos len : Nat)
  | decrypt (pos len : Nat) (iv : IvSource)
  | bram (offset len : Nat)
  | dma (offset cnt : Nat)

/-- The controller: internal state, shared channel and the trace so far. -/
structure Machine where
  s : internal_state
  c : cmd_channel
  trace : List Event

/-! ## libc helpers -/

/-- `memcpy(dst, src, n)` on byte lists. -/
def memcpy (dst src : List Nat) (n : Nat) : List Nat :=
  (List.range n).map (fun i => src.getD i 0) ++ dst.drop n

/-- `memset(dst, v, n)` on byte lists. -/
def memset (dst : List Nat) (v n : Nat) : List Nat :=
  List.replicate n v ++ dst.drop n

/-- `memcpy(dst, src, n)` on idealised arrays. -/
def memcpyA (dst src : Nat → Nat) (n : Nat) : Nat → Nat :=
  fun i => if i < n then src i else dst i

/-- `memmove(base + d, base + a, n)` inside one idealised array. -/
def memmoveA (mem : Nat → Nat) (d a n : Nat) : Nat → Nat :=
  fun i => if d ≤ i ∧ i < d + n then mem (a + (i - d)) else mem i

/-- `strcmp(a, b)`; the result is zero exactly when the two C strings agree.
The end of a list reads as NUL: this is `strcmp` of C when each string ends
inside its buffer, and not when a buffer is full without a NUL. -/
def strcmp : List Nat → List Nat → Int
  | [], [] => 0
  | [], b :: _ => - (b : Int)
  | a :: _, [] => (a : Int)
  | a :: as, b :: bs =>
    if a = b then (if a = 0 then 0 else strcmp as bs) else (a : Int) - (b : Int)

/-- The C string held in a buffer: the bytes before the first NUL. -/
def cstr (buf : List Nat) : List Nat :=
  buf.takeWhile (fun b => b != 0)

/-- `strcpy(dst, src)`: the string of `src` and its terminating NUL.  This is
`strcpy` of C when the string of `src` ends inside `src` and fits `dst` with
its NUL; the C function otherwise reads past `src` and writes past `dst`. -/
def strcpy (dst src : List Nat) : List Nat :=
  cstr src ++ 0 :: dst.drop ((cstr src).length + 1)

/-! ## Layout macros -/

/-- Modelled from the spec: `get_drm_rids(d)` of `constants.h`, the offset of
the region ids inside the metadata block. -/
def get_drm_rids (_d : song) : Nat := 4

/-- Modelled from the spec: `get_drm_uids(d)` of `constants.h`, the offset of
the user ids inside the metadata block. -/
def get_drm_uids (d : song) : Nat := 4 + d.md 2

/-- Modelled from the spec: `get_drm_song(d)` of `constants.h`, the offset of
the first byte after the metadata block. -/
def get_drm_song (d : song) : Nat := d.md 0

/-! ## Utility functions -/

/-- Returns whether an rid has been provisioned. -/
def is_provisioned_rid (S : Secrets) (rid : Nat) : Bool :=
  (List.range S.NUM_PROVISIONED_REGIONS).any (fun i => rid == S.PROVISIONED_RIDS i)

/-- Returns whether a uid has been provisioned. -/
def is_provisioned_uid (S : Secrets) (uid : Nat) : Bool :=
  (List.range S.NUM_PROVISIONED_USERS).any (fun i => uid == S.PROVISIONED_UIDS i)

/-- The name written on a miss of `uid_to_username`: the bytes of
`<unknown user>`. -/
def unknown_user : List Nat :=
  [60, 117, 110, 107, 110, 111, 119, 110, 32, 117, 115, 101, 114, 62]

/-- The name written on a miss of `rid_to_region_name`: the bytes of
`<unknown region>`. -/
def unknown_region : List Nat :=
  [60, 117, 110, 107, 110, 111, 119, 110, 32, 114, 101, 103, 105, 111, 110, 62]

/-- Looks up the region name corresponding to the rid. -/
def rid_to_region_name (S : Secrets) (rid : Nat) (provisioned_only : Bool) :
    Bool × List Nat :=
  match (List.range S.NUM_REGIONS).find?
      (fun i => rid == S.REGION_IDS i && (!provisioned_only || is_provisioned_rid S rid)) with
  | some i => (true, S.REGION_NAMES i)
  | none => (false, unknown_region)

/-- Looks up the username corresponding to the uid. -/
def uid_to_username (S : Secrets) (uid : Nat) (provisioned_only : Bool) :
    Bool × List Nat :=
  match (List.range S.NUM_USERS).find?
      (fun i => uid == S.USER_IDS i && (!provisioned_only || is_provisioned_uid S uid)) with
  | some i => (true, S.USERNAMES i)
  | none => (false, unknown_user)

/-- Looks up the uid corresponding to the username; on a miss the uid is
`(char)-1`. -/
def username_to_uid (S : Secrets) (username : List Nat) (provisioned_only : Bool) :
    Bool × Nat :=
  match (List.range S.NUM_USERS).find?
      (fun i => strcmp username (S.USERNAMES (S.USER_IDS i)) == 0 &&
        (!provisioned_only || is_provisioned_uid S (S.USER_IDS i))) with
  | some i => (true, S.USER_IDS i)
  | none => (false, 255)

/-- Loads the song metadata in the shared buffer into the local struct. -/
def load_song_md (m : Machine) : Machine :=
  let d := m.c.song
  let md : song_md :=
    { md_size := d.md 0
      owner_id := d.md 1
      num_regions := d.md 2
      num_users := d.md 3
      rids := memcpyA m.s.song_md.rids (fun i => d.md (get_drm_rids d + i)) (d.md 2)
      uids := memcpyA m.s.song_md.uids (fun i => d.md (get_drm_uids d + i)) (d.md 3) }
  { m with s := { m.s with song_md := md } }

/-- The user loop of `is_locked`:
`for (i = 0; i < NUM_PROVISIONED_USERS && locked; i++) if (s.uid == s.song_md.uids[i]) locked = FALSE;`
started with `locked = TRUE`. -/
def is_locked_users (S : Secrets) (s : internal_state) : Bool :=
  (List.range S.NUM_PROVISIONED_USERS).foldl
    (fun locked i => if locked && s.uid == s.song_md.uids i then false else locked) true

/-- The region loops of `is_locked`, started with `locked = TRUE`. -/
def is_locked_regions (S : Secrets) (s : internal_state) : Bool :=
  (List.range s.song_md.num_regions).foldl
    (fun locked i =>
      (List.range (S.NUM_PROVISIONED_REGIONS % 256)).foldl
        (fun locked j => if S.PROVISIONED_RIDS j == s.song_md.rids i then false else locked)
        locked)
    true

/-- Checks if the song loaded into the shared buffer is locked for the current
user; returns `locked` and the machine with the reloaded snapshot. -/
def is_locked (S : Secrets) (m : Machine) : Bool × Machine :=
  if m.s.logged_in = 0 then (true, m)
  else
    let m1 := load_song_md m
    let locked :=
      if m1.s.uid = m1.s.song_md.owner_id then false else is_locked_users S m1.s
    if locked then (true, m1)
    else (is_locked_regions S m1.s, m1)

/-- Writes `n` cells of `src` into `buf` from offset `off` on:
`memcpy(buf + off, src, n)`. -/
def writeA (buf : Nat → Nat) (off : Nat) (src : Nat → Nat) (n : Nat) : Nat → Nat :=
  fun i => if off ≤ i ∧ i < off + n then src (i - off) else buf i

/-- The value of a byte read through a plain `char`, which is signed: `0 .. 127`
as they are, `128 .. 255` as `-128 .. -1`. -/
def char_val (b : Nat) : Int :=
  if b % 256 < 128 then ((b % 256 : Nat) : Int) else ((b % 256 : Nat) : Int) - 256

/-- An `int` converted to the 32-bit `size_t` of a length argument. -/
def size_t_of (n : Int) : Nat := (n % (2 ^ 32 : Int)).toNat

/-- Copy the local song metadata into `buf` in the correct format; returns the
buffer and the `int` it returns, which is `buf[0]` read through `char *buf`. -/
def gen_song_md (md : song_md) (buf : Nat → Nat) : (Nat → Nat) × Int :=
  let b0 := Function.update buf 0 ((((5 + md.num_regions + md.num_users) / 2) * 2) % 256)
  let b1 := Function.update b0 1 md.owner_id
  let b2 := Function.update b1 2 md.num_regions
  let b3 := Function.update b2 3 md.num_users
  let b4 := writeA b3 4 md.rids md.num_regions
  let b5 := writeA b4 (4 + md.num_regions) md.uids md.num_users
  (b5, char_val (b5 0))

/-! ## Command functions -/

/-- The search loop of `login`: the first provisioned entry whose name matches
decides; `some uid` when its pin matches too, `none` on `break` or when the
loop runs out. -/
def login_loop (S : Secrets) (s : internal_state) : List Nat → Option Nat
  | [] => none
  | i :: rest =>
    if strcmp s.username (S.USERNAMES (S.PROVISIONED_UIDS i)) = 0 then
      if strcmp s.pin (S.PROVISIONED_PINS i) = 0 then some (S.PROVISIONED_UIDS i) else none
    else login_loop S s rest

/-- Attempt to log in to the credentials in the shared buffer. -/
def login (K : Constants) (S : Secrets) (m : Machine) : Machine :=
  let s1 : internal_state :=
    { m.s with
      username := memcpy m.s.username m.c.username K.USERNAME_SZ
      pin := memcpy m.s.pin m.c.pin K.MAX_PIN_SZ }
  let c1 : cmd_channel :=
    { m.c with
      username := memset m.c.username 0 K.USERNAME_SZ
      pin := memset m.c.pin 0 K.MAX_PIN_SZ }
  if s1.logged_in ≠ 0 then { s := s1, c := c1, trace := m.trace }
  else
    match login_loop S s1 (List.range S.NUM_PROVISIONED_USERS) with
    | some uid => { s := { s1 with logged_in := 1, uid := uid }, c := c1, trace := m.trace }
    | none => { s := s1, c := c1, trace := m.trace ++ [Event.usleep 5000000 c1] }

/-- Attempt to log out. -/
def logout (K : Constants) (m : Machine) : Machine :=
  if m.c.login_status ≠ 0 then
    { m with
      s := { m.s with logged_in := 0, uid := 0 }
      c := { m.c with
             login_status := 0
             username := memset m.c.username 0 K.USERNAME_SZ
             pin := memset m.c.pin 0 K.MAX_PIN_SZ } }
  else m

/-- Handles a request to query the player metadata. -/
def query_player (S : Secrets) (m : Machine) : Machine :=
  let q0 : query :=
    { m.c.query with
      num_regions := S.NUM_PROVISIONED_REGIONS
      num_users := S.NUM_PROVISIONED_USERS }
  let q1 := (List.range S.NUM_PROVISIONED_REGIONS).foldl
    (fun (q : query) i =>
      { q with regions :=
          Function.update q.regions i (strcpy (q.regions i) (S.REGION_NAMES (S.PROVISIONED_RIDS i))) })
    q0
  let q2 := (List.range S.NUM_PROVISIONED_USERS).foldl
    (fun (q : query) i =>
      { q with users := Function.update q.users i (strcpy (q.users i) (S.USERNAMES i)) }) q1
  { m with c := { m.c with query := q2 } }

/-- Handles a request to query song metadata. -/
def query_song (K : Constants) (S : Secrets) (m : Machine) : Machine :=
  let m1 := load_song_md m
  let z : List Nat := List.replicate K.NAME_SZ 0
  let q0 : query :=
    { num_regions := m1.s.song_md.num_regions
      num_users := m1.s.song_md.num_users
      owner := strcpy z (uid_to_username S m1.s.song_md.owner_id false).2
      regions := fun _ => z
      users := fun _ => z }
  let q1 := (List.range m1.s.song_md.num_regions).foldl
    (fun (q : query) i =>
      let name := (rid_to_region_name S (m1.s.song_md.rids i) false).2
      { q with regions := Function.update q.regions i (strcpy (q.regions i) name) })
    q0
  let q2 := (List.range m1.s.song_md.num_users).foldl
    (fun (q : query) i =>
      let name := (uid_to_username S (m1.s.song_md.uids i) false).2
      { q with users := Function.update q.users i (strcpy (q.users i) name) })
    q1
  { m1 with c := { m1.c with query := q2 } }

/-- The rejection exit of `share_song`: `c->song.wav_size = 0; return;`. -/
def share_reject (m : Machine) : Machine :=
  { m with c := { m.c with song := { m.c.song with wav_size := 0 } } }

/-- A `u32` cell after `+= shift` with a signed `shift`. -/
def add32 (x : Nat) (shift : Int) : Nat :=
  (((x : Int) + shift) % (2 ^ 32 : Int)).toNat

/-- Add a user to the list of users of the song.  `new_md` is the content of
the uninitialised local buffer of that name.  `new_md_len` and `shift` are
`int`; the length of the final `memcpy` is `new_md_len` as a `size_t`. -/
def share_song (K : Constants) (S : Secrets) (new_md : Nat → Nat) (m : Machine) : Machine :=
  let m1 := load_song_md m
  if m1.s.logged_in = 0 then share_reject m1
  else if m1.s.uid ≠ m1.s.song_md.owner_id then share_reject m1
  else if (username_to_uid S m1.c.username true).1 = false then share_reject m1
  else if m1.s.song_md.num_users ≥ K.MAX_USERS then share_reject m1
  else
    let uid := (username_to_uid S m1.c.username true).2
    let md1 : song_md :=
      { m1.s.song_md with
        uids := Function.update m1.s.song_md.uids m1.s.song_md.num_users uid
        num_users := (m1.s.song_md.num_users + 1) % 256 }
    let g := gen_song_md md1 new_md
    let new_md_len : Int := g.2
    let shift : Int := new_md_len - (md1.md_size : Int)
    let d := m1.c.song
    let mem1 :=
      if shift ≠ 0 then
        memmoveA d.md ((get_drm_song d : Int) + shift).toNat (get_drm_song d) d.wav_size
      else d.md
    let mem2 := memcpyA mem1 g.1 (size_t_of new_md_len)
    { m1 with
      s := { m1.s with song_md := md1 }
      c := { m1.c with
             song := { file_size := add32 d.file_size shift
                       wav_size := add32 d.wav_size shift
                       md := mem2 } } }

/-- A `u32` cell after `-= y`. -/
def sub32 (x y : Nat) : Nat :=
  (((x : Int) - (y : Int)) % (2 ^ 32 : Int)).toNat

/-- Removes DRM data from song for digital out. -/
def digital_out (K : Constants) (S : Secrets) (m : Machine) : Machine :=
  let d0 := m.c.song
  let d1 : song :=
    { d0 with
      file_size := sub32 d0.file_size (d0.md 0)
      wav_size := sub32 d0.wav_size (d0.md 0) }
  let r := is_locked S { m with c := { m.c with song := d1 } }
  let m2 := r.2
  let d2 : song :=
    if r.1 && decide (K.PREVIEW_SZ < m2.c.song.wav_size) then
      { m2.c.song with
        file_size := sub32 m2.c.song.file_size (sub32 m2.c.song.wav_size K.PREVIEW_SZ)
        wav_size := K.PREVIEW_SZ }
    else m2.c.song
  let d3 : song := { d2 with md := memmoveA d2.md 0 (get_drm_song d2) d2.wav_size }
  { m2 with c := { m2.c with song := d3 } }

/-! ## Playback -/

/-- The environment of one run of `play_song`: the outcome of the wolfCrypt
calls (oracles: `true` is success), the host interrupts, and the hardware
reads.  `irq` lists, for each pass through the body of the playback loop, the
commands the interrupt loop of that pass finds in `c->cmd`, in order of
arrival.  `busy` and `fifo_fill` give the value of each successive read of the
DMA busy bit and of the FIFO count register.  `plainChunk` is the content
`wc_AesCbcDecryptWithKey` leaves in the buffer `plainChunk` for the chunk at
the given position, of the given length, under the given IV. -/
structure PlayEnv where
  setKeyMd : Bool
  verifySong : Bool
  setKey : Bool
  verifyChunk : Nat → Nat → Bool
  decryptChunk : Nat → Nat → IvSource → Bool
  irq : List (List commands)
  busy : Nat → Bool
  fifo_fill : Nat → Nat
  plainChunk : Nat → Nat → IvSource → List Nat

/-- How a run of `play_song` ends: it returns, it spins for ever in the wait
for an interrupt after `PAUSE`, or the fuel of the model runs out. -/
inductive PlayStatus where
  | returned
  | waiting
  | exhausted
  deriving DecidableEq

/-- The local variables of the playback loop, the channel fields it touches
and the events it has produced. -/
structure PlayLoop where
  rem : Nat
  counter : Nat
  firstChunk : Bool
  tick : Nat
  cmd : commands
  drm_state : states
  events : List Event

/-- What the interrupt loop decides: go on with the chunk, return (`STOP`),
or wait for ever. -/
inductive IrqStatus where
  | go
  | stop
  | wait
  deriving DecidableEq

/-- The interrupt loop `while (InterruptProcessed) { ... switch (c->cmd) ... }`
on the commands that arrive during it. -/
def play_irq (lenAudio : Nat) : List commands → PlayLoop → IrqStatus × PlayLoop
  | [], st => (IrqStatus.go, st)
  | commands.PAUSE :: rest, st =>
    match rest with
    | [] => (IrqStatus.wait, { st with cmd := commands.PAUSE, drm_state := states.PAUSED })
    | _ :: _ =>
      play_irq lenAudio rest { st with cmd := commands.PAUSE, drm_state := states.PAUSED }
  | commands.PLAY :: rest, st =>
    play_irq lenAudio rest { st with cmd := commands.PLAY, drm_state := states.PLAYING }
  | commands.STOP :: _, st => (IrqStatus.stop, { st with cmd := commands.STOP })
  | commands.RESTART :: rest, st =>
    play_irq lenAudio rest
      { st with
        cmd := commands.RESTART, rem := lenAudio, firstChunk := true
        drm_state := states.PLAYING }
  | cmd :: rest, st => play_irq lenAudio rest { st with cmd := cmd }

/-- The polling loop
`while (XAxiDma_Busy(..) && rem != lenAudio && *fifo_fill < (FIFO_CAP - 32));`
from read number `tick` on; returns the number of the first read after it. -/
def dma_wait (K : Constants) (E : PlayEnv) (rem lenAudio : Nat) : Nat → Nat → Option Nat
  | 0, _ => none
  | fuel + 1, tick =>
    if E.busy tick && rem != lenAudio && decide (E.fifo_fill tick < sub32 K.FIFO_CAP 32) then
      dma_wait K E rem lenAudio fuel (tick + 1)
    else some (tick + 1)

/-- The loop `while (cp_xfil_cnt > 0) { ... fnAudioPlay(sAxiDma, offset, dma_cnt); ... }`. -/
def dma_loop (K : Constants) (E : PlayEnv) (offset rem lenAudio : Nat) :
    Nat → Nat → PlayLoop → Option PlayLoop
  | 0, _, _ => none
  | fuel + 1, cp_xfil_cnt, st =>
    if cp_xfil_cnt = 0 then some st
    else
      match dma_wait K E rem lenAudio (fuel + 1) st.tick with
      | none => none
      | some t =>
        let dma_cnt :=
          if sub32 K.FIFO_CAP (E.fifo_fill t) > cp_xfil_cnt then sub32 K.FIFO_CAP (E.fifo_fill (t + 1))
          else cp_xfil_cnt
        dma_loop K E offset rem lenAudio fuel (sub32 cp_xfil_cnt dma_cnt)
          { st with tick := t + 2, events := st.events ++ [Event.dma offset dma_cnt] }

/-- The playback loop `while (rem > 0) { ... }`. -/
def play_loop (K : Constants) (E : PlayEnv) (lenAudio nchunks : Nat) :
    Nat → List (List commands) → PlayLoop → PlayStatus × PlayLoop
  | 0, _, st => (PlayStatus.exhausted, st)
  | fuel + 1, irq, st =>
    if st.rem = 0 then (PlayStatus.returned, st)
    else
      match play_irq lenAudio (irq.headD []) st with
      | (IrqStatus.stop, st1) => (PlayStatus.returned, st1)
      | (IrqStatus.wait, st1) => (PlayStatus.waiting, st1)
      | (IrqStatus.go, st1) =>
        let cp_num := if st1.rem > K.CHUNK_SZ then K.CHUNK_SZ else st1.rem
        let offset := if st1.counter % 2 = 0 then 0 else K.CHUNK_SZ
        let counter := (st1.counter + 1) % 2 ^ 32
        let pos := sub32 lenAudio st1.rem
        let iv := if st1.firstChunk then IvSource.stored else IvSource.song (sub32 pos K.AES_BLK_SZ)
        let st2 : PlayLoop :=
          { st1 with
            counter := counter, firstChunk := false
            events := st1.events ++ [Event.verify pos cp_num] }
        if E.verifyChunk pos cp_num = false then (PlayStatus.returned, st2)
        else
          let st3 : PlayLoop := { st2 with events := st2.events ++ [Event.decrypt pos cp_num iv] }
          if E.decryptChunk pos cp_num iv = false then (PlayStatus.returned, st3)
          else
            let st4 : PlayLoop := { st3 with events := st3.events ++ [Event.bram offset cp_num] }
            match dma_loop K E offset st4.rem lenAudio (fuel + 1) cp_num st4 with
            | none => (PlayStatus.exhausted, st4)
            | some st5 =>
              play_loop K E lenAudio nchunks fuel irq.tail { st5 with rem := sub32 st5.rem cp_num }

/-- Plays a song and looks for play-time commands. -/
def play_song (K : Constants) (S : Secrets) (E : PlayEnv) (fuel : Nat) (m : Machine) :
    PlayStatus × Machine :=
  if E.setKeyMd = false then (PlayStatus.returned, m)
  else
    let m1 := load_song_md m
    let lenAudio0 :=
      sub32 (sub32 (sub32 m1.c.song.wav_size K.SIGNATURE_SZ) (m1.c.song.md 0)) K.AES_BLK_SZ
    if E.verifySong = false then (PlayStatus.returned, m1)
    else
      let nchunks :=
        if lenAudio0 % K.CHUNK_SZ = 0 then lenAudio0 / K.CHUNK_SZ else lenAudio0 / K.CHUNK_SZ + 1
      let r := if lenAudio0 > K.PREVIEW_SZ then is_locked S m1 else (false, m1)
      let lenAudio := if decide (lenAudio0 > K.PREVIEW_SZ) && r.1 then K.PREVIEW_SZ else lenAudio0
      let m2 := r.2
      if E.setKey = false then (PlayStatus.returned, m2)
      else
        let st0 : PlayLoop :=
          { rem := lenAudio, counter := 0, firstChunk := true, tick := 0
            cmd := m2.c.cmd, drm_state := states.PLAYING, events := [] }
        let out := play_loop K E lenAudio nchunks fuel E.irq st0
        (out.1,
          { s := m2.s
            c := { m2.c with cmd := out.2.cmd, drm_state := out.2.drm_state }
            trace := m2.trace ++ out.2.events })

/-! ## Dispatcher -/

/-- The environment of one iteration of the dispatcher: the content of the
uninitialised buffer of `share_song`, the environment of `play_song`, and the
fuel of the playback model. -/
structure Env where
  new_md : Nat → Nat
  play : PlayEnv
  fuel : Nat

/-- The end of a dispatcher iteration: publish the statuses, sleep, stop. -/
def publish (m : Machine) : Machine :=
  let c1 : cmd_channel :=
    { m.c with
      username := strcpy m.c.username m.s.username
      login_status := m.s.logged_in }
  { m with
    c := { c1 with drm_state := states.STOPPED }
    trace := m.trace ++ [Event.usleep 500 c1] }

/-- The handler the dispatcher runs for the command in the channel. -/
def dispatch (K : Constants) (S : Secrets) (E : Env) (m : Machine) : PlayStatus × Machine :=
  match m.c.cmd with
  | commands.LOGIN => (PlayStatus.returned, login K S m)
  | commands.LOGOUT => (PlayStatus.returned, logout K m)
  | commands.QUERY_PLAYER => (PlayStatus.returned, query_player S m)
  | commands.QUERY_SONG => (PlayStatus.returned, query_song K S m)
  | commands.SHARE => (PlayStatus.returned, share_song K S E.new_md m)
  | commands.PLAY => play_song K S E.play E.fuel m
  | commands.DIGITAL_OUT => (PlayStatus.returned, digital_out K S m)
  | _ => (PlayStatus.returned, m)

/-- One iteration of the command loop of `main` once the interrupt flag is
seen set. -/
def main_step (K : Constants) (S : Secrets) (E : Env) (m : Machine) : PlayStatus × Machine :=
  let m0 : Machine := { m with c := { m.c with drm_state := states.WORKING } }
  let r := dispatch K S E m0
  match r.1 with
  | PlayStatus.returned => (PlayStatus.returned, publish r.2)
  | st => (st, r.2)

/-! ## The dispatcher state at boot and sample parameters -/

/-- The internal state at boot: a zero-initialised global. -/
def boot_state (K : Constants) : internal_state :=
  { logged_in := 0
    uid := 0
    username := List.replicate K.USERNAME_SZ 0
    pin := List.replicate K.MAX_PIN_SZ 0
    song_md :=
      { md_size := 0, owner_id := 0, num_regions := 0, rids := fun _ => 0
        num_users := 0, uids := fun _ => 0 } }

/-- The channel after `memset((void*)c, 0, sizeof(cmd_channel))`. -/
def boot_channel (K : Constants) : cmd_channel :=
  { cmd := commands.other 0
    drm_state := states.STOPPED
    login_status := 0
    username := List.replicate K.USERNAME_SZ 0
    pin := List.replicate K.MAX_PIN_SZ 0
    song := { file_size := 0, wav_size := 0, md := fun _ => 0 }
    query :=
      { num_regions := 0, num_users := 0, owner := List.replicate K.NAME_SZ 0
        regions := fun _ => List.replicate K.NAME_SZ 0
        users := fun _ => List.replicate K.NAME_SZ 0 } }

/-- The states the controller can be in: boot, then any mix of writes of the
host into the channel, command handlers, and dispatcher iterations. -/
inductive Reachable (K : Constants) (S : Secrets) : Machine → Prop where
  | boot : Reachable K S { s := boot_state K, c := boot_channel K, trace := [] }
  | host (m : Machine) (c : cmd_channel) : Reachable K S m → Reachable K S { m with c := c }
  | login (m : Machine) : Reachable K S m → Reachable K S (login K S m)
  | logout (m : Machine) : Reachable K S m → Reachable K S (logout K m)
  | query_player (m : Machine) : Reachable K S m → Reachable K S (query_player S m)
  | query_song (m : Machine) : Reachable K S m → Reachable K S (query_song K S m)
  | share_song (m : Machine) (new_md : Nat → Nat) :
      Reachable K S m → Reachable K S (share_song K S new_md m)
  | play_song (m : Machine) (E : PlayEnv) (fuel : Nat) :
      Reachable K S m → Reachable K S (play_song K S E fuel m).2
  | digital_out (m : Machine) : Reachable K S m → Reachable K S (digital_out K S m)
  | main_step (m : Machine) (E : Env) : Reachable K S m → Reachable K S (main_step K S E m).2

/-- An array given by its initial cells; the cells after them are zero. -/
def cells (l : List Nat) : Nat → Nat := fun i => l.getD i 0

/-- A table of strings given by its entries. -/
def strings (l : List (List Nat)) : Nat → List Nat := fun i => l.getD i []

/-- A buffer of `n` bytes holding the string `str`. -/
def buffer (n : Nat) (str : List Nat) : List Nat :=
  str ++ List.replicate (n - str.length) 0

/-- Sample constants. -/
def sampleK : Constants :=
  { USERNAME_SZ := 16, MAX_PIN_SZ := 16, MAX_USERS := 8, MAX_REGIONS := 8
    CHUNK_SZ := 32, PREVIEW_SZ := 64, FIFO_CAP := 128, AES_BLK_SZ := 16
    SIGNATURE_SZ := 32, NAME_SZ := 16 }

/-- The bytes of `alice`. -/
def alice : List Nat := [97, 108, 105, 99, 101]

/-- The bytes of `bob`. -/
def bob : List Nat := [98, 111, 98]

/-- The bytes of `carol`. -/
def carol : List Nat := [99, 97, 114, 111, 108]

/-- Sample secrets: users alice (0), bob (1), carol (2); alice and bob are
provisioned with pins `1234` and `0000`; regions 0 and 1, region 0
provisioned. -/
def sampleS : Secrets :=
  { NUM_REGIONS := 2
    REGION_IDS := cells [0, 1]
    REGION_NAMES := strings [[85, 83], [69, 85]]
    NUM_PROVISIONED_REGIONS := 1
    PROVISIONED_RIDS := cells [0]
    NUM_USERS := 3
    USER_IDS := cells [0, 1, 2]
    USERNAMES := strings [alice, bob, carol]
    NUM_PROVISIONED_USERS := 2
    PROVISIONED_UIDS := cells [0, 1]
    PROVISIONED_PINS := strings [[49, 50, 51, 52], [48, 48, 48, 48]] }

/-- The machine at boot with the given song area in the channel and the given
session fields. -/
def sampleM (logged_in uid : Nat) (username : List Nat) (d : song) : Machine :=
  { s := { boot_state sampleK with
           logged_in := logged_in, uid := uid, username := buffer 16 username }
    c := { boot_channel sampleK with song := d, login_status := logged_in }
    trace := [] }

/-- The machine right after boot with the given attempt in the channel. -/
def bootM (username pin : List Nat) : Machine :=
  { s := boot_state sampleK
    c := { boot_channel sampleK with username := buffer 16 username, pin := buffer 16 pin }
    trace := [] }

/-- The host replaces the song area of the channel. -/
def host_song (m : Machine) (d : song) : Machine :=
  { m with c := { m.c with song := d } }

/-- A song owned by bob (uid 1), region 0, shared with nobody. -/
def song_of_bob : song :=
  { file_size := 100, wav_size := 60, md := cells [6, 1, 1, 0, 0, 0] }

/-- A song owned by alice (uid 0), region 0, shared with carol (2) and bob (1). -/
def song_shared : song :=
  { file_size := 100, wav_size := 60, md := cells [8, 0, 1, 2, 0, 2, 1, 0] }

/-- Sample secrets of a player on which only bob is provisioned. -/
def bobS : Secrets :=
  { sampleS with
    NUM_PROVISIONED_USERS := 1
    PROVISIONED_UIDS := cells [1]
    PROVISIONED_PINS := strings [[48, 48, 48, 48]] }

/-- Sample secrets in which two provisioned entries carry the same name:
uids 0 and 1 are both called alice, with pins `1234` and `0000`. -/
def twinS : Secrets :=
  { sampleS with USERNAMES := strings [alice, alice, carol] }

/-- The host writes a command into the channel. -/
def host_cmd (m : Machine) (cmd : commands) : Machine :=
  { m with c := { m.c with cmd := cmd } }

/-- A sample environment: every wolfCrypt call succeeds, no interrupt arrives,
the DMA engine is idle and the FIFO is empty. -/
def sampleE : Env :=
  { new_md := fun _ => 0
    play :=
      { setKeyMd := true, verifySong := true, setKey := true
        verifyChunk := fun _ _ => true, decryptChunk := fun _ _ _ => true
        irq := [], busy := fun _ => false, fifo_fill := fun _ => 0
        plainChunk := fun _ len _ => List.replicate len 0 }
    fuel := 64 }

/-- Two internal states agree on who is logged in. -/
def same_login (s t : internal_state) : Prop :=
  t.logged_in = s.logged_in ∧ t.uid = s.uid

/-- The session invariant: a logged-in session carries the uid of a
provisioned entry. -/
def session_ok (S : Secrets) (s : internal_state) : Prop :=
  s.logged_in ≠ 0 → ∃ i, i < S.NUM_PROVISIONED_USERS ∧ s.uid = S.PROVISIONED_UIDS i

/-- The snapshot on the success path of `share_song`, after
`s.song_md.uids[s.song_md.num_users++] = uid`: the loaded metadata with the
resolved uid appended. -/
def share_md (S : Secrets) (m : Machine) : song_md :=
  { (load_song_md m).s.song_md with
    uids := Function.update (load_song_md m).s.song_md.uids (load_song_md m).s.song_md.num_users
      (username_to_uid S m.c.username true).2
    num_users := ((load_song_md m).s.song_md.num_users + 1) % 256 }

/-- The even number a metadata size is padded to. -/
def round_up_even (n : Nat) : Nat := if n % 2 = 0 then n else n + 1

/-- A song owned by alice (uid 0) with regions 0 and 1 and no shared user;
`md_size = 6`. -/
def song_of_alice (file_size wav_size : Nat) : song :=
  { file_size := file_size, wav_size := wav_size, md := cells [6, 0, 2, 0, 0, 1] }

/-- Alice, logged in, asks to share her song with bob. -/
def share_input (file_size wav_size : Nat) : Machine :=
  { s := { boot_state sampleK with logged_in := 1, uid := 0, username := buffer 16 alice }
    c := { boot_channel sampleK with
           cmd := commands.SHARE, login_status := 1, username := buffer 16 bob
           song := song_of_alice file_size wav_size }
    trace := [] }

/-- Sample secrets whose `USER_IDS` is not the identity: the parallel arrays
give alice uid 1 and bob uid 0; all three users are provisioned. -/
def permS : Secrets :=
  { sampleS with
    USER_IDS := cells [1, 0, 2]
    NUM_PROVISIONED_USERS := 3
    PROVISIONED_UIDS := cells [0, 1, 2]
    PROVISIONED_PINS := strings [[49, 50, 51, 52], [48, 48, 48, 48], [49, 49, 49, 49]] }

/-- Carol (uid 2), logged in on the player of `permS`, asks to share her song
(one region, no shared user) with alice. -/
def perm_input : Machine :=
  { s := { boot_state sampleK with logged_in := 1, uid := 2, username := buffer 16 carol }
    c := { boot_channel sampleK with
           cmd := commands.SHARE, login_status := 1, username := buffer 16 alice
           song := { file_size := 100, wav_size := 60, md := cells [6, 2, 1, 0, 0, 0] } }
    trace := [] }

/-- Alice, logged in, asks to share with bob a song (one region) that already
lists bob (uid 1); `md_size = 6`. -/
def share_again_input : Machine :=
  { s := { boot_state sampleK with logged_in := 1, uid := 0, username := buffer 16 alice }
    c := { boot_channel sampleK with
           cmd := commands.SHARE, login_status := 1, username := buffer 16 bob
           song := { file_size := 100, wav_size := 60, md := cells [6, 0, 1, 1, 0, 1] } }
    trace := [] }

/-- A song whose metadata announces 9 regions, one more than `MAX_REGIONS` of
`sampleK`, under `md_size = 6`. -/
def song_nine_regions : song :=
  { file_size := 100, wav_size := 60
    md := cells [6, 0, 9, 0, 11, 12, 13, 14, 15, 16, 17, 18, 19] }

/-- Nobody is logged in (so every song is locked); the channel holds a song
with `md_size = 6` and the given sizes. -/
def locked_input (file_size wav_size : Nat) : Machine :=
  { s := boot_state sampleK
    c := { boot_channel sampleK with
           cmd := commands.DIGITAL_OUT
           song := { file_size := file_size, wav_size := wav_size, md := cells [6, 1, 1, 0, 0, 0] } }
    trace := [] }

/-- The copies into the DMA BRAM recorded in a trace, in order: offset of the
half-buffer and number of bytes. -/
def brams : List Event → List (Nat × Nat)
  | [] => []
  | Event.bram offset len :: es => (offset, len) :: brams es
  | _ :: es => brams es

/-- The DMA transfers recorded in a trace, in order: offset and byte count. -/
def dmas : List Event → List (Nat × Nat)
  | [] => []
  | Event.dma offset cnt :: es => (offset, cnt) :: dmas es
  | _ :: es => dmas es

/-- The total number of bytes copied into the DMA BRAM in a trace. -/
def bram_total (es : List Event) : Nat := ((brams es).map Prod.snd).sum

/-- The state of the playback loop when `play_song` enters it with `lenAudio`
bytes to play. -/
def play_start (lenAudio : Nat) (cmd : commands) : PlayLoop :=
  { rem := lenAudio, counter := 0, firstChunk := true, tick := 0
    cmd := cmd, drm_state := states.PLAYING, events := [] }

/-- The value `play_song` computes for `lenAudio` before the preview check. -/
def lenAudio_of (K : Constants) (d : song) : Nat :=
  sub32 (sub32 (sub32 d.wav_size K.SIGNATURE_SZ) (d.md 0)) K.AES_BLK_SZ

/-- The number of bytes `play_song` sets out to play: `PREVIEW_SZ` when
`lenAudio > PREVIEW_SZ` and `is_locked()` holds, else `lenAudio`. -/
def play_len (K : Constants) (S : Secrets) (m : Machine) : Nat :=
  if lenAudio_of K m.c.song > K.PREVIEW_SZ ∧ (is_locked S (load_song_md m)).1 = true
    then K.PREVIEW_SZ else lenAudio_of K m.c.song

/-- A playback environment without interrupts in which every wolfCrypt call
succeeds, the DMA engine is idle and the FIFO count register reads `FIFO_CAP`
of `sampleK`. -/
def quietE : PlayEnv :=
  { setKeyMd := true, verifySong := true, setKey := true
    verifyChunk := fun _ _ => true, decryptChunk := fun _ _ _ => true
    irq := [], busy := fun _ => false, fifo_fill := fun _ => 128
    plainChunk := fun _ len _ => List.replicate len 0 }

/-- Alice (uid 0), logged in, plays her own song of region 0: 80 bytes of
audio after a 6-byte metadata block, the IV and the signature. -/
def play_input : Machine :=
  { s := { boot_state sampleK with logged_in := 1, uid := 0, username := buffer 16 alice }
    c := { boot_channel sampleK with
           cmd := commands.PLAY, login_status := 1
           song := { file_size := 178, wav_size := 134, md := cells [6, 0, 1, 0, 0, 0] } }
    trace := [] }

/-- Every chunk check recorded in a list of events is one the oracle passes. -/
def verified_ok (E : PlayEnv) (evs : List Event) : Prop :=
  ∀ pos len, Event.verify pos len ∈ evs → E.verifyChunk pos len = true

/-- The environment `quietE` with a chunk tag that does not verify: the check
of the chunk at offset 32 fails. -/
def tamperE : PlayEnv :=
  { quietE with verifyChunk := fun pos _ => pos != 32 }

/-- The environment `quietE` with two interrupts during the first pass of the
playback loop: the host sends PAUSE, then QUERY_SONG. -/
def pauseE : PlayEnv :=
  { quietE with irq := [[commands.PAUSE, commands.QUERY_SONG]] }

/-- The environment `quietE` where the plaintext of every chunk ends with
the byte `p`, the rest being the byte 7. -/
def paddedE (p : Nat) : PlayEnv :=
  { quietE with plainChunk := fun _ len _ => List.replicate (len - 1) 7 ++ [p] }

/-- The environment `quietE` with an empty FIFO: the count register reads 0,
so `FIFO_CAP - fill` is 128 with `sampleK`. -/
def emptyFifoE : PlayEnv :=
  { quietE with fifo_fill := fun _ => 0 }

/-- The environment `quietE` with an almost full FIFO: the count register
reads 120, so `FIFO_CAP - fill` is 8 with `sampleK`. -/
def nearFullE : PlayEnv :=
  { quietE with fifo_fill := fun _ => 120 }

/-- The invariant of the playback loop behind the IV chaining: `rem` never
exceeds `lenAudio`, the offset `lenAudio - rem` of the next chunk is a multiple
of `CHUNK_SZ`, and `firstChunk` is set exactly when that offset is 0. -/
def chain_inv (K : Constants) (lenAudio : Nat) (st : PlayLoop) : Prop :=
  st.rem ≤ lenAudio ∧ (st.rem ≠ 0 → K.CHUNK_SZ ∣ lenAudio - st.rem) ∧
  (st.firstChunk = true → st.rem = lenAudio) ∧ (st.firstChunk = false → st.rem < lenAudio)

/-- A decryption at offset `pos`, of `len` bytes, under the IV `iv` follows
the CBC chaining: the offset is a multiple of `CHUNK_SZ` inside the audio, the
IV is the stored one exactly at offset 0, and otherwise it is the block of
`AES_BLK_SZ` ciphertext bytes that ends at `pos`. -/
def chained (K : Constants) (lenAudio pos len : Nat) (iv : IvSource) : Prop :=
  K.CHUNK_SZ ∣ pos ∧ pos + len ≤ lenAudio ∧ (iv = IvSource.stored ↔ pos = 0) ∧
  (pos ≠ 0 → K.AES_BLK_SZ ≤ pos ∧ iv = IvSource.song (pos - K.AES_BLK_SZ))

/-- The environment `quietE` with interrupts: PAUSE then PLAY during the
second pass of the playback loop, RESTART during the third. -/
def restartE : PlayEnv :=
  { quietE with irq := [[], [commands.PAUSE, commands.PLAY], [commands.RESTART]] }

/-- Where a playback stands with respect to the chunk gate, read off its
events: nothing done yet; a chunk has passed its check; it has been decrypted;
it has been copied into the DMA buffer at `offset`; at least one DMA transfer
of it has been started; or the playback is over (a check or a decryption has
failed). -/
inductive Gate where
  | idle
  | checked (pos len : Nat)
  | decrypted (len : Nat)
  | copied (offset : Nat)
  | sent (offset : Nat)
  | closed
  deriving DecidableEq

/-- The events the chunk gate lets through, and where they lead: a check only
before the first chunk or after a chunk that has been transferred; the
decryption only of the bytes just checked, and only if their check passed; the
copy only of the chunk just decrypted, and only if the decryption succeeded; a
DMA transfer only from the offset the chunk was copied to; nothing after a
failed check or a failed decryption. -/
def gate_step (E : PlayEnv) : Gate → Event → Option Gate
  | Gate.idle, Event.verify pos len =>
    some (if E.verifyChunk pos len then Gate.checked pos len else Gate.closed)
  | Gate.sent _, Event.verify pos len =>
    some (if E.verifyChunk pos len then Gate.checked pos len else Gate.closed)
  | Gate.checked pos len, Event.decrypt p l iv =>
    if p = pos ∧ l = len then
      some (if E.decryptChunk p l iv then Gate.decrypted len else Gate.closed)
    else none
  | Gate.decrypted len, Event.bram offset l =>
    if l = len then some (Gate.copied offset) else none
  | Gate.copied offset, Event.dma o _ => if o = offset then some (Gate.sent offset) else none
  | Gate.sent offset, Event.dma o _ => if o = offset then some (Gate.sent offset) else none
  | _, _ => none

/-- Runs the chunk gate over a list of events; `none` when an event is not let
through. -/
def gate_run (E : PlayEnv) : Gate → List Event → Option Gate
  | g, [] => some g
  | g, e :: es =>
    match gate_step E g e with
    | some g1 => gate_run E g1 es
    | none => none

/-- A list of events passes the chunk gate from the start of a playback. -/
def gated (E : PlayEnv) (evs : List Event) : Prop :=
  (gate_run E Gate.idle evs).isSome = true

/-- Hardware readings under which every DMA transfer loop of `play_song`
ends: `FIFO_CAP` is at most `2 ^ 31`; the FIFO count register never reads
above `FIFO_CAP`; a FIFO that is read not full is not full at the next read;
and out of any `W` successive reads of the busy bit and the count register,
one finds the DMA engine idle or the count at `FIFO_CAP - 32` or more. -/
def dma_ready (K : Constants) (E : PlayEnv) (W : Nat) : Prop :=
  K.FIFO_CAP ≤ 2 ^ 31 ∧
  (∀ t, E.fifo_fill t ≤ K.FIFO_CAP) ∧
  (∀ t, E.fifo_fill t < K.FIFO_CAP → E.fifo_fill (t + 1) < K.FIFO_CAP) ∧
  (∀ t, ∃ k, k < W ∧ (E.busy (t + k) = false ∨ sub32 K.FIFO_CAP 32 ≤ E.fifo_fill (t + k)))

/-- The environment `quietE` with a DMA engine that stays busy and a FIFO
count register that stays at 0. -/
def stuckE : PlayEnv :=
  { quietE with busy := fun _ => true, fifo_fill := fun _ => 0 }

theorem strcmp_eq_zero_iff (a b : List Nat) : strcmp a b = 0 ↔ cstr a = cstr b := by
  induction a generalizing b with
  | nil =>
    cases b with
    | nil => simp [strcmp, cstr]
    | cons y ys =>
      by_cases hy : y = 0
      · simp [strcmp, cstr, hy]
      · simp [strcmp, cstr, hy]
  | cons x xs ih =>
    cases b with
    | nil =>
      by_cases hx : x = 0
      · simp [strcmp, cstr, hx]
      · simp [strcmp, cstr, hx]
    | cons y ys =>
      by_cases hxy : x = y
      · subst hxy
        by_cases hx : x = 0
        · simp [strcmp, cstr, hx]
        · have := ih ys
          simp only [cstr] at this
          simp [strcmp, cstr, hx, this]
      · have hne : (x : Int) - (y : Int) ≠ 0 := by omega
        by_cases hx : x = 0
        · by_cases hy : y = 0
          · omega
          · simp [strcmp, cstr, hx, hy, hxy]
            omega
        · by_cases hy : y = 0
          · simp [strcmp, cstr, hx, hy, hxy]
          · simp [strcmp, cstr, hx, hy, hxy, hne]

/-! ### Authorization evaluator -/

/-- C1 (lock soundness), evaluated at a failing input.  After boot alice
(uid 0) logs in and the host loads a song owned by bob that is shared with
nobody (`num_users = 0`) and carries the provisioned region.  `is_locked`
returns unlocked: the user loop runs over `NUM_PROVISIONED_USERS` cells of
the snapshot instead of `num_users`, and cell 0, never written by the load,
still holds 0.  Alice is not the owner and occurs at no index below
`num_users`. -/
theorem is_locked_unlocks_stale_uid :
    (login sampleK sampleS (bootM alice [49, 50, 51, 52])).s.logged_in = 1 ∧
    (login sampleK sampleS (bootM alice [49, 50, 51, 52])).s.uid = 0 ∧
    (is_locked sampleS
      (host_song (login sampleK sampleS (bootM alice [49, 50, 51, 52])) song_of_bob)).1 = false ∧
    ¬ (0 = song_of_bob.md 1 ∨
        ∃ i, i < song_of_bob.md 3 ∧ song_of_bob.md (get_drm_uids song_of_bob + i) = 0) := by
  refine ⟨by decide, by decide, by decide, ?_⟩
  rintro (h | ⟨i, hi, _⟩)
  · exact absurd h (by decide)
  · have h0 : song_of_bob.md 3 = 0 := by decide
    omega

/-- C2 (lock completeness for shared users), evaluated at a failing input.
On a player with one provisioned user, bob (uid 1), bob logs in after boot;
the song is owned by alice, lists carol and bob (`num_users = 2`, bob at
index 1) and carries the provisioned region 0.  `is_locked` returns locked:
the user loop stops at `NUM_PROVISIONED_USERS = 1` and never reads index 1. -/
theorem is_locked_misses_shared_user :
    (login sampleK bobS (bootM bob [48, 48, 48, 48])).s.logged_in = 1 ∧
    (login sampleK bobS (bootM bob [48, 48, 48, 48])).s.uid = 1 ∧
    1 ≠ song_shared.md 1 ∧
    (1 < song_shared.md 3 ∧ song_shared.md (get_drm_uids song_shared + 1) = 1) ∧
    (0 < song_shared.md 2 ∧
      is_provisioned_rid bobS (song_shared.md (get_drm_rids song_shared + 0)) = true) ∧
    (is_locked bobS
      (host_song (login sampleK bobS (bootM bob [48, 48, 48, 48])) song_shared)).1 = true := by
  decide

/-! ### Login -/

theorem cstr_append_zeros (l : List Nat) (k : Nat) :
    cstr (l ++ List.replicate k 0) = cstr l := by
  induction l with
  | nil => cases k <;> simp [cstr, List.replicate]
  | cons x xs ih =>
    simp only [cstr] at ih
    by_cases hx : x = 0
    · simp [cstr, hx]
    · simp [cstr, hx, ih]

theorem map_getD_range (src : List Nat) (n : Nat) (h : src.length ≤ n) :
    (List.range n).map (fun i => src.getD i 0) = src ++ List.replicate (n - src.length) 0 := by
  apply List.ext_getElem
  · simp; omega
  · intro i h1 h2
    simp only [List.getElem_map, List.getElem_range]
    by_cases hi : i < src.length
    · rw [List.getElem_append_left hi]
      simp [List.getD_eq_getElem?_getD, List.getElem?_eq_getElem hi]
    · rw [List.getElem_append_right (by omega)]
      simp [List.getD_eq_getElem?_getD, List.getElem?_eq_none (by omega : src.length ≤ i)]

theorem cstr_memcpy (dst src : List Nat) (n : Nat) (hd : dst.length ≤ n) (hs : src.length ≤ n) :
    cstr (memcpy dst src n) = cstr src := by
  unfold memcpy
  rw [map_getD_range src n hs, List.drop_eq_nil_of_le hd, List.append_nil, cstr_append_zeros]

theorem login_loop_eq_find (S : Secrets) (s : internal_state) (l : List Nat) :
    login_loop S s l =
      match l.find? (fun i => strcmp s.username (S.USERNAMES (S.PROVISIONED_UIDS i)) == 0) with
      | some i =>
        if strcmp s.pin (S.PROVISIONED_PINS i) = 0 then some (S.PROVISIONED_UIDS i) else none
      | none => none := by
  induction l with
  | nil => simp [login_loop]
  | cons i rest ih =>
    by_cases h : strcmp s.username (S.USERNAMES (S.PROVISIONED_UIDS i)) = 0
    · simp [login_loop, List.find?, h]
    · have hb : (strcmp s.username (S.USERNAMES (S.PROVISIONED_UIDS i)) == 0) = false := by
        simpa using h
      simp only [login_loop, List.find?, h, if_false, hb]
      exact ih

/-- The search loop of `login` succeeds with `u` exactly when the first
provisioned entry whose name is the attempted name has the attempted pin, and
`u` is the uid of that entry. -/
theorem login_loop_eq_some (S : Secrets) (s : internal_state) (n u : Nat) :
    login_loop S s (List.range n) = some u ↔
      ∃ i, i < n ∧ cstr s.username = cstr (S.USERNAMES (S.PROVISIONED_UIDS i)) ∧
        (∀ j, j < i → cstr s.username ≠ cstr (S.USERNAMES (S.PROVISIONED_UIDS j))) ∧
        cstr s.pin = cstr (S.PROVISIONED_PINS i) ∧ u = S.PROVISIONED_UIDS i := by
  rw [login_loop_eq_find]
  constructor
  · intro h
    split at h
    · rename_i i hi
      rw [List.find?_range_eq_some] at hi
      obtain ⟨h1, h2, h3⟩ := hi
      split at h
      · rename_i hp
        refine ⟨i, List.mem_range.mp h2, ?_, ?_, ?_, ?_⟩
        · exact (strcmp_eq_zero_iff _ _).mp (by simpa using h1)
        · intro j hj hc
          have := h3 j hj
          rw [← strcmp_eq_zero_iff] at hc
          simp [hc] at this
        · exact (strcmp_eq_zero_iff _ _).mp hp
        · simpa using h.symm
      · simp at h
    · simp at h
  · rintro ⟨i, hi, hn, hfirst, hp, hu⟩
    have hfind : (List.range n).find?
        (fun i => strcmp s.username (S.USERNAMES (S.PROVISIONED_UIDS i)) == 0) = some i := by
      rw [List.find?_range_eq_some]
      refine ⟨?_, List.mem_range.mpr hi, ?_⟩
      · simpa using (strcmp_eq_zero_iff _ _).mpr hn
      · intro j hj
        have := hfirst j hj
        rw [Ne, ← strcmp_eq_zero_iff] at this
        simp [this]
    rw [hfind]
    simp [(strcmp_eq_zero_iff _ _).mpr hp, hu]

/-- The session after `login` from a logged-out session, by the outcome of
the search loop on the copied attempt. -/
theorem login_logged_out (K : Constants) (S : Secrets) (m : Machine) (hout : m.s.logged_in = 0) :
    login K S m =
      match login_loop S
          { m.s with
            username := memcpy m.s.username m.c.username K.USERNAME_SZ
            pin := memcpy m.s.pin m.c.pin K.MAX_PIN_SZ }
          (List.range S.NUM_PROVISIONED_USERS) with
      | some uid =>
        { s := { m.s with
                 username := memcpy m.s.username m.c.username K.USERNAME_SZ
                 pin := memcpy m.s.pin m.c.pin K.MAX_PIN_SZ
                 logged_in := 1, uid := uid }
          c := { m.c with
                 username := memset m.c.username 0 K.USERNAME_SZ
                 pin := memset m.c.pin 0 K.MAX_PIN_SZ }
          trace := m.trace }
      | none =>
        { s := { m.s with
                 username := memcpy m.s.username m.c.username K.USERNAME_SZ
                 pin := memcpy m.s.pin m.c.pin K.MAX_PIN_SZ }
          c := { m.c with
                 username := memset m.c.username 0 K.USERNAME_SZ
                 pin := memset m.c.pin 0 K.MAX_PIN_SZ }
          trace := m.trace ++
            [Event.usleep 5000000
              { m.c with
                username := memset m.c.username 0 K.USERNAME_SZ
                pin := memset m.c.pin 0 K.MAX_PIN_SZ }] } := by
  simp only [login, hout, ne_eq, not_true_eq_false, if_false]

/-- C3 (auth totality), as the code has it.  The provisioned names and pins
are shorter than the buffers `username[USERNAME_SZ]` and `pin[MAX_PIN_SZ]`, so
that every comparison ends inside the session buffer it reads.  From a
logged-out session, `login` leaves the session logged in exactly when the
FIRST provisioned entry `i < NUM_PROVISIONED_USERS` whose name
`USERNAMES[PROVISIONED_UIDS[i]]` equals the username in the channel also has
`PROVISIONED_PINS[i]` equal to the pin in the channel; then `logged_in = 1`
and `uid = PROVISIONED_UIDS[i]`.  (The loop breaks at the first name match,
so a later entry of the same name is never tried.)  A username or pin that
fills its buffer without a terminating NUL never logs in.  The buffers have
their declared sizes. -/
theorem login_iff_first_match (K : Constants) (S : Secrets) (m : Machine)
    (hout : m.s.logged_in = 0)
    (hcu : m.c.username.length ≤ K.USERNAME_SZ) (hsu : m.s.username.length ≤ K.USERNAME_SZ)
    (hcp : m.c.pin.length ≤ K.MAX_PIN_SZ) (hsp : m.s.pin.length ≤ K.MAX_PIN_SZ)
    (hnames : ∀ i, i < S.NUM_PROVISIONED_USERS →
      (cstr (S.USERNAMES (S.PROVISIONED_UIDS i))).length < K.USERNAME_SZ)
    (hpins : ∀ i, i < S.NUM_PROVISIONED_USERS →
      (cstr (S.PROVISIONED_PINS i)).length < K.MAX_PIN_SZ) :
    ((login K S m).s.logged_in ≠ 0 ↔
      ∃ i, i < S.NUM_PROVISIONED_USERS ∧
        cstr m.c.username = cstr (S.USERNAMES (S.PROVISIONED_UIDS i)) ∧
        (∀ j, j < i → cstr m.c.username ≠ cstr (S.USERNAMES (S.PROVISIONED_UIDS j))) ∧
        cstr m.c.pin = cstr (S.PROVISIONED_PINS i)) ∧
    (∀ i, i < S.NUM_PROVISIONED_USERS →
        cstr m.c.username = cstr (S.USERNAMES (S.PROVISIONED_UIDS i)) →
        (∀ j, j < i → cstr m.c.username ≠ cstr (S.USERNAMES (S.PROVISIONED_UIDS j))) →
        cstr m.c.pin = cstr (S.PROVISIONED_PINS i) →
        (login K S m).s.logged_in = 1 ∧ (login K S m).s.uid = S.PROVISIONED_UIDS i) ∧
    ((login K S m).s.logged_in ≠ 0 →
      (cstr m.c.username).length < K.USERNAME_SZ ∧ (cstr m.c.pin).length < K.MAX_PIN_SZ) := by
  have key := login_loop_eq_some S
    { m.s with
      username := memcpy m.s.username m.c.username K.USERNAME_SZ
      pin := memcpy m.s.pin m.c.pin K.MAX_PIN_SZ } S.NUM_PROVISIONED_USERS
  simp only [cstr_memcpy _ _ _ hsu hcu, cstr_memcpy _ _ _ hsp hcp] at key
  have hiff : (login K S m).s.logged_in ≠ 0 ↔
      ∃ i, i < S.NUM_PROVISIONED_USERS ∧
        cstr m.c.username = cstr (S.USERNAMES (S.PROVISIONED_UIDS i)) ∧
        (∀ j, j < i → cstr m.c.username ≠ cstr (S.USERNAMES (S.PROVISIONED_UIDS j))) ∧
        cstr m.c.pin = cstr (S.PROVISIONED_PINS i) := by
    rw [login_logged_out K S m hout]
    constructor
    · intro h
      split at h
      · rename_i uid hl
        obtain ⟨i, h1, h2, h3, h4, _⟩ := (key uid).mp hl
        exact ⟨i, h1, h2, h3, h4⟩
      · exact absurd hout h
    · rintro ⟨i, h1, h2, h3, h4⟩
      rw [(key (S.PROVISIONED_UIDS i)).mpr ⟨i, h1, h2, h3, h4, rfl⟩]
      simp
  refine ⟨hiff, ?_, ?_⟩
  · intro i h1 h2 h3 h4
    rw [login_logged_out K S m hout, (key (S.PROVISIONED_UIDS i)).mpr ⟨i, h1, h2, h3, h4, rfl⟩]
    exact ⟨rfl, rfl⟩
  · intro h
    obtain ⟨i, h1, h2, _, h4⟩ := hiff.mp h
    rw [h2, h4]
    exact ⟨hnames i h1, hpins i h1⟩

/-- Witness of `login_iff_first_match`: alice logs in with her pin after boot. -/
theorem login_iff_first_match_witness :
    (login sampleK sampleS (bootM alice [49, 50, 51, 52])).s.logged_in = 1 ∧
    (login sampleK sampleS (bootM alice [49, 50, 51, 52])).s.uid = sampleS.PROVISIONED_UIDS 0 :=
  (login_iff_first_match sampleK sampleS (bootM alice [49, 50, 51, 52])
    (by decide) (by decide) (by decide) (by decide) (by decide) (by decide) (by decide)).2.1 0
    (by decide) (by decide) (fun j hj => absurd hj (Nat.not_lt_zero j)) (by decide)

/-- C3 as stated fails when two provisioned entries share a name: with
entries (alice, `1234`) and (alice, `0000`), the attempt (alice, `0000`)
matches entry 1 by name and pin, yet the loop breaks at entry 0 and the
session stays logged out. -/
theorem login_misses_second_entry :
    (bootM alice [48, 48, 48, 48]).s.logged_in = 0 ∧
    (login sampleK twinS (bootM alice [48, 48, 48, 48])).s.logged_in = 0 ∧
    ∃ i, i < twinS.NUM_PROVISIONED_USERS ∧
      cstr (bootM alice [48, 48, 48, 48]).c.username =
        cstr (twinS.USERNAMES (twinS.PROVISIONED_UIDS i)) ∧
      cstr (bootM alice [48, 48, 48, 48]).c.pin = cstr (twinS.PROVISIONED_PINS i) :=
  ⟨by decide, by decide, 1, by decide, by decide, by decide⟩

theorem cstr_cstr_append (src r : List Nat) : cstr (cstr src ++ 0 :: r) = cstr src := by
  unfold cstr
  induction src with
  | nil => simp
  | cons x xs ih =>
    by_cases hx : x = 0
    · simp [hx]
    · simp [hx, ih]

theorem cstr_strcpy (dst src : List Nat) : cstr (strcpy dst src) = cstr src := by
  unfold strcpy
  exact cstr_cstr_append src _

/-- A call of `login` fails when the session is already logged in or when it
leaves a logged-out session logged out. -/
theorem login_fail_cases (K : Constants) (S : Secrets) (m : Machine)
    (hfail : m.s.logged_in ≠ 0 ∨ (login K S m).s.logged_in = 0) :
    (login K S m).s =
      { m.s with
        username := memcpy m.s.username m.c.username K.USERNAME_SZ
        pin := memcpy m.s.pin m.c.pin K.MAX_PIN_SZ } := by
  by_cases h0 : m.s.logged_in = 0
  · have h1 : (login K S m).s.logged_in = 0 := by
      rcases hfail with h | h
      · exact absurd h0 h
      · exact h
    rw [login_logged_out K S m h0] at h1 ⊢
    split at h1
    · simp at h1
    · rfl
  · simp [login, h0]

/-- C4 (failed login), as the code has it.  A call of `login` that does not
succeed leaves `logged_in` and `uid` exactly as they were.  The username field
of the session is not restored: after a failed attempt from a logged-out
session it holds the attempted username, and that is the name the dispatcher
publishes afterwards. -/
theorem login_failure_keeps_session (K : Constants) (S : Secrets) (m : Machine)
    (hfail : m.s.logged_in ≠ 0 ∨ (login K S m).s.logged_in = 0)
    (hcu : m.c.username.length ≤ K.USERNAME_SZ) (hsu : m.s.username.length ≤ K.USERNAME_SZ) :
    (login K S m).s.logged_in = m.s.logged_in ∧ (login K S m).s.uid = m.s.uid ∧
    (m.s.logged_in = 0 →
      cstr (login K S m).s.username = cstr m.c.username ∧
      cstr (publish (login K S m)).c.username = cstr m.c.username) := by
  have hs := login_fail_cases K S m hfail
  refine ⟨by rw [hs], by rw [hs], fun _ => ?_⟩
  have h1 : cstr (login K S m).s.username = cstr m.c.username := by
    rw [hs]
    exact cstr_memcpy _ _ _ hsu hcu
  refine ⟨h1, ?_⟩
  simp only [publish]
  rw [cstr_strcpy, h1]

/-- Witness of `login_failure_keeps_session`: alice with a wrong pin after
boot. -/
theorem login_failure_keeps_session_witness :
    (login sampleK sampleS (bootM alice [57, 57, 57, 57])).s.logged_in = 0 ∧
    (login sampleK sampleS (bootM alice [57, 57, 57, 57])).s.uid = 0 :=
  have h := login_failure_keeps_session sampleK sampleS (bootM alice [57, 57, 57, 57])
    (Or.inr (by decide)) (by decide) (by decide)
  ⟨h.1, h.2.1⟩

/-- C4 as stated fails: after boot the session username is empty; the failed
attempt (alice, `9999`) leaves `alice` in the session username, and the
dispatcher iteration that ran `login` publishes `alice`, the attempted name,
with `login_status = 0`. -/
theorem login_failure_overwrites_username :
    cstr (bootM alice [57, 57, 57, 57]).s.username = [] ∧
    (login sampleK sampleS (bootM alice [57, 57, 57, 57])).s.logged_in = 0 ∧
    cstr (login sampleK sampleS (bootM alice [57, 57, 57, 57])).s.username = alice ∧
    cstr (main_step sampleK sampleS sampleE
      (host_cmd (bootM alice [57, 57, 57, 57]) commands.LOGIN)).2.c.username = alice ∧
    (main_step sampleK sampleS sampleE
      (host_cmd (bootM alice [57, 57, 57, 57]) commands.LOGIN)).2.c.login_status = 0 := by
  decide

/-- C5 (login penalty).  From a logged-out session `login` either logs the
user in (and does not sleep), or leaves the session logged out and its last
action is `usleep(5000000)`, started with the username and pin buffers of the
channel zeroed; the buffers are still zero on return. -/
theorem login_penalty (K : Constants) (S : Secrets) (m : Machine)
    (hout : m.s.logged_in = 0)
    (hcu : m.c.username.length ≤ K.USERNAME_SZ) (hcp : m.c.pin.length ≤ K.MAX_PIN_SZ) :
    ((login K S m).s.logged_in = 1 ∧ (login K S m).trace = m.trace) ∨
    ((login K S m).s.logged_in = 0 ∧
      ∃ usec chan, (login K S m).trace = m.trace ++ [Event.usleep usec chan] ∧
        5000000 ≤ usec ∧
        chan.username = List.replicate K.USERNAME_SZ 0 ∧
        chan.pin = List.replicate K.MAX_PIN_SZ 0 ∧
        (login K S m).c.username = List.replicate K.USERNAME_SZ 0 ∧
        (login K S m).c.pin = List.replicate K.MAX_PIN_SZ 0) := by
  have hu : memset m.c.username 0 K.USERNAME_SZ = List.replicate K.USERNAME_SZ 0 := by
    simp [memset, List.drop_eq_nil_of_le hcu]
  have hp : memset m.c.pin 0 K.MAX_PIN_SZ = List.replicate K.MAX_PIN_SZ 0 := by
    simp [memset, List.drop_eq_nil_of_le hcp]
  rw [login_logged_out K S m hout]
  split
  · exact Or.inl ⟨rfl, rfl⟩
  · exact Or.inr ⟨hout, 5000000, _, rfl, Nat.le_refl _, hu, hp, hu, hp⟩

/-- Witness of `login_penalty`: an unknown username after boot. -/
theorem login_penalty_witness :
    ((login sampleK sampleS (bootM carol [49, 50, 51, 52])).s.logged_in = 1 ∧
      (login sampleK sampleS (bootM carol [49, 50, 51, 52])).trace =
        (bootM carol [49, 50, 51, 52]).trace) ∨
    ((login sampleK sampleS (bootM carol [49, 50, 51, 52])).s.logged_in = 0 ∧
      ∃ usec chan, (login sampleK sampleS (bootM carol [49, 50, 51, 52])).trace =
          (bootM carol [49, 50, 51, 52]).trace ++ [Event.usleep usec chan] ∧
        5000000 ≤ usec ∧
        chan.username = List.replicate sampleK.USERNAME_SZ 0 ∧
        chan.pin = List.replicate sampleK.MAX_PIN_SZ 0 ∧
        (login sampleK sampleS (bootM carol [49, 50, 51, 52])).c.username =
          List.replicate sampleK.USERNAME_SZ 0 ∧
        (login sampleK sampleS (bootM carol [49, 50, 51, 52])).c.pin =
          List.replicate sampleK.MAX_PIN_SZ 0) :=
  login_penalty sampleK sampleS (bootM carol [49, 50, 51, 52]) (by decide) (by decide) (by decide)

/-! ### Logout -/

/-- C6 (logout), as the code has it.  `logout` is gated on the status word of
the channel: when `c->login_status` is non-zero it sets `logged_in = 0`,
`uid = 0`, `c->login_status = 0` and zeroes the username and pin buffers of
the channel; when `c->login_status` is zero and the session is logged out it
changes nothing (the buffers keep their content). -/
theorem logout_clears_when_status_set (K : Constants) (m : Machine)
    (hcu : m.c.username.length ≤ K.USERNAME_SZ) (hcp : m.c.pin.length ≤ K.MAX_PIN_SZ) :
    (m.c.login_status ≠ 0 →
      (logout K m).s.logged_in = 0 ∧ (logout K m).s.uid = 0 ∧
      (logout K m).c.login_status = 0 ∧
      (logout K m).c.username = List.replicate K.USERNAME_SZ 0 ∧
      (logout K m).c.pin = List.replicate K.MAX_PIN_SZ 0) ∧
    (m.c.login_status = 0 → m.s.logged_in = 0 → logout K m = m) := by
  constructor
  · intro h
    simp [logout, h, memset, List.drop_eq_nil_of_le hcu, List.drop_eq_nil_of_le hcp]
  · intro h _
    simp [logout, h]

/-- Witness of `logout_clears_when_status_set`: alice logs out. -/
theorem logout_clears_when_status_set_witness :
    (logout sampleK (sampleM 1 0 alice song_of_bob)).s.logged_in = 0 ∧
    (logout sampleK (sampleM 1 0 alice song_of_bob)).s.uid = 0 ∧
    (logout sampleK (sampleM 1 0 alice song_of_bob)).c.login_status = 0 ∧
    (logout sampleK (sampleM 1 0 alice song_of_bob)).c.username =
      List.replicate sampleK.USERNAME_SZ 0 ∧
    (logout sampleK (sampleM 1 0 alice song_of_bob)).c.pin =
      List.replicate sampleK.MAX_PIN_SZ 0 :=
  (logout_clears_when_status_set sampleK (sampleM 1 0 alice song_of_bob)
    (by decide) (by decide)).1 (by decide)

/-- C6 as stated fails: with nobody logged in and `c->login_status = 0`, a
username left in the channel is still there after `logout`. -/
theorem logout_keeps_staging_when_status_clear :
    (bootM alice [49, 50, 51, 52]).s.logged_in = 0 ∧
    (bootM alice [49, 50, 51, 52]).c.login_status = 0 ∧
    (logout sampleK (bootM alice [49, 50, 51, 52])).c.username ≠
      List.replicate sampleK.USERNAME_SZ 0 ∧
    (logout sampleK (bootM alice [49, 50, 51, 52])).c.pin ≠
      List.replicate sampleK.MAX_PIN_SZ 0 := by
  decide

/-! ### Session invariant -/

theorem same_login_refl (s : internal_state) : same_login s s := ⟨rfl, rfl⟩

theorem same_login_trans {s t u : internal_state} (h1 : same_login s t) (h2 : same_login t u) :
    same_login s u := ⟨h2.1.trans h1.1, h2.2.trans h1.2⟩

theorem load_song_md_same_login (m : Machine) : same_login m.s (load_song_md m).s :=
  ⟨rfl, rfl⟩

/-- The machine `is_locked` leaves behind: the snapshot is reloaded when a
user is logged in, and nothing else changes. -/
theorem is_locked_snd (S : Secrets) (m : Machine) :
    (is_locked S m).2 = if m.s.logged_in = 0 then m else load_song_md m := by
  unfold is_locked
  dsimp only
  split_ifs <;> rfl

theorem is_locked_same_login (S : Secrets) (m : Machine) : same_login m.s (is_locked S m).2.s := by
  rw [is_locked_snd]
  split
  · exact same_login_refl _
  · exact load_song_md_same_login m

theorem query_player_same_login (S : Secrets) (m : Machine) :
    same_login m.s (query_player S m).s := ⟨rfl, rfl⟩

theorem query_song_same_login (K : Constants) (S : Secrets) (m : Machine) :
    same_login m.s (query_song K S m).s := ⟨rfl, rfl⟩

theorem share_song_same_login (K : Constants) (S : Secrets) (new_md : Nat → Nat) (m : Machine) :
    same_login m.s (share_song K S new_md m).s := by
  unfold share_song
  dsimp only
  split
  · exact ⟨rfl, rfl⟩
  · split
    · exact ⟨rfl, rfl⟩
    · split
      · exact ⟨rfl, rfl⟩
      · split
        · exact ⟨rfl, rfl⟩
        · exact ⟨rfl, rfl⟩

theorem digital_out_same_login (K : Constants) (S : Secrets) (m : Machine) :
    same_login m.s (digital_out K S m).s := by
  unfold digital_out
  dsimp only
  exact is_locked_same_login S _

theorem play_song_same_login (K : Constants) (S : Secrets) (E : PlayEnv) (fuel : Nat)
    (m : Machine) : same_login m.s (play_song K S E fuel m).2.s := by
  unfold play_song
  dsimp only
  split
  · exact same_login_refl _
  · split
    · exact load_song_md_same_login m
    · split
      · split
        · exact same_login_trans (load_song_md_same_login m) (is_locked_same_login S _)
        · exact load_song_md_same_login m
      · split
        · exact same_login_trans (load_song_md_same_login m) (is_locked_same_login S _)
        · exact load_song_md_same_login m

theorem session_ok_of_same_login (S : Secrets) {s t : internal_state} (h : same_login s t)
    (hs : session_ok S s) : session_ok S t := by
  intro hl
  rw [h.1] at hl
  rw [h.2]
  exact hs hl

theorem login_session_ok (K : Constants) (S : Secrets) (m : Machine)
    (hs : session_ok S m.s) : session_ok S (login K S m).s := by
  by_cases h0 : m.s.logged_in = 0
  · rw [login_logged_out K S m h0]
    split
    · rename_i uid hl
      obtain ⟨i, hi, _, _, _, hu⟩ := (login_loop_eq_some S _ _ uid).mp hl
      intro _
      exact ⟨i, hi, hu⟩
    · intro hl
      exact absurd h0 hl
  · have hfail := login_fail_cases K S m (Or.inl h0)
    intro hl
    rw [hfail] at hl ⊢
    exact hs hl

theorem logout_session_ok (K : Constants) (S : Secrets) (m : Machine)
    (hs : session_ok S m.s) : session_ok S (logout K m).s := by
  unfold logout
  split
  · intro hl
    exact absurd rfl hl
  · exact hs

theorem dispatch_session_ok (K : Constants) (S : Secrets) (E : Env) (m : Machine)
    (hs : session_ok S m.s) : session_ok S (dispatch K S E m).2.s := by
  unfold dispatch
  split
  · exact login_session_ok K S m hs
  · exact logout_session_ok K S m hs
  · exact session_ok_of_same_login S (query_player_same_login S m) hs
  · exact session_ok_of_same_login S (query_song_same_login K S m) hs
  · exact session_ok_of_same_login S (share_song_same_login K S E.new_md m) hs
  · exact session_ok_of_same_login S (play_song_same_login K S E.play E.fuel m) hs
  · exact session_ok_of_same_login S (digital_out_same_login K S m) hs
  · exact hs

theorem main_step_session_ok (K : Constants) (S : Secrets) (E : Env) (m : Machine)
    (hs : session_ok S m.s) : session_ok S (main_step K S E m).2.s := by
  have hd := dispatch_session_ok K S E { m with c := { m.c with drm_state := states.WORKING } } hs
  unfold main_step
  dsimp only
  split
  · exact hd
  · exact hd

/-- C7 (session invariant).  In every state reachable from boot by writes of
the host into the channel, the command handlers `login`, `logout`,
`query_player`, `query_song`, `share_song`, `play_song`, `digital_out` and
whole dispatcher iterations, in any order and with any channel content,
`logged_in` implies that `uid` is an entry of `PROVISIONED_UIDS`. -/
theorem session_invariant (K : Constants) (S : Secrets) (m : Machine)
    (h : Reachable K S m) :
    m.s.logged_in ≠ 0 → ∃ i, i < S.NUM_PROVISIONED_USERS ∧ m.s.uid = S.PROVISIONED_UIDS i := by
  have key : session_ok S m.s := by
    induction h with
    | boot => intro hl; exact absurd rfl hl
    | host m c _ ih => exact ih
    | login m _ ih => exact login_session_ok K S m ih
    | logout m _ ih => exact logout_session_ok K S m ih
    | query_player m _ ih => exact session_ok_of_same_login S (query_player_same_login S m) ih
    | query_song m _ ih => exact session_ok_of_same_login S (query_song_same_login K S m) ih
    | share_song m new_md _ ih =>
      exact session_ok_of_same_login S (share_song_same_login K S new_md m) ih
    | play_song m E fuel _ ih =>
      exact session_ok_of_same_login S (play_song_same_login K S E fuel m) ih
    | digital_out m _ ih => exact session_ok_of_same_login S (digital_out_same_login K S m) ih
    | main_step m E _ ih => exact main_step_session_ok K S E m ih
  exact key

/-- Witness of `session_invariant`: after boot the host writes the credentials
of alice and `login` runs; the session is logged in with a provisioned uid. -/
theorem session_invariant_witness :
    (login sampleK sampleS (bootM alice [49, 50, 51, 52])).s.logged_in ≠ 0 ∧
    ∃ i, i < sampleS.NUM_PROVISIONED_USERS ∧
      (login sampleK sampleS (bootM alice [49, 50, 51, 52])).s.uid = sampleS.PROVISIONED_UIDS i :=
  ⟨by decide,
    session_invariant sampleK sampleS (login sampleK sampleS (bootM alice [49, 50, 51, 52]))
      (Reachable.login _
        (Reachable.host _ (bootM alice [49, 50, 51, 52]).c Reachable.boot))
      (by decide)⟩

/-! ### Sharing -/

/-- `username_to_uid` with `provisioned_only` resolves a name exactly when some
entry `i < NUM_USERS` has `USERNAMES[USER_IDS[i]]` equal to it and
`USER_IDS[i]` provisioned; the uid it returns is then provisioned. -/
theorem username_to_uid_resolves (S : Secrets) (u : List Nat) :
    ((username_to_uid S u true).1 = true ↔
      ∃ i, i < S.NUM_USERS ∧ cstr u = cstr (S.USERNAMES (S.USER_IDS i)) ∧
        is_provisioned_uid S (S.USER_IDS i) = true) ∧
    ((username_to_uid S u true).1 = true →
      is_provisioned_uid S (username_to_uid S u true).2 = true) := by
  unfold username_to_uid
  constructor
  · constructor
    · intro h
      split at h
      · rename_i i hi
        rw [List.find?_range_eq_some] at hi
        obtain ⟨h1, h2, _⟩ := hi
        simp only [Bool.not_true, Bool.false_or, Bool.and_eq_true, beq_iff_eq] at h1
        exact ⟨i, List.mem_range.mp h2, (strcmp_eq_zero_iff _ _).mp h1.1, h1.2⟩
      · simp at h
    · rintro ⟨i, hi, hn, hp⟩
      split
      · rfl
      · rename_i hnone
        rw [List.find?_range_eq_none] at hnone
        have := hnone i hi
        simp [(strcmp_eq_zero_iff _ _).mpr hn, hp] at this
  · intro h
    split at h
    · rename_i i hi
      rw [List.find?_range_eq_some] at hi
      obtain ⟨h1, _, _⟩ := hi
      simp only [Bool.not_true, Bool.false_or, Bool.and_eq_true, beq_iff_eq] at h1
      exact h1.2
    · simp at h

/-- The rejection paths of `share_song`. -/
theorem share_song_rejects (K : Constants) (S : Secrets) (new_md : Nat → Nat) (m : Machine)
    (h : ¬ (m.s.logged_in ≠ 0 ∧ m.s.uid = m.c.song.md 1 ∧
      (username_to_uid S m.c.username true).1 = true ∧ m.c.song.md 3 < K.MAX_USERS)) :
    share_song K S new_md m = share_reject (load_song_md m) := by
  unfold share_song
  dsimp only
  have e1 : (load_song_md m).s.logged_in = m.s.logged_in := rfl
  have e2 : (load_song_md m).s.uid = m.s.uid := rfl
  have e3 : (load_song_md m).s.song_md.owner_id = m.c.song.md 1 := rfl
  have e4 : (load_song_md m).s.song_md.num_users = m.c.song.md 3 := rfl
  have e5 : (load_song_md m).c = m.c := rfl
  by_cases h1 : (load_song_md m).s.logged_in = 0
  · rw [if_pos h1]
  · rw [if_neg h1]
    by_cases h2 : (load_song_md m).s.uid ≠ (load_song_md m).s.song_md.owner_id
    · rw [if_pos h2]
    · rw [if_neg h2]
      by_cases h3 : (username_to_uid S (load_song_md m).c.username true).1 = false
      · rw [if_pos h3]
      · rw [if_neg h3]
        by_cases h4 : (load_song_md m).s.song_md.num_users ≥ K.MAX_USERS
        · rw [if_pos h4]
        · exfalso
          apply h
          rw [e1] at h1
          rw [e2, e3] at h2
          rw [e5] at h3
          rw [e4] at h4
          refine ⟨h1, ?_, ?_, ?_⟩
          · simpa using h2
          · simpa using h3
          · omega

/-- The success path of `share_song`. -/
theorem share_song_accepts (K : Constants) (S : Secrets) (new_md : Nat → Nat) (m : Machine)
    (h : m.s.logged_in ≠ 0 ∧ m.s.uid = m.c.song.md 1 ∧
      (username_to_uid S m.c.username true).1 = true ∧ m.c.song.md 3 < K.MAX_USERS) :
    share_song K S new_md m =
      (let m1 := load_song_md m
       let md1 : song_md :=
         { m1.s.song_md with
           uids := Function.update m1.s.song_md.uids m1.s.song_md.num_users
             (username_to_uid S m1.c.username true).2
           num_users := (m1.s.song_md.num_users + 1) % 256 }
       let g := gen_song_md md1 new_md
       let shift : Int := g.2 - (md1.md_size : Int)
       let d := m1.c.song
       let mem1 :=
         if shift ≠ 0 then
           memmoveA d.md ((get_drm_song d : Int) + shift).toNat (get_drm_song d) d.wav_size
         else d.md
       { m1 with
         s := { m1.s with song_md := md1 }
         c := { m1.c with
                song := { file_size := add32 d.file_size shift
                          wav_size := add32 d.wav_size shift
                          md := memcpyA mem1 g.1 (size_t_of g.2) } } }) := by
  obtain ⟨h1, h2, h3, h4⟩ := h
  unfold share_song
  dsimp only
  have e1 : (load_song_md m).s.logged_in = m.s.logged_in := rfl
  have e2 : (load_song_md m).s.uid = m.s.uid := rfl
  have e3 : (load_song_md m).s.song_md.owner_id = m.c.song.md 1 := rfl
  have e4 : (load_song_md m).s.song_md.num_users = m.c.song.md 3 := rfl
  have e5 : (load_song_md m).c = m.c := rfl
  rw [if_neg (by rw [e1]; exact h1), if_neg (by rw [e2, e3]; simpa using h2),
    if_neg (by rw [e5, h3]; simp), if_neg (by rw [e4]; omega)]

theorem char_val_small (b : Nat) (h : b < 128) : char_val b = (b : Int) := by
  unfold char_val
  rw [Nat.mod_eq_of_lt (by omega : b < 256), if_pos h]

theorem size_t_of_small (n : Nat) (h : n < 2 ^ 32) : size_t_of (n : Int) = n := by
  unfold size_t_of
  have e : ((n : Int)) % (2 ^ 32 : Int) = (((n % 2 ^ 32 : Nat)) : Int) := by
    push_cast
    rfl
  rw [e, Int.toNat_ofNat, Nat.mod_eq_of_lt h]

/-- The metadata block `gen_song_md` writes, cell by cell, and the length it
returns, when the size fits a `char`. -/
theorem gen_song_md_cells (md : song_md) (buf : Nat → Nat)
    (hfit : md.num_regions + md.num_users + 5 ≤ 127) :
    (gen_song_md md buf).2 = ((((5 + md.num_regions + md.num_users) / 2) * 2 : Nat) : Int) ∧
    (gen_song_md md buf).1 0 = ((5 + md.num_regions + md.num_users) / 2) * 2 ∧
    (gen_song_md md buf).1 1 = md.owner_id ∧
    (gen_song_md md buf).1 2 = md.num_regions ∧
    (gen_song_md md buf).1 3 = md.num_users ∧
    (∀ i, i < md.num_regions → (gen_song_md md buf).1 (4 + i) = md.rids i) ∧
    (∀ i, i < md.num_users → (gen_song_md md buf).1 (4 + md.num_regions + i) = md.uids i) := by
  have hmod : ((5 + md.num_regions + md.num_users) / 2) * 2 % 256 =
      ((5 + md.num_regions + md.num_users) / 2) * 2 := Nat.mod_eq_of_lt (by omega)
  have h0 : (gen_song_md md buf).1 0 = ((5 + md.num_regions + md.num_users) / 2) * 2 := by
    simp [gen_song_md, writeA, Function.update, hmod]
  refine ⟨?_, h0, ?_, ?_, ?_, ?_, ?_⟩
  · show char_val ((gen_song_md md buf).1 0) = _
    rw [h0]
    exact char_val_small _ (by omega)
  · have h1 : ¬ (4 + md.num_regions ≤ 1) := by omega
    simp [gen_song_md, writeA, Function.update, h1]
  · have h1 : ¬ (4 + md.num_regions ≤ 2) := by omega
    simp [gen_song_md, writeA, Function.update, h1]
  · have h1 : ¬ (4 + md.num_regions ≤ 3) := by omega
    simp [gen_song_md, writeA, Function.update, h1]
  · intro i hi
    have h1 : ¬ (md.num_regions ≤ i) := by omega
    simp [gen_song_md, writeA, Function.update, hi, h1]
  · intro i hi
    simp [gen_song_md, writeA, Function.update, hi]

/-- What the success path of `share_song` leaves: the snapshot with the uid
appended, both sizes moved by `new_md_len - md_size`, and the generated block
in the first `new_md_len` cells of the song area. -/
theorem share_song_accept_fields (K : Constants) (S : Secrets) (new_md : Nat → Nat)
    (m : Machine)
    (h : m.s.logged_in ≠ 0 ∧ m.s.uid = m.c.song.md 1 ∧
      (username_to_uid S m.c.username true).1 = true ∧ m.c.song.md 3 < K.MAX_USERS) :
    (share_song K S new_md m).s.song_md = share_md S m ∧
    (share_song K S new_md m).c.song.file_size =
      add32 m.c.song.file_size
        ((gen_song_md (share_md S m) new_md).2 - (m.c.song.md 0 : Int)) ∧
    (share_song K S new_md m).c.song.wav_size =
      add32 m.c.song.wav_size
        ((gen_song_md (share_md S m) new_md).2 - (m.c.song.md 0 : Int)) ∧
    (∀ i, i < size_t_of (gen_song_md (share_md S m) new_md).2 →
      (share_song K S new_md m).c.song.md i = (gen_song_md (share_md S m) new_md).1 i) := by
  rw [share_song_accepts K S new_md m h]
  refine ⟨rfl, rfl, rfl, ?_⟩
  intro i hi
  simp only [memcpyA]
  rw [if_pos]
  · rfl
  · exact hi

/-- The payload after a successful `share_song` whose new block has `N` bytes:
the `wav_size` bytes that followed the old block follow the new one. -/
theorem share_song_payload (K : Constants) (S : Secrets) (new_md : Nat → Nat)
    (m : Machine)
    (h : m.s.logged_in ≠ 0 ∧ m.s.uid = m.c.song.md 1 ∧
      (username_to_uid S m.c.username true).1 = true ∧ m.c.song.md 3 < K.MAX_USERS)
    (N : Nat) (hN : (gen_song_md (share_md S m) new_md).2 = (N : Int)) (hlt : N < 2 ^ 32) :
    ∀ i, i < m.c.song.wav_size →
      (share_song K S new_md m).c.song.md (N + i) = m.c.song.md (m.c.song.md 0 + i) := by
  intro i hi
  rw [share_song_accepts K S new_md m h]
  show memcpyA
      (if (gen_song_md (share_md S m) new_md).2 - (m.c.song.md 0 : Int) ≠ 0 then
        memmoveA m.c.song.md
          ((m.c.song.md 0 : Int) +
            ((gen_song_md (share_md S m) new_md).2 - (m.c.song.md 0 : Int))).toNat
          (m.c.song.md 0) m.c.song.wav_size
      else m.c.song.md)
      (gen_song_md (share_md S m) new_md).1
      (size_t_of (gen_song_md (share_md S m) new_md).2) (N + i) = _
  rw [hN, size_t_of_small N hlt]
  simp only [memcpyA]
  rw [if_neg (by omega)]
  by_cases hs : (N : Int) - (m.c.song.md 0 : Int) ≠ 0
  · rw [if_pos hs]
    have e : ((m.c.song.md 0 : Int) + ((N : Int) - (m.c.song.md 0 : Int))).toNat = N := by
      have : (m.c.song.md 0 : Int) + ((N : Int) - (m.c.song.md 0 : Int)) = (N : Int) := by omega
      rw [this, Int.toNat_ofNat]
    rw [e]
    simp only [memmoveA]
    rw [if_pos ⟨by omega, by omega⟩]
    congr 1
    omega
  · rw [if_neg hs]
    have : N = m.c.song.md 0 := by omega
    rw [this]

theorem round_up_even_eq (n : Nat) : round_up_even n = ((n + 1) / 2) * 2 := by
  unfold round_up_even
  split <;> omega

/-- The song in the channel after a successful `share_song` whose new block
fits a `char`: the header cells, the uids with the new one after them, the
payload right after the new block, and the two sizes. -/
theorem share_song_block (K : Constants) (S : Secrets) (new_md : Nat → Nat)
    (m : Machine)
    (h : m.s.logged_in ≠ 0 ∧ m.s.uid = m.c.song.md 1 ∧
      (username_to_uid S m.c.username true).1 = true ∧ m.c.song.md 3 < K.MAX_USERS)
    (hfit : round_up_even (4 + m.c.song.md 2 + m.c.song.md 3 + 1) ≤ 127) :
    (share_song K S new_md m).c.song.md 0 =
      round_up_even (4 + m.c.song.md 2 + m.c.song.md 3 + 1) ∧
    (share_song K S new_md m).c.song.md 1 = m.c.song.md 1 ∧
    (share_song K S new_md m).c.song.md 2 = m.c.song.md 2 ∧
    (share_song K S new_md m).c.song.md 3 = m.c.song.md 3 + 1 ∧
    (∀ i, i < m.c.song.md 2 →
      (share_song K S new_md m).c.song.md (4 + i) = m.c.song.md (4 + i)) ∧
    (∀ i, i < m.c.song.md 3 →
      (share_song K S new_md m).c.song.md (4 + m.c.song.md 2 + i) =
        m.c.song.md (4 + m.c.song.md 2 + i)) ∧
    (share_song K S new_md m).c.song.md (4 + m.c.song.md 2 + m.c.song.md 3) =
      (username_to_uid S m.c.username true).2 ∧
    (∀ i, i < m.c.song.wav_size →
      (share_song K S new_md m).c.song.md
          (round_up_even (4 + m.c.song.md 2 + m.c.song.md 3 + 1) + i) =
        m.c.song.md (m.c.song.md 0 + i)) ∧
    (share_song K S new_md m).c.song.file_size =
      add32 m.c.song.file_size
        ((round_up_even (4 + m.c.song.md 2 + m.c.song.md 3 + 1) : Int) - (m.c.song.md 0 : Int)) ∧
    (share_song K S new_md m).c.song.wav_size =
      add32 m.c.song.wav_size
        ((round_up_even (4 + m.c.song.md 2 + m.c.song.md 3 + 1) : Int) - (m.c.song.md 0 : Int)) := by
  obtain ⟨_, f2, f3, f4⟩ := share_song_accept_fields K S new_md m h
  rw [round_up_even_eq] at hfit ⊢
  have hn : (share_md S m).num_users = m.c.song.md 3 + 1 := by
    show (m.c.song.md 3 + 1) % 256 = m.c.song.md 3 + 1
    exact Nat.mod_eq_of_lt (by omega)
  have hr : (share_md S m).num_regions = m.c.song.md 2 := rfl
  have hu : (share_md S m).uids (m.c.song.md 3) = (username_to_uid S m.c.username true).2 := by
    simp [share_md, load_song_md]
  have hu2 : ∀ i, i < m.c.song.md 3 →
      (share_md S m).uids i = m.c.song.md (4 + m.c.song.md 2 + i) := by
    intro i hi
    have hne : i ≠ m.c.song.md 3 := by omega
    simp [share_md, load_song_md, memcpyA, get_drm_uids, Function.update, hne, hi]
  have hrid : ∀ i, i < m.c.song.md 2 → (share_md S m).rids i = m.c.song.md (4 + i) := by
    intro i hi
    simp [share_md, load_song_md, memcpyA, get_drm_rids, hi]
  obtain ⟨g2, g0, g1, g2', g3, grid, guid⟩ :=
    gen_song_md_cells (share_md S m) new_md (by rw [hr, hn]; omega)
  rw [hr, hn] at g2 g0
  have hN : (5 + m.c.song.md 2 + (m.c.song.md 3 + 1)) / 2 * 2 =
      (4 + m.c.song.md 2 + m.c.song.md 3 + 1 + 1) / 2 * 2 := by omega
  rw [hN] at g2 g0
  have hsz : size_t_of (gen_song_md (share_md S m) new_md).2 =
      (4 + m.c.song.md 2 + m.c.song.md 3 + 1 + 1) / 2 * 2 := by
    rw [g2]
    exact size_t_of_small _ (by omega)
  rw [hsz] at f4
  rw [g2] at f2 f3
  refine ⟨?_, ?_, ?_, ?_, ?_, ?_, ?_, ?_, f2, f3⟩
  · rw [f4 0 (by omega), g0]
  · rw [f4 1 (by omega), g1]; rfl
  · rw [f4 2 (by omega), g2']; rfl
  · rw [f4 3 (by omega), g3, hn]
  · intro i hi
    rw [f4 (4 + i) (by omega), grid i (by rw [hr]; exact hi), hrid i hi]
  · intro i hi
    have := guid i (by rw [hn]; omega)
    rw [hr] at this
    rw [f4 _ (by omega), this, hu2 i hi]
  · have := guid (m.c.song.md 3) (by rw [hn]; omega)
    rw [hr] at this
    rw [f4 _ (by omega), this, hu]
  · exact share_song_payload K S new_md m h _ g2 (by omega)

theorem add32_small (x n : Nat) : add32 x (n : Int) = (x + n) % 2 ^ 32 := by
  unfold add32
  have h : ((x : Int) + (n : Int)) % (2 ^ 32 : Int) = (((x + n) % 2 ^ 32 : Nat) : Int) := by
    push_cast
    rfl
  rw [h, Int.toNat_ofNat]

/-- C9 (share size accounting), as the code has it.  For a song whose stored
`md_size` is `round_up_even(4 + num_regions + num_users)` and for which
`share_song` succeeds, provided the new size
`round_up_even(4 + num_regions + num_users + 1)` fits a `char` (at most 127):
the new `md_size` in the channel is that number, it exceeds the old one by 0
or 2, and `file_size` and `wav_size` each grow by that shift modulo `2 ^ 32`
(by exactly that shift when the sum stays below `2 ^ 32`). -/
theorem share_song_size_accounting (K : Constants) (S : Secrets) (new_md : Nat → Nat)
    (m : Machine)
    (hok : m.s.logged_in ≠ 0 ∧ m.s.uid = m.c.song.md 1 ∧
      (∃ i, i < S.NUM_USERS ∧ cstr m.c.username = cstr (S.USERNAMES (S.USER_IDS i)) ∧
        is_provisioned_uid S (S.USER_IDS i) = true) ∧
      m.c.song.md 3 < K.MAX_USERS)
    (hmd : m.c.song.md 0 = round_up_even (4 + m.c.song.md 2 + m.c.song.md 3))
    (hfit : round_up_even (4 + m.c.song.md 2 + m.c.song.md 3 + 1) ≤ 127) :
    (share_song K S new_md m).c.song.md 0 =
      round_up_even (4 + m.c.song.md 2 + m.c.song.md 3 + 1) ∧
    ((share_song K S new_md m).c.song.md 0 = m.c.song.md 0 ∨
      (share_song K S new_md m).c.song.md 0 = m.c.song.md 0 + 2) ∧
    (share_song K S new_md m).c.song.file_size =
      (m.c.song.file_size + ((share_song K S new_md m).c.song.md 0 - m.c.song.md 0)) % 2 ^ 32 ∧
    (share_song K S new_md m).c.song.wav_size =
      (m.c.song.wav_size + ((share_song K S new_md m).c.song.md 0 - m.c.song.md 0)) % 2 ^ 32 ∧
    (m.c.song.file_size + 2 < 2 ^ 32 →
      (share_song K S new_md m).c.song.file_size =
        m.c.song.file_size + ((share_song K S new_md m).c.song.md 0 - m.c.song.md 0)) ∧
    (m.c.song.wav_size + 2 < 2 ^ 32 →
      (share_song K S new_md m).c.song.wav_size =
        m.c.song.wav_size + ((share_song K S new_md m).c.song.md 0 - m.c.song.md 0)) := by
  obtain ⟨h1, h2, h3, h4⟩ := hok
  have hres := username_to_uid_resolves S m.c.username
  have hok2 : m.s.logged_in ≠ 0 ∧ m.s.uid = m.c.song.md 1 ∧
      (username_to_uid S m.c.username true).1 = true ∧ m.c.song.md 3 < K.MAX_USERS :=
    ⟨h1, h2, hres.1.mpr h3, h4⟩
  obtain ⟨hnew, _, _, _, _, _, _, _, f2, f3⟩ := share_song_block K S new_md m hok2 hfit
  rw [round_up_even_eq] at hmd hfit hnew f2 f3 ⊢
  have hshift : (((4 + m.c.song.md 2 + m.c.song.md 3 + 1 + 1) / 2 * 2 : Nat) : Int) -
      (m.c.song.md 0 : Int) =
      (((share_song K S new_md m).c.song.md 0 - m.c.song.md 0 : Nat) : Int) := by
    rw [hnew]
    omega
  rw [hshift, add32_small] at f2 f3
  have hd : (share_song K S new_md m).c.song.md 0 - m.c.song.md 0 ≤ 2 := by
    rw [hnew]; omega
  refine ⟨hnew, ?_, f2, f3, ?_, ?_⟩
  · rw [hnew]; omega
  · intro hlt
    rw [f2]
    exact Nat.mod_eq_of_lt (by omega)
  · intro hlt
    rw [f3]
    exact Nat.mod_eq_of_lt (by omega)

/-- Witness of `share_song_size_accounting`: alice shares a song with two
regions and no user with bob; the metadata grows from 6 to 8 bytes. -/
theorem share_song_size_accounting_witness :
    (share_song sampleK sampleS (fun _ => 0) (share_input 100 60)).c.song.md 0 =
      round_up_even (4 + (share_input 100 60).c.song.md 2 + (share_input 100 60).c.song.md 3 + 1) ∧
    (share_song sampleK sampleS (fun _ => 0) (share_input 100 60)).c.song.file_size =
      ((share_input 100 60).c.song.file_size +
        ((share_song sampleK sampleS (fun _ => 0) (share_input 100 60)).c.song.md 0 -
          (share_input 100 60).c.song.md 0)) % 2 ^ 32 :=
  have h := share_song_size_accounting sampleK sampleS (fun _ => 0) (share_input 100 60)
    ⟨by decide, by decide, ⟨1, by decide, by decide, by decide⟩, by decide⟩
    (by decide) (by decide)
  ⟨h.1, h.2.2.1⟩

/-- C9 as stated fails at the top of the `u32` range: alice shares a
well-formed song (`md_size = 6 = round_up_even(4 + 2 + 0)`) whose `file_size`
in the channel is `2 ^ 32 - 1`; the share succeeds, the new `md_size` is 8,
the shift is 2, and `file_size` wraps to 1 instead of growing by 2. -/
theorem share_song_file_size_wraps :
    (share_input 4294967295 60).c.song.md 0 =
      round_up_even (4 + (share_input 4294967295 60).c.song.md 2 +
        (share_input 4294967295 60).c.song.md 3) ∧
    (share_song sampleK sampleS (fun _ => 0) (share_input 4294967295 60)).s.song_md.num_users
      = 1 ∧
    (share_song sampleK sampleS (fun _ => 0) (share_input 4294967295 60)).c.song.md 0 = 8 ∧
    (share_song sampleK sampleS (fun _ => 0) (share_input 4294967295 60)).c.song.file_size
      = 1 ∧
    (share_song sampleK sampleS (fun _ => 0) (share_input 4294967295 60)).c.song.file_size ≠
      (share_input 4294967295 60).c.song.file_size + 2 := by
  decide

/-- C10 (share round-trip), evaluated at a failing input.  On a table whose
`USER_IDS` is `[1, 0, 2]` for the names alice, bob, carol, the owner carol
shares her song with `alice`.  The share succeeds and `query_song` on the
rewritten song reports one user more, yet the name it writes in the last
user slot is `bob`: `username_to_uid` reads `USERNAMES[USER_IDS[i]]` and
returns uid 0 for `alice`, while `uid_to_username` reads `USERNAMES[i]` where
`USER_IDS[i]` is the uid and returns `bob` for uid 0. -/
theorem share_then_query_names_other_user :
    username_to_uid permS (buffer 16 alice) true = (true, 0) ∧
    uid_to_username permS 0 false = (true, bob) ∧
    (share_song sampleK permS (fun _ => 0) perm_input).c.song.wav_size = 60 ∧
    (query_song sampleK permS perm_input).c.query.num_users = 0 ∧
    (query_song sampleK permS
      (share_song sampleK permS (fun _ => 0) perm_input)).c.query.num_users = 1 ∧
    cstr ((query_song sampleK permS
      (share_song sampleK permS (fun _ => 0) perm_input)).c.query.users 0) = bob ∧
    cstr ((query_song sampleK permS
      (share_song sampleK permS (fun _ => 0) perm_input)).c.query.users 0) ≠ cstr perm_input.c.username := by
  decide

/-- C11 (share of an already-present user), as the code has it.  `share_song`
never looks whether the resolved uid is already listed.  When the logged-in
owner shares with a user whose uid is among the first `num_users` uids of the
song, the call is rejected (`wav_size = 0`, `file_size`, song area and count
unchanged) exactly when `num_users >= MAX_USERS`; otherwise the uid is
appended once more.  In the snapshot the earlier entries stay, the uid is
stored at index `num_users` and `num_users` grows by one.  In the channel,
when the new metadata size fits a `char` (at most 127), the block is
rewritten as for any other share: `num_users` is one more, the earlier uids
stay and the uid follows them, so that it is listed twice; `md_size` is
`round_up_even(4 + num_regions + num_users + 1)`, and `file_size` and
`wav_size` move by `new md_size - old md_size` modulo `2 ^ 32`.  `MAX_USERS`
fits the one-byte count and every name of the table is shorter than the
username buffer. -/
theorem share_song_present_user (K : Constants) (S : Secrets) (new_md : Nat → Nat)
    (m : Machine) (hK : K.MAX_USERS ≤ 255)
    (hnames : ∀ i, i < S.NUM_USERS →
      (cstr (S.USERNAMES (S.USER_IDS i))).length < K.USERNAME_SZ)
    (hlog : m.s.logged_in ≠ 0) (hown : m.s.uid = m.c.song.md 1)
    (hres : (username_to_uid S m.c.username true).1 = true)
    (hpres : ∃ j, j < m.c.song.md 3 ∧
      m.c.song.md (4 + m.c.song.md 2 + j) = (username_to_uid S m.c.username true).2) :
    (cstr m.c.username).length < K.USERNAME_SZ ∧
    (K.MAX_USERS ≤ m.c.song.md 3 →
      (share_song K S new_md m).c.song.wav_size = 0 ∧
      (share_song K S new_md m).c.song.file_size = m.c.song.file_size ∧
      (share_song K S new_md m).c.song.md = m.c.song.md ∧
      (share_song K S new_md m).s.song_md.num_users = m.c.song.md 3) ∧
    (m.c.song.md 3 < K.MAX_USERS →
      (share_song K S new_md m).s.song_md.num_users = m.c.song.md 3 + 1 ∧
      (share_song K S new_md m).s.song_md.uids (m.c.song.md 3) =
        (username_to_uid S m.c.username true).2 ∧
      (∀ i, i < m.c.song.md 3 →
        (share_song K S new_md m).s.song_md.uids i = m.c.song.md (4 + m.c.song.md 2 + i)) ∧
      (round_up_even (4 + m.c.song.md 2 + m.c.song.md 3 + 1) ≤ 127 →
        (share_song K S new_md m).c.song.md 3 = m.c.song.md 3 + 1 ∧
        (∀ i, i < m.c.song.md 3 →
          (share_song K S new_md m).c.song.md (4 + m.c.song.md 2 + i) =
            m.c.song.md (4 + m.c.song.md 2 + i)) ∧
        (share_song K S new_md m).c.song.md (4 + m.c.song.md 2 + m.c.song.md 3) =
          (username_to_uid S m.c.username true).2 ∧
        (∃ j, j < m.c.song.md 3 ∧
          (share_song K S new_md m).c.song.md (4 + m.c.song.md 2 + j) =
            (share_song K S new_md m).c.song.md (4 + m.c.song.md 2 + m.c.song.md 3)) ∧
        (share_song K S new_md m).c.song.md 0 =
          round_up_even (4 + m.c.song.md 2 + m.c.song.md 3 + 1) ∧
        (share_song K S new_md m).c.song.file_size =
          add32 m.c.song.file_size
            ((round_up_even (4 + m.c.song.md 2 + m.c.song.md 3 + 1) : Int) -
              (m.c.song.md 0 : Int)) ∧
        (share_song K S new_md m).c.song.wav_size =
          add32 m.c.song.wav_size
            ((round_up_even (4 + m.c.song.md 2 + m.c.song.md 3 + 1) : Int) -
              (m.c.song.md 0 : Int)))) := by
  refine ⟨?_, ?_, ?_⟩
  · obtain ⟨i, hi, hc, _⟩ := (username_to_uid_resolves S m.c.username).1.mp hres
    rw [hc]
    exact hnames i hi
  · intro hfull
    have hno : ¬ (m.s.logged_in ≠ 0 ∧ m.s.uid = m.c.song.md 1 ∧
        (username_to_uid S m.c.username true).1 = true ∧ m.c.song.md 3 < K.MAX_USERS) := by
      rintro ⟨_, _, _, h4⟩
      omega
    rw [share_song_rejects K S new_md m hno]
    exact ⟨rfl, rfl, rfl, rfl⟩
  · intro hroom
    obtain ⟨f1, _, _, _⟩ := share_song_accept_fields K S new_md m ⟨hlog, hown, hres, hroom⟩
    refine ⟨?_, ?_, ?_, ?_⟩
    · rw [f1]
      show (m.c.song.md 3 + 1) % 256 = m.c.song.md 3 + 1
      exact Nat.mod_eq_of_lt (by omega)
    · rw [f1]
      simp [share_md, load_song_md]
    · intro i hi
      rw [f1]
      have hne : i ≠ m.c.song.md 3 := by omega
      simp [share_md, load_song_md, memcpyA, get_drm_uids, Function.update, hne, hi]
    · intro hfit
      obtain ⟨b0, _, _, b3, _, b5, b6, _, b8, b9⟩ :=
        share_song_block K S new_md m ⟨hlog, hown, hres, hroom⟩ hfit
      obtain ⟨j, hj, hjv⟩ := hpres
      exact ⟨b3, b5, b6, ⟨j, hj, by rw [b5 j hj, b6, hjv]⟩, b0, b8, b9⟩

/-- Witness of `share_song_present_user`: alice shares with bob a song that
already lists bob; bob is listed twice afterwards, in the snapshot and in the
channel, and the block grows from 6 to 8 bytes. -/
theorem share_song_present_user_witness :
    (share_song sampleK sampleS (fun _ => 0) share_again_input).s.song_md.num_users =
      share_again_input.c.song.md 3 + 1 ∧
    (share_song sampleK sampleS (fun _ => 0) share_again_input).s.song_md.uids
        (share_again_input.c.song.md 3) =
      (username_to_uid sampleS share_again_input.c.username true).2 ∧
    (share_song sampleK sampleS (fun _ => 0) share_again_input).c.song.md 3 =
      share_again_input.c.song.md 3 + 1 ∧
    (share_song sampleK sampleS (fun _ => 0) share_again_input).c.song.md 0 =
      round_up_even (4 + share_again_input.c.song.md 2 + share_again_input.c.song.md 3 + 1) :=
  have h := (share_song_present_user sampleK sampleS (fun _ => 0) share_again_input
    (by decide) (by decide) (by decide) (by decide) (by decide)
    ⟨0, by decide, by decide⟩).2.2 (by decide)
  have hb := h.2.2.2 (by decide)
  ⟨h.1, h.2.1, hb.1, hb.2.2.2.2.1⟩

/-- C11 as stated fails: the song of alice already lists bob (uid 1,
`num_users = 1`); sharing it with bob again is not rejected (`wav_size` goes
from 60 to 62, not to 0) and changes the metadata: `num_users` becomes 2,
`md_size` grows from 6 to 8 and `file_size` from 100 to 102. -/
theorem share_song_appends_present_user :
    share_again_input.c.song.md 3 = 1 ∧
    share_again_input.c.song.md (get_drm_uids share_again_input.c.song + 0) =
      (username_to_uid sampleS share_again_input.c.username true).2 ∧
    (share_song sampleK sampleS (fun _ => 0) share_again_input).c.song.wav_size = 62 ∧
    (share_song sampleK sampleS (fun _ => 0) share_again_input).c.song.file_size = 102 ∧
    (share_song sampleK sampleS (fun _ => 0) share_again_input).c.song.md 0 = 8 ∧
    (share_song sampleK sampleS (fun _ => 0) share_again_input).c.song.md 3 = 2 ∧
    (share_song sampleK sampleS (fun _ => 0) share_again_input).c.song.md 6 = 1 := by
  decide

/-! ### Metadata load -/

/-- C12 (metadata load validation), evaluated at a failing input.  With
`MAX_REGIONS = 8` the channel announces `num_regions = 9` under
`md_size = 6`.  `load_song_md` has no rejection path: the snapshot takes
`num_regions = 9`, nine bytes are copied into `rids` (the cell at index 8,
one past the declared array, goes from 0 to 19), `md_size` is not
`round_up_even(4 + 9 + 0)`, and `query_song` goes on to report 9 regions. -/
theorem load_song_md_copies_unchecked :
    sampleK.MAX_REGIONS = 8 ∧
    (bootM [] []).s.song_md.rids 8 = 0 ∧
    (load_song_md (host_song (bootM [] []) song_nine_regions)).s.song_md.num_regions = 9 ∧
    (load_song_md (host_song (bootM [] []) song_nine_regions)).s.song_md.rids 8 = 19 ∧
    (load_song_md (host_song (bootM [] []) song_nine_regions)).s.song_md.md_size = 6 ∧
    round_up_even (4 + 9 + 0) = 14 ∧
    (query_song sampleK sampleS (host_song (bootM [] []) song_nine_regions)).c.query.num_regions
      = 9 := by
  decide

/-! ### Digital out -/

theorem sub32_of_le (x y : Nat) (h : y ≤ x) (hx : x < 2 ^ 32) : sub32 x y = x - y := by
  unfold sub32
  have h1 : ((x : Int) - (y : Int)) = ((x - y : Nat) : Int) := by omega
  rw [h1]
  have h2 : (((x - y : Nat) : Int)) % (2 ^ 32 : Int) = (((x - y) % 2 ^ 32 : Nat) : Int) := by
    push_cast
    rfl
  rw [h2, Int.toNat_ofNat]
  exact Nat.mod_eq_of_lt (by omega)

/-- The verdict of `is_locked` in terms of the session and the reloaded
snapshot. -/
theorem is_locked_fst (S : Secrets) (m : Machine) :
    (is_locked S m).1 =
      if m.s.logged_in = 0 then true
      else if (if (load_song_md m).s.uid = (load_song_md m).s.song_md.owner_id then false
          else is_locked_users S (load_song_md m).s) = true then true
        else is_locked_regions S (load_song_md m).s := by
  unfold is_locked
  dsimp only
  split_ifs <;> rfl

/-- The verdict of `is_locked` does not depend on the size fields of the song,
and `is_locked` leaves the channel alone. -/
theorem is_locked_sizes (S : Secrets) (m : Machine) (fs ws : Nat) :
    (is_locked S { m with c := { m.c with song := { m.c.song with file_size := fs, wav_size := ws } } }).1
      = (is_locked S m).1 ∧
    (is_locked S { m with c := { m.c with song := { m.c.song with file_size := fs, wav_size := ws } } }).2.c
      = { m.c with song := { m.c.song with file_size := fs, wav_size := ws } } := by
  constructor
  · rw [is_locked_fst, is_locked_fst]
    rfl
  · rw [is_locked_snd]
    split <;> rfl

/-- C15 (digital_out size rewrite), as the code has it.  For a channel with
`md_size <= wav_size <= file_size < 2 ^ 32`, `digital_out` first subtracts
`md_size` from `file_size` and `wav_size`, and then, when the song is locked
and the reduced `wav_size` exceeds `PREVIEW_SZ`, truncates `wav_size` to
`PREVIEW_SZ` and reduces `file_size` by the same amount.  The final `wav_size`
is `PREVIEW_SZ` if locked and `wav_size - md_size > PREVIEW_SZ`, else
`wav_size - md_size`; `file_size - wav_size` is unchanged. -/
theorem digital_out_sizes (K : Constants) (S : Secrets) (m : Machine)
    (h1 : m.c.song.md 0 ≤ m.c.song.wav_size) (h2 : m.c.song.wav_size ≤ m.c.song.file_size)
    (h3 : m.c.song.file_size < 2 ^ 32) :
    (digital_out K S m).c.song.wav_size =
      (if (is_locked S m).1 = true ∧ K.PREVIEW_SZ < m.c.song.wav_size - m.c.song.md 0
        then K.PREVIEW_SZ else m.c.song.wav_size - m.c.song.md 0) ∧
    (digital_out K S m).c.song.wav_size ≤ (digital_out K S m).c.song.file_size ∧
    (digital_out K S m).c.song.file_size - (digital_out K S m).c.song.wav_size =
      m.c.song.file_size - m.c.song.wav_size := by
  obtain ⟨e1, e2⟩ := is_locked_sizes S m (sub32 m.c.song.file_size (m.c.song.md 0))
    (sub32 m.c.song.wav_size (m.c.song.md 0))
  have hf : sub32 m.c.song.file_size (m.c.song.md 0) = m.c.song.file_size - m.c.song.md 0 :=
    sub32_of_le _ _ (by omega) h3
  have hw : sub32 m.c.song.wav_size (m.c.song.md 0) = m.c.song.wav_size - m.c.song.md 0 :=
    sub32_of_le _ _ h1 (by omega)
  unfold digital_out
  dsimp only
  rw [e1, e2]
  dsimp only
  rw [hf, hw]
  by_cases hl : (is_locked S m).1 = true
  · by_cases hp : K.PREVIEW_SZ < m.c.song.wav_size - m.c.song.md 0
    · have hs : sub32 (m.c.song.wav_size - m.c.song.md 0) K.PREVIEW_SZ =
          m.c.song.wav_size - m.c.song.md 0 - K.PREVIEW_SZ := sub32_of_le _ _ (by omega) (by omega)
      have hs2 : sub32 (m.c.song.file_size - m.c.song.md 0)
          (m.c.song.wav_size - m.c.song.md 0 - K.PREVIEW_SZ) =
          m.c.song.file_size - m.c.song.md 0 - (m.c.song.wav_size - m.c.song.md 0 - K.PREVIEW_SZ) :=
        sub32_of_le _ _ (by omega) (by omega)
      simp only [hl, hp, decide_True, Bool.and_self, if_true, and_self, hs, hs2]
      refine ⟨trivial, ?_, ?_⟩ <;> omega
    · simp only [hl, hp, decide_False, Bool.and_false, if_false, and_false]
      simp only [Bool.false_eq_true, if_false]
      refine ⟨trivial, ?_, ?_⟩ <;> omega
  · have hl2 : (is_locked S m).1 = false := by simpa using hl
    simp only [hl2, Bool.false_and, Bool.false_eq_true, if_false, false_and]
    refine ⟨trivial, ?_, ?_⟩ <;> omega

/-- Witness of `digital_out_sizes`: a locked song of 100 bytes after the WAV
header, 6 of them metadata, with `PREVIEW_SZ = 64`. -/
theorem digital_out_sizes_witness :
    (digital_out sampleK sampleS (locked_input 140 100)).c.song.wav_size =
      (if (is_locked sampleS (locked_input 140 100)).1 = true ∧
          sampleK.PREVIEW_SZ < (locked_input 140 100).c.song.wav_size -
            (locked_input 140 100).c.song.md 0
        then sampleK.PREVIEW_SZ
        else (locked_input 140 100).c.song.wav_size - (locked_input 140 100).c.song.md 0) :=
  (digital_out_sizes sampleK sampleS (locked_input 140 100)
    (by decide) (by decide) (by decide)).1

/-- C15 as stated fails: for a locked song with `wav_size = 100`,
`md_size = 6` and `PREVIEW_SZ = 64` the claim gives a final `wav_size` of
`64 - 6 = 58`; the code subtracts `md_size` first and truncates afterwards, so
the final `wav_size` is 64. -/
theorem digital_out_truncates_last :
    (is_locked sampleS (locked_input 140 100)).1 = true ∧
    sampleK.PREVIEW_SZ < (locked_input 140 100).c.song.wav_size ∧
    (digital_out sampleK sampleS (locked_input 140 100)).c.song.wav_size = 64 ∧
    (digital_out sampleK sampleS (locked_input 140 100)).c.song.wav_size ≠
      sampleK.PREVIEW_SZ - (locked_input 140 100).c.song.md 0 := by
  decide

/-! ### Player query -/

/-- C16 (query_player), evaluated at a failing input.  On a player whose only
provisioned user is bob (`PROVISIONED_UIDS = [1]`), `query_player` reports one
user and writes `alice` as its name: the user loop copies `USERNAMES[i]`, not
`USERNAMES[PROVISIONED_UIDS[i]]`.  The name `login` accepts for that entry is
`bob`, and `alice` cannot log in. -/
theorem query_player_names_unprovisioned_user :
    (query_player bobS (bootM [] [])).c.query.num_users = bobS.NUM_PROVISIONED_USERS ∧
    (query_player bobS (bootM [] [])).c.query.num_regions = bobS.NUM_PROVISIONED_REGIONS ∧
    cstr ((query_player bobS (bootM [] [])).c.query.users 0) = alice ∧
    bobS.USERNAMES (bobS.PROVISIONED_UIDS 0) = bob ∧
    uid_to_username bobS (bobS.PROVISIONED_UIDS 0) false = (true, bob) ∧
    (login sampleK bobS (bootM bob [48, 48, 48, 48])).s.logged_in = 1 ∧
    (login sampleK bobS (bootM alice [48, 48, 48, 48])).s.logged_in = 0 ∧
    cstr ((query_player bobS (bootM [] [])).c.query.regions 0) =
      (rid_to_region_name bobS (bobS.PROVISIONED_RIDS 0) false).2 := by
  decide

/-! ### Dispatcher -/

/-- C18 (logout idempotence).  Running `logout` twice in a row leaves exactly
the machine (session, channel and trace) that running it once leaves, and
`logout` on a logged-out session whose `c->login_status` is 0 changes
nothing. -/
theorem logout_idempotent (K : Constants) (m : Machine) :
    logout K (logout K m) = logout K m ∧
    (m.s.logged_in = 0 → m.c.login_status = 0 → logout K m = m) := by
  have noop : ∀ x : Machine, x.c.login_status = 0 → logout K x = x := by
    intro x hx
    simp [logout, hx]
  constructor
  · by_cases h : m.c.login_status = 0
    · rw [noop m h, noop m h]
    · exact noop (logout K m) (by simp [logout, h])
  · intro _ h
    exact noop m h

/-- Witness of `logout_idempotent`: `logout` right after boot. -/
theorem logout_idempotent_witness :
    logout sampleK (bootM alice [49, 50, 51, 52]) = bootM alice [49, 50, 51, 52] :=
  (logout_idempotent sampleK (bootM alice [49, 50, 51, 52])).2 (by decide) (by decide)

/-! ### Playback -/

theorem brams_append (a b : List Event) : brams (a ++ b) = brams a ++ brams b := by
  induction a with
  | nil => rfl
  | cons e es ih => cases e <;> simp [brams, ih]

theorem dmas_append (a b : List Event) : dmas (a ++ b) = dmas a ++ dmas b := by
  induction a with
  | nil => rfl
  | cons e es ih => cases e <;> simp [dmas, ih]

theorem bram_total_append (a b : List Event) :
    bram_total (a ++ b) = bram_total a + bram_total b := by
  simp [bram_total, brams_append]

/-- More fuel does not change the result of the polling loop. -/
theorem dma_wait_mono (K : Constants) (E : PlayEnv) (rem lenAudio : Nat) :
    ∀ (f : Nat) (t r : Nat), dma_wait K E rem lenAudio f t = some r →
      ∀ f', f ≤ f' → dma_wait K E rem lenAudio f' t = some r := by
  intro f
  induction f with
  | zero => intro t r h; simp [dma_wait] at h
  | succ f ih =>
    intro t r h f' hf
    obtain ⟨g, rfl⟩ : ∃ g, f' = g + 1 := ⟨f' - 1, by omega⟩
    unfold dma_wait at h ⊢
    split
    · rename_i hc
      rw [if_pos hc] at h
      exact ih _ _ h g (by omega)
    · rename_i hc
      rw [if_neg hc] at h
      exact h

/-- More fuel does not change the result of the DMA loop. -/
theorem dma_loop_mono (K : Constants) (E : PlayEnv) (offset rem lenAudio : Nat) :
    ∀ (f : Nat) (cnt : Nat) (st r : PlayLoop),
      dma_loop K E offset rem lenAudio f cnt st = some r →
      ∀ f', f ≤ f' → dma_loop K E offset rem lenAudio f' cnt st = some r := by
  intro f
  induction f with
  | zero => intro cnt st r h; simp [dma_loop] at h
  | succ f ih =>
    intro cnt st r h f' hf
    obtain ⟨g, rfl⟩ : ∃ g, f' = g + 1 := ⟨f' - 1, by omega⟩
    unfold dma_loop at h ⊢
    by_cases hc : cnt = 0
    · rw [if_pos hc] at h ⊢
      exact h
    · rw [if_neg hc] at h ⊢
      cases hw : dma_wait K E rem lenAudio (f + 1) st.tick with
      | none => rw [hw] at h; simp at h
      | some t =>
        rw [hw] at h
        rw [dma_wait_mono K E rem lenAudio _ _ _ hw (g + 1) (by omega)]
        exact ih _ _ _ h g (by omega)

/-- The DMA loop touches only the read counter and appends only `dma` events. -/
theorem dma_loop_spec (K : Constants) (E : PlayEnv) (offset rem lenAudio : Nat) :
    ∀ (f : Nat) (cnt : Nat) (st r : PlayLoop),
      dma_loop K E offset rem lenAudio f cnt st = some r →
      r.rem = st.rem ∧ r.counter = st.counter ∧ r.firstChunk = st.firstChunk ∧
      r.cmd = st.cmd ∧ r.drm_state = st.drm_state ∧
      ∃ ds, r.events = st.events ++ ds ∧ ∀ e ∈ ds, ∃ o c, e = Event.dma o c := by
  intro f
  induction f with
  | zero => intro cnt st r h; simp [dma_loop] at h
  | succ f ih =>
    intro cnt st r h
    unfold dma_loop at h
    by_cases hc : cnt = 0
    · rw [if_pos hc] at h
      cases h
      exact ⟨rfl, rfl, rfl, rfl, rfl, [], by simp, by simp⟩
    · rw [if_neg hc] at h
      cases hw : dma_wait K E rem lenAudio (f + 1) st.tick with
      | none => rw [hw] at h; simp at h
      | some t =>
        rw [hw] at h
        obtain ⟨h1, h2, h3, h4, h5, ds, h6, h7⟩ := ih _ _ _ h
        refine ⟨h1, h2, h3, h4, h5,
          Event.dma offset
            (if sub32 K.FIFO_CAP (E.fifo_fill t) > cnt then sub32 K.FIFO_CAP (E.fifo_fill (t + 1))
              else cnt) :: ds, ?_, ?_⟩
        · rw [h6]
          simp
        · intro e he
          rcases List.mem_cons.mp he with rfl | he
          · exact ⟨_, _, rfl⟩
          · exact h7 e he

theorem brams_of_dmas (ds : List Event) (h : ∀ e ∈ ds, ∃ o c, e = Event.dma o c) :
    brams ds = [] := by
  induction ds with
  | nil => rfl
  | cons e es ih =>
    obtain ⟨o, c, rfl⟩ := h e (List.mem_cons_self _ _)
    simp only [brams]
    exact ih (fun x hx => h x (List.mem_cons_of_mem _ hx))

theorem ceil_div_step (r C : Nat) (hC : 0 < C) (hr : 0 < r) :
    (r + C - 1) / C = (r - (if r > C then C else r) + C - 1) / C + 1 := by
  by_cases h : r > C
  · rw [if_pos h]
    have e : r + C - 1 = (r - C + C - 1) + C := by omega
    rw [e, Nat.add_div_right _ hC]
  · rw [if_neg h]
    have e : r + C - 1 = (r - 1) + C := by omega
    have e2 : r - r + C - 1 = C - 1 := by omega
    rw [e, Nat.add_div_right _ hC, e2, Nat.div_eq_of_lt (by omega : r - 1 < C),
      Nat.div_eq_of_lt (by omega : C - 1 < C)]

/-- One pass through the body of the playback loop when no interrupt arrives
and the checks of the chunk succeed. -/
theorem play_loop_quiet_step (K : Constants) (E : PlayEnv) (lenAudio nchunks fuel : Nat)
    (st r : PlayLoop) (hrem : st.rem ≠ 0)
    (hv : ∀ pos len, E.verifyChunk pos len = true)
    (hd : ∀ pos len iv, E.decryptChunk pos len iv = true)
    (hr : dma_loop K E (if st.counter % 2 = 0 then 0 else K.CHUNK_SZ) st.rem lenAudio (fuel + 1)
      (if st.rem > K.CHUNK_SZ then K.CHUNK_SZ else st.rem)
      { st with
        counter := (st.counter + 1) % 2 ^ 32, firstChunk := false
        events := st.events ++
          [Event.verify (sub32 lenAudio st.rem) (if st.rem > K.CHUNK_SZ then K.CHUNK_SZ else st.rem)] ++
          [Event.decrypt (sub32 lenAudio st.rem) (if st.rem > K.CHUNK_SZ then K.CHUNK_SZ else st.rem)
            (if st.firstChunk then IvSource.stored
              else IvSource.song (sub32 (sub32 lenAudio st.rem) K.AES_BLK_SZ))] ++
          [Event.bram (if st.counter % 2 = 0 then 0 else K.CHUNK_SZ)
            (if st.rem > K.CHUNK_SZ then K.CHUNK_SZ else st.rem)] } = some r) :
    play_loop K E lenAudio nchunks (fuel + 1) [] st =
      play_loop K E lenAudio nchunks fuel []
        { r with rem := sub32 r.rem (if st.rem > K.CHUNK_SZ then K.CHUNK_SZ else st.rem) } := by
  conv_lhs => unfold play_loop
  rw [if_neg hrem]
  simp only [List.headD_nil, play_irq, hv, hd, Bool.true_eq_false, if_false, List.tail_nil]
  rw [hr]

/-- The playback loop without interrupts, when every chunk passes its checks
and every DMA loop terminates within `f0` steps: it returns with `rem = 0`
after copying `rem` bytes in `ceil(rem / CHUNK_SZ)` chunks. -/
theorem play_loop_quiet (K : Constants) (E : PlayEnv) (lenAudio nchunks f0 : Nat)
    (hK : 0 < K.CHUNK_SZ)
    (hv : ∀ pos len, E.verifyChunk pos len = true)
    (hd : ∀ pos len iv, E.decryptChunk pos len iv = true)
    (hdma : ∀ offset rem cnt st, 0 < cnt → cnt ≤ K.CHUNK_SZ →
      ∃ r, dma_loop K E offset rem lenAudio f0 cnt st = some r) :
    ∀ (fuel : Nat) (st : PlayLoop), st.rem < 2 ^ 32 →
      f0 + (st.rem + K.CHUNK_SZ - 1) / K.CHUNK_SZ + 1 ≤ fuel →
      (play_loop K E lenAudio nchunks fuel [] st).1 = PlayStatus.returned ∧
      (play_loop K E lenAudio nchunks fuel [] st).2.rem = 0 ∧
      (play_loop K E lenAudio nchunks fuel [] st).2.drm_state = st.drm_state ∧
      (play_loop K E lenAudio nchunks fuel [] st).2.cmd = st.cmd ∧
      ∃ evs, (play_loop K E lenAudio nchunks fuel [] st).2.events = st.events ++ evs ∧
        bram_total evs = st.rem ∧
        (brams evs).length = (st.rem + K.CHUNK_SZ - 1) / K.CHUNK_SZ := by
  intro fuel
  induction fuel with
  | zero =>
    intro st _ hf
    generalize (st.rem + K.CHUNK_SZ - 1) / K.CHUNK_SZ = q at hf
    omega
  | succ fuel ih =>
    intro st hlt hf
    by_cases hrem : st.rem = 0
    · have e : play_loop K E lenAudio nchunks (fuel + 1) [] st = (PlayStatus.returned, st) := by
        conv_lhs => unfold play_loop
        rw [if_pos hrem]
      rw [e]
      refine ⟨rfl, hrem, rfl, rfl, [], by simp, ?_, ?_⟩
      · rw [hrem]; rfl
      · rw [hrem]
        simp only [brams, List.length_nil]
        exact (Nat.div_eq_of_lt (by omega)).symm
    · have hceil := ceil_div_step st.rem K.CHUNK_SZ hK (by omega)
      have hcp : 0 < (if st.rem > K.CHUNK_SZ then K.CHUNK_SZ else st.rem) := by
        split <;> omega
      have hcp2 : (if st.rem > K.CHUNK_SZ then K.CHUNK_SZ else st.rem) ≤ K.CHUNK_SZ := by
        split <;> omega
      have hcp3 : (if st.rem > K.CHUNK_SZ then K.CHUNK_SZ else st.rem) ≤ st.rem := by
        split <;> omega
      obtain ⟨r, hr0⟩ := hdma (if st.counter % 2 = 0 then 0 else K.CHUNK_SZ) st.rem _
        { st with
          counter := (st.counter + 1) % 2 ^ 32, firstChunk := false
          events := st.events ++
            [Event.verify (sub32 lenAudio st.rem) (if st.rem > K.CHUNK_SZ then K.CHUNK_SZ else st.rem)] ++
            [Event.decrypt (sub32 lenAudio st.rem) (if st.rem > K.CHUNK_SZ then K.CHUNK_SZ else st.rem)
              (if st.firstChunk then IvSource.stored
                else IvSource.song (sub32 (sub32 lenAudio st.rem) K.AES_BLK_SZ))] ++
            [Event.bram (if st.counter % 2 = 0 then 0 else K.CHUNK_SZ)
              (if st.rem > K.CHUNK_SZ then K.CHUNK_SZ else st.rem)] } hcp hcp2
      have hf0 : f0 ≤ fuel + 1 := by
        have hf' := hf
        generalize (st.rem + K.CHUNK_SZ - 1) / K.CHUNK_SZ = q at hf'
        omega
      have hr := dma_loop_mono K E _ _ _ _ _ _ _ hr0 (fuel + 1) hf0
      obtain ⟨s1, _, _, s4, s5, ds, s6, s7⟩ := dma_loop_spec K E _ _ _ _ _ _ _ hr
      rw [play_loop_quiet_step K E lenAudio nchunks fuel st r hrem hv hd hr]
      have s1' : r.rem = st.rem := s1
      have hsub : sub32 r.rem (if st.rem > K.CHUNK_SZ then K.CHUNK_SZ else st.rem) =
          st.rem - (if st.rem > K.CHUNK_SZ then K.CHUNK_SZ else st.rem) := by
        rw [s1']
        exact sub32_of_le _ _ hcp3 hlt
      have hremlt : st.rem - (if st.rem > K.CHUNK_SZ then K.CHUNK_SZ else st.rem) < 2 ^ 32 := by
        omega
      have hfuel : f0 + (st.rem - (if st.rem > K.CHUNK_SZ then K.CHUNK_SZ else st.rem)
          + K.CHUNK_SZ - 1) / K.CHUNK_SZ + 1 ≤ fuel := by
        rw [hceil] at hf
        omega
      obtain ⟨i1, i2, i3, i4, evs, i5, i6, i7⟩ := ih
        { r with rem := sub32 r.rem (if st.rem > K.CHUNK_SZ then K.CHUNK_SZ else st.rem) }
        (by show sub32 r.rem _ < 2 ^ 32; rw [hsub]; exact hremlt)
        (by show f0 + (sub32 r.rem _ + K.CHUNK_SZ - 1) / K.CHUNK_SZ + 1 ≤ fuel
            rw [hsub]; exact hfuel)
      have i6' : bram_total evs =
          st.rem - (if st.rem > K.CHUNK_SZ then K.CHUNK_SZ else st.rem) := by
        rw [i6]; exact hsub
      have i7' : (brams evs).length =
          (st.rem - (if st.rem > K.CHUNK_SZ then K.CHUNK_SZ else st.rem) + K.CHUNK_SZ - 1)
            / K.CHUNK_SZ := by
        rw [i7]
        show (sub32 r.rem _ + K.CHUNK_SZ - 1) / K.CHUNK_SZ = _
        rw [hsub]
      refine ⟨i1, i2, i3.trans s5, i4.trans s4, ?_⟩
      refine ⟨[Event.verify (sub32 lenAudio st.rem) (if st.rem > K.CHUNK_SZ then K.CHUNK_SZ else st.rem),
            Event.decrypt (sub32 lenAudio st.rem) (if st.rem > K.CHUNK_SZ then K.CHUNK_SZ else st.rem)
              (if st.firstChunk then IvSource.stored
                else IvSource.song (sub32 (sub32 lenAudio st.rem) K.AES_BLK_SZ)),
            Event.bram (if st.counter % 2 = 0 then 0 else K.CHUNK_SZ)
              (if st.rem > K.CHUNK_SZ then K.CHUNK_SZ else st.rem)] ++ (ds ++ evs), ?_, ?_, ?_⟩
      · rw [i5]
        show r.events ++ evs = _
        rw [s6]
        simp only [List.append_assoc, List.singleton_append, List.cons_append, List.nil_append]
      · rw [bram_total_append, bram_total_append, i6']
        have hz : bram_total ds = 0 := by
          simp only [bram_total, brams_of_dmas ds s7, List.map_nil, List.sum_nil]
        rw [hz]
        simp only [bram_total, brams, List.map_cons, List.map_nil, List.sum_cons, List.sum_nil]
        omega
      · rw [brams_append, brams_append, List.length_append, List.length_append, i7',
          brams_of_dmas ds s7, hceil]
        simp only [brams, List.length_cons, List.length_nil]
        omega

theorem sub32_lt (x y : Nat) : sub32 x y < 2 ^ 32 := by
  unfold sub32
  have h1 := Int.emod_lt_of_pos ((x : Int) - (y : Int)) (by norm_num : (0 : Int) < 2 ^ 32)
  have h2 := Int.emod_nonneg ((x : Int) - (y : Int)) (by norm_num : (2 ^ 32 : Int) ≠ 0)
  omega

theorem is_locked_trace (S : Secrets) (m : Machine) :
    (is_locked S m).2.trace = m.trace ∧ (is_locked S m).2.c = m.c := by
  rw [is_locked_snd]
  split <;> exact ⟨rfl, rfl⟩

theorem play_len_lt (K : Constants) (S : Secrets) (m : Machine) : play_len K S m < 2 ^ 32 := by
  have h := sub32_lt (sub32 (sub32 m.c.song.wav_size K.SIGNATURE_SZ) (m.c.song.md 0)) K.AES_BLK_SZ
  unfold play_len
  split
  · rename_i hc
    have := hc.1
    unfold lenAudio_of at this
    omega
  · exact h

/-- Once the two keys are set and the whole-object check passes, `play_song`
is the playback loop started on `play_len` bytes: the loop decides the
status, its events are appended to the trace, and it leaves `cmd` and
`drm_state` in the channel. -/
theorem play_song_run (K : Constants) (S : Secrets) (E : PlayEnv) (fuel : Nat) (m : Machine)
    (h1 : E.setKeyMd = true) (h2 : E.verifySong = true) (h3 : E.setKey = true) :
    ∃ n,
    (play_song K S E fuel m).1 =
      (play_loop K E (play_len K S m) n fuel E.irq (play_start (play_len K S m) m.c.cmd)).1 ∧
    (play_song K S E fuel m).2.trace = m.trace ++
      (play_loop K E (play_len K S m) n fuel E.irq
        (play_start (play_len K S m) m.c.cmd)).2.events ∧
    (play_song K S E fuel m).2.c.drm_state =
      (play_loop K E (play_len K S m) n fuel E.irq
        (play_start (play_len K S m) m.c.cmd)).2.drm_state ∧
    (play_song K S E fuel m).2.c.cmd =
      (play_loop K E (play_len K S m) n fuel E.irq (play_start (play_len K S m) m.c.cmd)).2.cmd ∧
    (play_song K S E fuel m).2.c.song = m.c.song := by
  have ht := is_locked_trace S (load_song_md m)
  unfold play_song
  simp only [h1, h2, h3, Bool.true_eq_false, if_false]
  by_cases hp : lenAudio_of K m.c.song > K.PREVIEW_SZ
  · have hp' : sub32 (sub32 (sub32 (load_song_md m).c.song.wav_size K.SIGNATURE_SZ)
        ((load_song_md m).c.song.md 0)) K.AES_BLK_SZ > K.PREVIEW_SZ := hp
    simp only [hp', if_true, decide_True, Bool.true_and]
    have hlen : (if (is_locked S (load_song_md m)).1 = true then K.PREVIEW_SZ
        else sub32 (sub32 (sub32 (load_song_md m).c.song.wav_size K.SIGNATURE_SZ)
          ((load_song_md m).c.song.md 0)) K.AES_BLK_SZ) = play_len K S m := by
      unfold play_len
      by_cases hl : (is_locked S (load_song_md m)).1 = true
      · rw [if_pos hl, if_pos ⟨hp, hl⟩]
      · rw [if_neg hl, if_neg (fun h => hl h.2)]
        rfl
    rw [hlen, ht.2]
    exact ⟨_, rfl, by rw [ht.1]; rfl, rfl, rfl, rfl⟩
  · have hp' : ¬ sub32 (sub32 (sub32 (load_song_md m).c.song.wav_size K.SIGNATURE_SZ)
        ((load_song_md m).c.song.md 0)) K.AES_BLK_SZ > K.PREVIEW_SZ := hp
    simp only [hp', if_false, decide_False, Bool.false_and, Bool.false_eq_true]
    have hlen : sub32 (sub32 (sub32 (load_song_md m).c.song.wav_size K.SIGNATURE_SZ)
          ((load_song_md m).c.song.md 0)) K.AES_BLK_SZ = play_len K S m := by
      unfold play_len
      rw [if_neg (fun h => hp h.1)]
      rfl
    rw [hlen]
    exact ⟨_, rfl, rfl, rfl, rfl, rfl⟩

theorem sub32_wrap (x y : Nat) (h : x < y) (hy : y ≤ 2 ^ 32) :
    sub32 x y = 2 ^ 32 + x - y := by
  unfold sub32
  have h1 : ((x : Int) - (y : Int)) % (2 ^ 32 : Int) = ((2 ^ 32 + x - y : Nat) : Int) := by
    have e : (2 ^ 32 : Int) = 4294967296 := by norm_num
    have e2 : (2 ^ 32 : Nat) = 4294967296 := by norm_num
    rw [e]
    rw [e2] at hy ⊢
    omega
  rw [h1, Int.toNat_ofNat]

theorem sub32_self (x : Nat) : sub32 x x = 0 := by
  simp [sub32]

/-- The polling loop ends as soon as a read finds the DMA engine idle or the
FIFO count at `FIFO_CAP - 32` or more. -/
theorem dma_wait_returns (K : Constants) (E : PlayEnv) (rem lenAudio : Nat) :
    ∀ (k t fuel : Nat), k < fuel →
      (E.busy (t + k) = false ∨ sub32 K.FIFO_CAP 32 ≤ E.fifo_fill (t + k)) →
      ∃ r, dma_wait K E rem lenAudio fuel t = some r := by
  intro k
  induction k with
  | zero =>
    intro t fuel hf h
    obtain ⟨f, rfl⟩ : ∃ f, fuel = f + 1 := ⟨fuel - 1, by omega⟩
    unfold dma_wait
    split
    · rename_i hc
      exfalso
      simp only [Bool.and_eq_true, decide_eq_true_eq] at hc
      rcases h with h | h
      · rw [Nat.add_zero] at h
        rw [h] at hc
        exact absurd hc.1.1 (by decide)
      · rw [Nat.add_zero] at h
        omega
    · exact ⟨_, rfl⟩
  | succ k ih =>
    intro t fuel hf h
    obtain ⟨f, rfl⟩ : ∃ f, fuel = f + 1 := ⟨fuel - 1, by omega⟩
    unfold dma_wait
    split
    · have e : t + (k + 1) = t + 1 + k := by omega
      rw [e] at h
      exact ih (t + 1) f (by omega) h
    · exact ⟨_, rfl⟩

/-- The DMA loop ends after one transfer when no read of the FIFO leaves more
room than there are bytes to push. -/
theorem dma_loop_big (K : Constants) (E : PlayEnv) (W : Nat) (offset rem lenAudio : Nat)
    (hw : ∀ t, ∃ k, k < W ∧
      (E.busy (t + k) = false ∨ sub32 K.FIFO_CAP 32 ≤ E.fifo_fill (t + k)))
    (cnt : Nat) (hfree : ∀ t, ¬ sub32 K.FIFO_CAP (E.fifo_fill t) > cnt)
    (fuel : Nat) (hf : W + 1 ≤ fuel) (st : PlayLoop) :
    ∃ r, dma_loop K E offset rem lenAudio fuel cnt st = some r := by
  obtain ⟨f, rfl⟩ : ∃ f, fuel = f + 1 := ⟨fuel - 1, by omega⟩
  obtain ⟨k0, hk0, _⟩ := hw 0
  obtain ⟨g, rfl⟩ : ∃ g, f = g + 1 := ⟨f - 1, by omega⟩
  unfold dma_loop
  by_cases hc : cnt = 0
  · rw [if_pos hc]
    exact ⟨st, rfl⟩
  · rw [if_neg hc]
    obtain ⟨k, hk, hk2⟩ := hw st.tick
    obtain ⟨t, ht⟩ := dma_wait_returns K E rem lenAudio k st.tick (g + 1 + 1) (by omega) hk2
    rw [ht]
    dsimp only
    rw [if_neg (hfree t), sub32_self]
    unfold dma_loop
    rw [if_pos rfl]
    exact ⟨_, rfl⟩

/-- The DMA loop ends under `dma_ready`: each transfer either pushes the rest,
or pushes less and leaves less to push, or pushes more and leaves a wrapped
count that the next transfer pushes whole. -/
theorem dma_loop_small (K : Constants) (E : PlayEnv) (W : Nat) (offset rem lenAudio : Nat)
    (h : dma_ready K E W) :
    ∀ (cnt : Nat), cnt ≤ 2 ^ 31 → ∀ (fuel : Nat) (st : PlayLoop), cnt + W + 1 ≤ fuel →
      ∃ r, dma_loop K E offset rem lenAudio fuel cnt st = some r := by
  obtain ⟨hcap, hfill, hroom, hw⟩ := h
  have hfree : ∀ t, sub32 K.FIFO_CAP (E.fifo_fill t) = K.FIFO_CAP - E.fifo_fill t :=
    fun t => sub32_of_le _ _ (hfill t) (by omega)
  intro cnt
  induction cnt using Nat.strong_induction_on with
  | _ cnt ih =>
    intro hsmall fuel st hf
    obtain ⟨f, rfl⟩ : ∃ f, fuel = f + 1 := ⟨fuel - 1, by omega⟩
    unfold dma_loop
    by_cases hc : cnt = 0
    · rw [if_pos hc]
      exact ⟨st, rfl⟩
    · rw [if_neg hc]
      obtain ⟨k, hk, hk2⟩ := hw st.tick
      obtain ⟨t, ht⟩ := dma_wait_returns K E rem lenAudio k st.tick (f + 1) (by omega) hk2
      rw [ht]
      dsimp only
      by_cases hgt : sub32 K.FIFO_CAP (E.fifo_fill t) > cnt
      · rw [if_pos hgt]
        have hd1 : 0 < sub32 K.FIFO_CAP (E.fifo_fill (t + 1)) := by
          rw [hfree] at hgt
          have := hroom t (by omega)
          rw [hfree]
          omega
        have hd2 : sub32 K.FIFO_CAP (E.fifo_fill (t + 1)) ≤ 2 ^ 31 := by
          rw [hfree]
          omega
        generalize sub32 K.FIFO_CAP (E.fifo_fill (t + 1)) = d at hd1 hd2
        by_cases hle : d ≤ cnt
        · rw [sub32_of_le cnt d hle (by omega)]
          exact ih (cnt - d) (by omega) (by omega) f _ (by omega)
        · rw [sub32_wrap cnt d (by omega) (by omega)]
          apply dma_loop_big K E W offset rem lenAudio hw
          · intro t2
            rw [hfree]
            have : (2 : Nat) ^ 32 = 2 ^ 31 + 2 ^ 31 := by norm_num
            omega
          · omega
      · rw [if_neg hgt, sub32_self]
        obtain ⟨g, rfl⟩ : ∃ g, f = g + 1 := ⟨f - 1, by omega⟩
        unfold dma_loop
        rw [if_pos rfl]
        exact ⟨_, rfl⟩

/-- Under `dma_ready` the DMA loop of a chunk of at most `CHUNK_SZ` bytes ends
within `CHUNK_SZ + W + 1` steps. -/
theorem dma_loop_returns (K : Constants) (E : PlayEnv) (W : Nat) (offset rem lenAudio : Nat)
    (h : dma_ready K E W) (cnt : Nat) (st : PlayLoop) (hc : cnt ≤ K.CHUNK_SZ) :
    ∃ r, dma_loop K E offset rem lenAudio (K.CHUNK_SZ + W + 1) cnt st = some r := by
  by_cases hs : cnt ≤ 2 ^ 31
  · exact dma_loop_small K E W offset rem lenAudio h cnt hs _ st (by omega)
  · obtain ⟨hcap, hfill, _, hw⟩ := h
    apply dma_loop_big K E W offset rem lenAudio hw
    · intro t
      rw [sub32_of_le _ _ (hfill t) (by omega)]
      omega
    · omega

/-- C13 (preview invariant), as the code has it.  The playback loop polls
the DMA engine without a timeout, so the claim needs hardware that lets the
polls end (`dma_ready`).  For a song that passes the whole-object check and
every chunk check and decryption, played with no host interrupt, with
`CHUNK_SZ > 0`, such hardware and enough fuel: `play_song` returns; the bytes
copied into the DMA BRAM add up to `play_len`, which is `PREVIEW_SZ` when
`lenAudio > PREVIEW_SZ` and `is_locked()` holds and `lenAudio` otherwise; the
copies are `ceil(play_len / CHUNK_SZ)` in number, one per pass; and the loop
ends with `rem = 0`. -/
theorem play_song_preview (K : Constants) (S : Secrets) (E : PlayEnv) (fuel W : Nat)
    (m : Machine) (hK : 0 < K.CHUNK_SZ)
    (hkey1 : E.setKeyMd = true) (hsong : E.verifySong = true) (hkey2 : E.setKey = true)
    (hv : ∀ pos len, E.verifyChunk pos len = true)
    (hd : ∀ pos len iv, E.decryptChunk pos len iv = true)
    (hirq : E.irq = [])
    (hready : dma_ready K E W)
    (hfuel : K.CHUNK_SZ + W + 1 + (play_len K S m + K.CHUNK_SZ - 1) / K.CHUNK_SZ + 1 ≤ fuel) :
    (play_song K S E fuel m).1 = PlayStatus.returned ∧
    (∃ evs, (play_song K S E fuel m).2.trace = m.trace ++ evs ∧
      bram_total evs = play_len K S m ∧
      (brams evs).length = (play_len K S m + K.CHUNK_SZ - 1) / K.CHUNK_SZ) ∧
    (∀ n, (play_loop K E (play_len K S m) n fuel E.irq
      (play_start (play_len K S m) m.c.cmd)).2.rem = 0) ∧
    play_len K S m =
      (if lenAudio_of K m.c.song > K.PREVIEW_SZ ∧ (is_locked S (load_song_md m)).1 = true
        then K.PREVIEW_SZ else lenAudio_of K m.c.song) := by
  have hdma : ∀ offset rem cnt st, 0 < cnt → cnt ≤ K.CHUNK_SZ →
      ∃ r, dma_loop K E offset rem (play_len K S m) (K.CHUNK_SZ + W + 1) cnt st = some r :=
    fun offset rem cnt st _ hc => dma_loop_returns K E W offset rem _ hready cnt st hc
  have hq := fun n => play_loop_quiet K E (play_len K S m) n (K.CHUNK_SZ + W + 1) hK hv hd hdma
    fuel (play_start (play_len K S m) m.c.cmd) (play_len_lt K S m) hfuel
  obtain ⟨n, r1, r2, _, _, _⟩ := play_song_run K S E fuel m hkey1 hsong hkey2
  rw [hirq] at r1 r2 ⊢
  obtain ⟨q1, _, _, _, evs, q5, q6, q7⟩ := hq n
  refine ⟨r1.trans q1, ⟨evs, ?_, q6, q7⟩, fun k => (hq k).2.1, rfl⟩
  rw [r2, q5]
  rfl

/-- The hardware of `quietE` lets every poll end at its first read. -/
theorem quietE_ready : dma_ready sampleK quietE 1 :=
  ⟨by decide, fun _ => Nat.le_refl 128, fun _ h => h,
    fun _ => ⟨0, Nat.zero_lt_one, Or.inl rfl⟩⟩

/-- Witness of `play_song_preview`: alice plays the 80 bytes of her song in
three chunks of 32, 32 and 16 bytes. -/
theorem play_song_preview_witness :
    (play_song sampleK sampleS quietE 40 play_input).1 = PlayStatus.returned ∧
    (∃ evs, (play_song sampleK sampleS quietE 40 play_input).2.trace = play_input.trace ++ evs ∧
      bram_total evs = play_len sampleK sampleS play_input ∧
      (brams evs).length =
        (play_len sampleK sampleS play_input + sampleK.CHUNK_SZ - 1) / sampleK.CHUNK_SZ) :=
  have h := play_song_preview sampleK sampleS quietE 40 1 play_input (by decide) rfl rfl rfl
    (fun _ _ => rfl) (fun _ _ _ => rfl) rfl quietE_ready (by decide)
  ⟨h.1, h.2.1⟩

/-- With a DMA engine that stays busy the polling loop never ends, except in
the first pass, where `rem = lenAudio` skips it. -/
theorem stuckE_wait (rem : Nat) (hrem : rem ≠ 80) :
    ∀ (f t : Nat), dma_wait sampleK stuckE rem 80 f t = none := by
  intro f
  induction f with
  | zero => intro t; rfl
  | succ f ih =>
    intro t
    unfold dma_wait
    have hc : (stuckE.busy t && rem != 80 &&
        decide (stuckE.fifo_fill t < sub32 sampleK.FIFO_CAP 32)) = true := by
      have h1 : stuckE.busy t = true := rfl
      have h2 : (rem != 80) = true := by simpa using hrem
      have h3 : decide (stuckE.fifo_fill t < sub32 sampleK.FIFO_CAP 32) = true := by
        show decide ((0 : Nat) < sub32 sampleK.FIFO_CAP 32) = true
        decide
      rw [h1, h2, h3]
      rfl
    rw [if_pos hc]
    exact ih (t + 1)

theorem stuckE_dma (offset rem cnt : Nat) (hrem : rem ≠ 80) (hc : cnt ≠ 0) (st : PlayLoop) :
    ∀ (f : Nat), dma_loop sampleK stuckE offset rem 80 f cnt st = none := by
  intro f
  cases f with
  | zero => rfl
  | succ f =>
    unfold dma_loop
    rw [if_neg hc, stuckE_wait rem hrem]

/-- With a DMA engine that stays busy, a pass of the playback loop after the
first never ends. -/
theorem stuckE_loop (n : Nat) :
    ∀ (fuel : Nat) (st : PlayLoop), st.rem ≠ 0 → st.rem ≠ 80 →
      (play_loop sampleK stuckE 80 n fuel [] st).1 = PlayStatus.exhausted := by
  intro fuel st h0 h80
  cases fuel with
  | zero => rfl
  | succ f =>
    unfold play_loop
    rw [if_neg h0]
    simp only [List.headD_nil, play_irq]
    have hv : ∀ pos len, stuckE.verifyChunk pos len = true := fun _ _ => rfl
    have hd : ∀ pos len iv, stuckE.decryptChunk pos len iv = true := fun _ _ _ => rfl
    simp only [hv, hd, Bool.true_eq_false, if_false]
    rw [stuckE_dma _ _ _ h80 (by show (if st.rem > 32 then 32 else st.rem) ≠ 0; split <;> omega)]

/-- C13 as stated fails when the DMA engine stays busy: the song of alice
passes every check and no interrupt arrives, `lenAudio` is 80, yet `play_song`
never returns, whatever the fuel: the first chunk goes out (the poll is
skipped while `rem = lenAudio`), the second is copied into the DMA buffer and
the poll before its transfer spins for ever.  64 of the 80 bytes have been
copied and `rem` never reaches 0. -/
theorem play_song_stalls_on_busy_dma :
    stuckE.verifySong = true ∧ stuckE.irq = [] ∧
    play_len sampleK sampleS play_input = 80 ∧
    (∀ fuel, (play_song sampleK sampleS stuckE fuel play_input).1 = PlayStatus.exhausted) ∧
    brams (play_song sampleK sampleS stuckE 64 play_input).2.trace = [(0, 32), (32, 32)] ∧
    bram_total (play_song sampleK sampleS stuckE 64 play_input).2.trace = 64 ∧
    (play_loop sampleK stuckE 80 3 64 [] (play_start 80 commands.PLAY)).2.rem = 48 := by
  refine ⟨rfl, rfl, by decide, ?_, by decide, by decide, by decide⟩
  intro fuel
  obtain ⟨n, r1, _⟩ := play_song_run sampleK sampleS stuckE fuel play_input rfl rfl rfl
  rw [r1]
  have hlen : play_len sampleK sampleS play_input = 80 := by decide
  rw [hlen]
  have hirq : stuckE.irq = [] := rfl
  rw [hirq]
  match fuel with
  | 0 => rfl
  | f + 1 =>
    have hsome : (dma_loop sampleK stuckE 0 80 80 (f + 1) 32
        { rem := 80, counter := 1, firstChunk := false, tick := 0, cmd := play_input.c.cmd
          drm_state := states.PLAYING
          events := [] ++ [Event.verify 0 32] ++ [Event.decrypt 0 32 IvSource.stored] ++
            [Event.bram 0 32] }) = none ∨
        ∃ r, (dma_loop sampleK stuckE 0 80 80 (f + 1) 32
          { rem := 80, counter := 1, firstChunk := false, tick := 0, cmd := play_input.c.cmd
            drm_state := states.PLAYING
            events := [] ++ [Event.verify 0 32] ++ [Event.decrypt 0 32 IvSource.stored] ++
              [Event.bram 0 32] }) = some r := by
      cases dma_loop sampleK stuckE 0 80 80 (f + 1) 32 _ with
      | none => exact Or.inl rfl
      | some r => exact Or.inr ⟨r, rfl⟩
    have hv : ∀ pos len, stuckE.verifyChunk pos len = true := fun _ _ => rfl
    have hd : ∀ pos len iv, stuckE.decryptChunk pos len iv = true := fun _ _ _ => rfl
    rcases hsome with hnone | ⟨r, hr⟩
    · unfold play_loop
      simp only [play_start, List.headD_nil, play_irq, hv, hd, Bool.true_eq_false, if_false]
      have e1 : sub32 80 80 = 0 := by decide
      simp only [sampleK, e1] at hnone ⊢
      norm_num at hnone ⊢
      rw [hnone]
    · have hstep := play_loop_quiet_step sampleK stuckE 80 n f (play_start 80 play_input.c.cmd) r
        (by decide) hv hd hr
      rw [hstep]
      obtain ⟨s1, _⟩ := dma_loop_spec sampleK stuckE _ _ _ _ _ _ _ hr
      have s1' : r.rem = 80 := s1
      apply stuckE_loop
      · show sub32 r.rem _ ≠ 0
        rw [s1']
        decide
      · show sub32 r.rem _ ≠ 80
        rw [s1']
        decide

/-- The interrupt loop produces no event. -/
theorem play_irq_events (lenAudio : Nat) :
    ∀ (cmds : List commands) (st : PlayLoop),
      (play_irq lenAudio cmds st).2.events = st.events := by
  intro cmds
  induction cmds with
  | nil => intro st; rfl
  | cons cmd rest ih =>
    intro st
    cases cmd with
    | PAUSE =>
      cases rest with
      | nil => rfl
      | cons c2 r2 =>
        simp only [play_irq]
        rw [ih]
    | STOP => rfl
    | LOGIN => simp only [play_irq]; rw [ih]
    | LOGOUT => simp only [play_irq]; rw [ih]
    | QUERY_PLAYER => simp only [play_irq]; rw [ih]
    | QUERY_SONG => simp only [play_irq]; rw [ih]
    | SHARE => simp only [play_irq]; rw [ih]
    | PLAY => simp only [play_irq]; rw [ih]
    | RESTART => simp only [play_irq]; rw [ih]
    | DIGITAL_OUT => simp only [play_irq]; rw [ih]
    | other code => simp only [play_irq]; rw [ih]

theorem verified_ok_nil (E : PlayEnv) : verified_ok E [] := by
  intro pos len h
  simp at h

theorem verified_ok_append (E : PlayEnv) (a b : List Event) (ha : verified_ok E a)
    (hb : verified_ok E b) : verified_ok E (a ++ b) := by
  intro pos len h
  rcases List.mem_append.mp h with h | h
  · exact ha pos len h
  · exact hb pos len h

theorem verified_ok_dmas (E : PlayEnv) (ds : List Event)
    (h : ∀ e ∈ ds, ∃ o c, e = Event.dma o c) : verified_ok E ds := by
  intro pos len hm
  obtain ⟨o, c, hc⟩ := h _ hm
  cases hc

/-- The events of the playback loop: either every chunk check in them passed,
or the loop returned right after a failing check, which is the last event. -/
theorem play_loop_verify (K : Constants) (E : PlayEnv) (lenAudio nchunks : Nat) :
    ∀ (fuel : Nat) (irq : List (List commands)) (st : PlayLoop),
      ∃ evs, (play_loop K E lenAudio nchunks fuel irq st).2.events = st.events ++ evs ∧
        (verified_ok E evs ∨
          ((play_loop K E lenAudio nchunks fuel irq st).1 = PlayStatus.returned ∧
            ∃ pre pos len, evs = pre ++ [Event.verify pos len] ∧ verified_ok E pre ∧
              E.verifyChunk pos len = false)) := by
  intro fuel
  induction fuel with
  | zero =>
    intro irq st
    exact ⟨[], by simp [play_loop], Or.inl (verified_ok_nil E)⟩
  | succ fuel ih =>
    intro irq st
    unfold play_loop
    by_cases hrem : st.rem = 0
    · rw [if_pos hrem]
      exact ⟨[], by simp, Or.inl (verified_ok_nil E)⟩
    · rw [if_neg hrem]
      have hev := play_irq_events lenAudio (irq.headD []) st
      rcases hirq : play_irq lenAudio (irq.headD []) st with ⟨status, st1⟩
      rw [hirq] at hev
      have hev1 : st1.events = st.events := hev
      cases status with
      | stop => exact ⟨[], by simp [hev1], Or.inl (verified_ok_nil E)⟩
      | wait => exact ⟨[], by simp [hev1], Or.inl (verified_ok_nil E)⟩
      | go =>
        dsimp only
        generalize (if st1.rem > K.CHUNK_SZ then K.CHUNK_SZ else st1.rem) = cp
        generalize (if st1.counter % 2 = 0 then 0 else K.CHUNK_SZ) = off
        generalize (if st1.firstChunk then IvSource.stored
          else IvSource.song (sub32 (sub32 lenAudio st1.rem) K.AES_BLK_SZ)) = iv
        generalize sub32 lenAudio st1.rem = pos
        rw [hev1]
        by_cases hv : E.verifyChunk pos cp = false
        · rw [if_pos hv]
          exact ⟨[Event.verify pos cp], rfl, Or.inr ⟨rfl, [], pos, cp, rfl, verified_ok_nil E, hv⟩⟩
        · rw [if_neg hv]
          have hv' : E.verifyChunk pos cp = true := by simpa using hv
          have hok3 : verified_ok E [Event.verify pos cp, Event.decrypt pos cp iv,
              Event.bram off cp] := by
            intro p l hm
            simp only [List.mem_cons, List.mem_singleton, List.not_mem_nil, or_false] at hm
            rcases hm with h | h | h
            · injection h with e1 e2
              rw [e1, e2]; exact hv'
            · cases h
            · cases h
          have hok2 : verified_ok E [Event.verify pos cp, Event.decrypt pos cp iv] := by
            intro p l hm
            apply hok3 p l
            simp only [List.mem_cons, List.mem_singleton, List.not_mem_nil, or_false] at hm ⊢
            rcases hm with h | h
            · exact Or.inl h
            · exact Or.inr (Or.inl h)
          by_cases hd : E.decryptChunk pos cp iv = false
          · rw [if_pos hd]
            exact ⟨[Event.verify pos cp, Event.decrypt pos cp iv], by simp, Or.inl hok2⟩
          · rw [if_neg hd]
            cases hdl : dma_loop K E off st1.rem lenAudio (fuel + 1) cp
                { st1 with
                  counter := (st1.counter + 1) % 2 ^ 32, firstChunk := false
                  events := st.events ++ [Event.verify pos cp] ++ [Event.decrypt pos cp iv] ++
                    [Event.bram off cp] } with
            | none =>
              exact ⟨[Event.verify pos cp, Event.decrypt pos cp iv, Event.bram off cp],
                by simp, Or.inl hok3⟩
            | some st5 =>
              obtain ⟨_, _, _, _, _, ds, s6, s7⟩ := dma_loop_spec K E _ _ _ _ _ _ _ hdl
              obtain ⟨evs, i1, i2⟩ := ih irq.tail { st5 with rem := sub32 st5.rem cp }
              have i1' : (play_loop K E lenAudio nchunks fuel irq.tail
                  { st5 with rem := sub32 st5.rem cp }).2.events = st5.events ++ evs := i1
              have s6' : st5.events = st.events ++
                  ([Event.verify pos cp, Event.decrypt pos cp iv, Event.bram off cp] ++ ds) := by
                rw [s6]
                simp
              have hpre := verified_ok_append E _ _ hok3 (verified_ok_dmas E ds s7)
              refine ⟨([Event.verify pos cp, Event.decrypt pos cp iv, Event.bram off cp] ++ ds)
                ++ evs, by rw [i1', s6', List.append_assoc], ?_⟩
              rcases i2 with i2 | ⟨i3, pre, p, l, i4, i5, i6⟩
              · exact Or.inl (verified_ok_append E _ _ hpre i2)
              · refine Or.inr ⟨i3, ([Event.verify pos cp, Event.decrypt pos cp iv,
                  Event.bram off cp] ++ ds) ++ pre, p, l, ?_, verified_ok_append E _ _ hpre i5, i6⟩
                rw [i4]
                simp only [List.append_assoc]

/-- When a key cannot be set or the whole-object check fails, `play_song`
returns without producing an event. -/
theorem play_song_early (K : Constants) (S : Secrets) (E : PlayEnv) (fuel : Nat) (m : Machine)
    (h : E.setKeyMd = false ∨ E.verifySong = false ∨ E.setKey = false) :
    (play_song K S E fuel m).1 = PlayStatus.returned ∧
    (play_song K S E fuel m).2.trace = m.trace ∧
    (play_song K S E fuel m).2.c = m.c := by
  unfold play_song
  by_cases h1 : E.setKeyMd = false
  · rw [if_pos h1]
    exact ⟨rfl, rfl, rfl⟩
  · rw [if_neg h1]
    dsimp only
    by_cases h2 : E.verifySong = false
    · rw [if_pos h2]
      exact ⟨rfl, rfl, rfl⟩
    · rw [if_neg h2]
      have h3 : E.setKey = false := by
        rcases h with h | h | h
        · exact absurd h h1
        · exact absurd h h2
        · exact h
      rw [if_pos h3]
      have ht := is_locked_trace S (load_song_md m)
      split
      · exact ⟨rfl, ht.1, ht.2⟩
      · exact ⟨rfl, rfl, rfl⟩

/-- A failing chunk check that is the last event of a list whose earlier
checks all pass is the only failing check in the list. -/
theorem failing_check_is_last (E : PlayEnv) (pre1 : List Event) (v : Event)
    (pre post : List Event) (pos len : Nat)
    (h : pre1 ++ [v] = pre ++ Event.verify pos len :: post) (hok : verified_ok E pre1)
    (hf : E.verifyChunk pos len = false) : post = [] := by
  rcases List.eq_nil_or_concat post with hp | ⟨L, b, hp⟩
  · exact hp
  · exfalso
    rw [hp] at h
    have h2 : pre1 ++ [v] = (pre ++ Event.verify pos len :: L) ++ [b] := by
      rw [h]
      simp
    have h3 := List.append_inj_left' h2 rfl
    have h4 : Event.verify pos len ∈ pre1 := by
      rw [h3]
      simp
    rw [hok pos len h4] at hf
    exact absurd hf (by decide)

theorem gate_run_append (E : PlayEnv) (a b : List Event) :
    ∀ g, gate_run E g (a ++ b) = (gate_run E g a).bind (fun g1 => gate_run E g1 b) := by
  induction a with
  | nil => intro g; rfl
  | cons e es ih =>
    intro g
    simp only [List.cons_append, gate_run]
    cases gate_step E g e with
    | none => rfl
    | some g1 => exact ih g1

theorem gate_run_cons (E : PlayEnv) (g g1 : Gate) (e : Event) (es : List Event)
    (h : gate_step E g e = some g1) : gate_run E g (e :: es) = gate_run E g1 es := by
  simp only [gate_run, h]

/-- DMA transfers from the offset of the copied chunk pass the gate. -/
theorem gate_run_dmas (E : PlayEnv) (offset : Nat) (ds : List Event)
    (h : ∀ e ∈ ds, ∃ c, e = Event.dma offset c) :
    gate_run E (Gate.sent offset) ds = some (Gate.sent offset) ∧
    (ds ≠ [] → gate_run E (Gate.copied offset) ds = some (Gate.sent offset)) := by
  have hsent : ∀ l : List Event, (∀ e ∈ l, ∃ c, e = Event.dma offset c) →
      gate_run E (Gate.sent offset) l = some (Gate.sent offset) := by
    intro l
    induction l with
    | nil => intro _; rfl
    | cons e es ih =>
      intro hl
      obtain ⟨c, rfl⟩ := hl e (List.mem_cons_self _ _)
      simp only [gate_run, gate_step, if_true]
      exact ih (fun x hx => hl x (List.mem_cons_of_mem _ hx))
  refine ⟨hsent ds h, ?_⟩
  intro hne
  cases ds with
  | nil => exact absurd rfl hne
  | cons e es =>
    obtain ⟨c, rfl⟩ := h e (List.mem_cons_self _ _)
    simp only [gate_run, gate_step, if_true]
    exact hsent es (fun x hx => h x (List.mem_cons_of_mem _ hx))

/-- The DMA loop of a chunk appends only transfers from the offset of that
chunk, at least one when there is something to push, and leaves `rem`. -/
theorem dma_loop_dmas (K : Constants) (E : PlayEnv) (offset rem lenAudio : Nat) :
    ∀ (f : Nat) (cnt : Nat) (st r : PlayLoop),
      dma_loop K E offset rem lenAudio f cnt st = some r →
      r.rem = st.rem ∧ (cnt = 0 → r = st) ∧
      ∃ ds, r.events = st.events ++ ds ∧ (∀ e ∈ ds, ∃ c, e = Event.dma offset c) ∧
        (cnt ≠ 0 → ds ≠ []) := by
  intro f
  induction f with
  | zero => intro cnt st r h; simp [dma_loop] at h
  | succ f ih =>
    intro cnt st r h
    unfold dma_loop at h
    by_cases hc : cnt = 0
    · rw [if_pos hc] at h
      cases h
      exact ⟨rfl, fun _ => rfl, [], by simp, by simp, fun hne => absurd hc hne⟩
    · rw [if_neg hc] at h
      cases hw : dma_wait K E rem lenAudio (f + 1) st.tick with
      | none => rw [hw] at h; simp at h
      | some t =>
        rw [hw] at h
        obtain ⟨h1, _, ds, h6, h7, _⟩ := ih _ _ _ h
        refine ⟨h1, fun h0 => absurd h0 hc,
          Event.dma offset
            (if sub32 K.FIFO_CAP (E.fifo_fill t) > cnt then sub32 K.FIFO_CAP (E.fifo_fill (t + 1))
              else cnt) :: ds, ?_, ?_, ?_⟩
        · rw [h6]
          simp
        · intro e he
          rcases List.mem_cons.mp he with rfl | he
          · exact ⟨_, rfl⟩
          · exact h7 e he
        · intro _
          simp

/-- The events of the playback loop pass the chunk gate, from the start of a
playback or after a chunk that has been transferred. -/
theorem play_loop_gated (K : Constants) (E : PlayEnv) (lenAudio nchunks : Nat)
    (hK : 0 < K.CHUNK_SZ) :
    ∀ (fuel : Nat) (irq : List (List commands)) (st : PlayLoop) (g : Gate),
      (g = Gate.idle ∨ ∃ o, g = Gate.sent o) →
      ∃ evs, (play_loop K E lenAudio nchunks fuel irq st).2.events = st.events ++ evs ∧
        (gate_run E g evs).isSome = true := by
  intro fuel
  induction fuel with
  | zero =>
    intro irq st g _
    exact ⟨[], by simp [play_loop], rfl⟩
  | succ fuel ih =>
    intro irq st g hg
    unfold play_loop
    by_cases hrem : st.rem = 0
    · rw [if_pos hrem]
      exact ⟨[], by simp, rfl⟩
    · rw [if_neg hrem]
      have hev := play_irq_events lenAudio (irq.headD []) st
      rcases hirq : play_irq lenAudio (irq.headD []) st with ⟨status, st1⟩
      rw [hirq] at hev
      have hev1 : st1.events = st.events := hev
      cases status with
      | stop => exact ⟨[], by simp [hev1], rfl⟩
      | wait => exact ⟨[], by simp [hev1], rfl⟩
      | go =>
        dsimp only
        have hcp0 : (if st1.rem > K.CHUNK_SZ then K.CHUNK_SZ else st1.rem) = 0 → st1.rem = 0 := by
          intro h0
          split at h0 <;> omega
        generalize (if st1.rem > K.CHUNK_SZ then K.CHUNK_SZ else st1.rem) = cp at hcp0
        generalize (if st1.counter % 2 = 0 then 0 else K.CHUNK_SZ) = off
        generalize (if st1.firstChunk then IvSource.stored
          else IvSource.song (sub32 (sub32 lenAudio st1.rem) K.AES_BLK_SZ)) = iv
        generalize sub32 lenAudio st1.rem = pos
        rw [hev1]
        have hstep : gate_step E g (Event.verify pos cp) =
            some (if E.verifyChunk pos cp then Gate.checked pos cp else Gate.closed) := by
          rcases hg with rfl | ⟨o, rfl⟩ <;> rfl
        by_cases hv : E.verifyChunk pos cp = false
        · rw [if_pos hv]
          refine ⟨[Event.verify pos cp], rfl, ?_⟩
          rw [gate_run_cons E g _ _ _ hstep]
          rfl
        · rw [if_neg hv]
          have hv' : E.verifyChunk pos cp = true := by simpa using hv
          rw [if_pos hv'] at hstep
          have hstep2 : gate_step E (Gate.checked pos cp) (Event.decrypt pos cp iv) =
              some (if E.decryptChunk pos cp iv then Gate.decrypted cp else Gate.closed) := by
            simp only [gate_step, and_self, if_true]
          by_cases hd : E.decryptChunk pos cp iv = false
          · rw [if_pos hd]
            refine ⟨[Event.verify pos cp, Event.decrypt pos cp iv], by simp, ?_⟩
            rw [gate_run_cons E g _ _ _ hstep, gate_run_cons E _ _ _ _ hstep2]
            rfl
          · rw [if_neg hd]
            have hd' : E.decryptChunk pos cp iv = true := by simpa using hd
            rw [if_pos hd'] at hstep2
            have hstep3 : gate_step E (Gate.decrypted cp) (Event.bram off cp) =
                some (Gate.copied off) := by
              simp only [gate_step, if_true]
            have hrun3 : gate_run E g
                [Event.verify pos cp, Event.decrypt pos cp iv, Event.bram off cp] =
                some (Gate.copied off) := by
              rw [gate_run_cons E g _ _ _ hstep, gate_run_cons E _ _ _ _ hstep2,
                gate_run_cons E _ _ _ _ hstep3]
              rfl
            cases hdl : dma_loop K E off st1.rem lenAudio (fuel + 1) cp
                { st1 with
                  counter := (st1.counter + 1) % 2 ^ 32, firstChunk := false
                  events := st.events ++ [Event.verify pos cp] ++ [Event.decrypt pos cp iv] ++
                    [Event.bram off cp] } with
            | none =>
              refine ⟨[Event.verify pos cp, Event.decrypt pos cp iv, Event.bram off cp],
                by simp, ?_⟩
              rw [hrun3]
              rfl
            | some st5 =>
              obtain ⟨s1, s0, ds, s6, s7, s8⟩ := dma_loop_dmas K E _ _ _ _ _ _ _ hdl
              have s6' : st5.events = st.events ++
                  ([Event.verify pos cp, Event.decrypt pos cp iv, Event.bram off cp] ++ ds) := by
                rw [s6]
                simp
              by_cases hcz : cp = 0
              · have hr0 : st5.rem = 0 := by
                  rw [s1]
                  exact hcp0 hcz
                have hnext : (play_loop K E lenAudio nchunks fuel irq.tail
                    { st5 with rem := sub32 st5.rem cp }).2.events = st5.events := by
                  have hz : sub32 st5.rem cp = 0 := by
                    rw [hr0, hcz]
                    decide
                  rw [hz]
                  cases fuel with
                  | zero => rfl
                  | succ f =>
                    unfold play_loop
                    rw [if_pos rfl]
                refine ⟨[Event.verify pos cp, Event.decrypt pos cp iv, Event.bram off cp],
                  ?_, ?_⟩
                · show (play_loop K E lenAudio nchunks fuel irq.tail
                    { st5 with rem := sub32 st5.rem cp }).2.events = _
                  rw [hnext, s0 hcz]
                  simp
                · rw [hrun3]
                  rfl
              · obtain ⟨evs, i1, i2⟩ := ih irq.tail { st5 with rem := sub32 st5.rem cp }
                  (Gate.sent off) (Or.inr ⟨off, rfl⟩)
                have i1' : (play_loop K E lenAudio nchunks fuel irq.tail
                    { st5 with rem := sub32 st5.rem cp }).2.events = st5.events ++ evs := i1
                refine ⟨([Event.verify pos cp, Event.decrypt pos cp iv, Event.bram off cp] ++ ds)
                  ++ evs, by rw [i1', s6', List.append_assoc], ?_⟩
                rw [gate_run_append, gate_run_append, hrun3]
                simp only [Option.some_bind]
                rw [(gate_run_dmas E off ds s7).2 (s8 hcz)]
                exact i2

/-- C14 (HMAC gatekeeping), as the code has it, with `CHUNK_SZ > 0`.  When
the whole-object check fails, `play_song` returns without any event: nothing
is copied to the DMA buffer and no DMA transfer starts.  The chunk checks are
made one chunk at a time, and the events of a playback pass the chunk gate:
the decryption of a chunk comes right after the passing check of the same
bytes, its copy into the DMA buffer right after its successful decryption,
its DMA transfers after that copy, and the check of the next chunk only after
a DMA transfer of the chunk before it.  When the check of a chunk fails,
`play_song` returns at once, so the failing check is the last event of the
playback and neither that chunk nor any later one is decrypted, copied or
transferred; the chunks checked before it have been. -/
theorem play_song_hmac_gate (K : Constants) (S : Secrets) (E : PlayEnv) (fuel : Nat)
    (m : Machine) (hK : 0 < K.CHUNK_SZ) :
    (E.verifySong = false →
      (play_song K S E fuel m).1 = PlayStatus.returned ∧
      (play_song K S E fuel m).2.trace = m.trace) ∧
    (∃ evs, (play_song K S E fuel m).2.trace = m.trace ++ evs ∧
      gated E evs ∧
      ∀ pre pos len post, evs = pre ++ Event.verify pos len :: post →
        E.verifyChunk pos len = false →
        post = [] ∧ (play_song K S E fuel m).1 = PlayStatus.returned) := by
  constructor
  · intro h
    have := play_song_early K S E fuel m (Or.inr (Or.inl h))
    exact ⟨this.1, this.2.1⟩
  · by_cases h1 : E.setKeyMd = true
    · by_cases h2 : E.verifySong = true
      · by_cases h3 : E.setKey = true
        · obtain ⟨n, r1, r2, _⟩ := play_song_run K S E fuel m h1 h2 h3
          obtain ⟨evs, e1, e2⟩ := play_loop_verify K E (play_len K S m) n fuel E.irq
            (play_start (play_len K S m) m.c.cmd)
          obtain ⟨evs2, g1, g2⟩ := play_loop_gated K E (play_len K S m) n hK fuel E.irq
            (play_start (play_len K S m) m.c.cmd) Gate.idle (Or.inl rfl)
          have e1' : (play_loop K E (play_len K S m) n fuel E.irq
              (play_start (play_len K S m) m.c.cmd)).2.events = evs := by
            rw [e1]; rfl
          have g1' : (play_loop K E (play_len K S m) n fuel E.irq
              (play_start (play_len K S m) m.c.cmd)).2.events = evs2 := by
            rw [g1]; rfl
          have hsame : evs2 = evs := g1'.symm.trans e1'
          refine ⟨evs, by rw [r2, e1'], by rw [← hsame]; exact g2, ?_⟩
          intro pre pos len post hev hf
          rcases e2 with e2 | ⟨e3, pre1, p, l, e4, e5, _⟩
          · have hm : Event.verify pos len ∈ evs := by
              rw [hev]; simp
            rw [e2 pos len hm] at hf
            exact absurd hf (by decide)
          · exact ⟨failing_check_is_last E pre1 _ pre post pos len (by rw [← e4, hev]) e5 hf,
              r1.trans e3⟩
        · have := play_song_early K S E fuel m (Or.inr (Or.inr (by simpa using h3)))
          refine ⟨[], by rw [this.2.1]; simp, rfl, ?_⟩
          intro pre pos len post hev
          simp at hev
      · have := play_song_early K S E fuel m (Or.inr (Or.inl (by simpa using h2)))
        refine ⟨[], by rw [this.2.1]; simp, rfl, ?_⟩
        intro pre pos len post hev
        simp at hev
    · have := play_song_early K S E fuel m (Or.inl (by simpa using h1))
      refine ⟨[], by rw [this.2.1]; simp, rfl, ?_⟩
      intro pre pos len post hev
      simp at hev

/-- Witness of `play_song_hmac_gate`: when the whole-object check of the song
of alice fails, nothing is played; when the check of her second chunk fails,
the events of the playback pass the chunk gate. -/
theorem play_song_hmac_gate_witness :
    ((play_song sampleK sampleS { quietE with verifySong := false } 8 play_input).1 =
        PlayStatus.returned ∧
      (play_song sampleK sampleS { quietE with verifySong := false } 8 play_input).2.trace =
        play_input.trace) ∧
    ∃ evs, (play_song sampleK sampleS tamperE 8 play_input).2.trace = play_input.trace ++ evs ∧
      gated tamperE evs ∧
      ∀ pre pos len post, evs = pre ++ Event.verify pos len :: post →
        tamperE.verifyChunk pos len = false →
        post = [] ∧ (play_song sampleK sampleS tamperE 8 play_input).1 = PlayStatus.returned :=
  ⟨(play_song_hmac_gate sampleK sampleS { quietE with verifySong := false } 8 play_input
      (by decide)).1 rfl,
    (play_song_hmac_gate sampleK sampleS tamperE 8 play_input (by decide)).2⟩

/-- C14 as stated fails: the check of the second chunk (offset 32) fails
while the whole-object check and the check of the first chunk pass.  The
first chunk has already been copied to the DMA buffer (32 bytes) and
transferred (one DMA start) when `play_song` returns. -/
theorem play_song_plays_before_failing_chunk :
    tamperE.verifySong = true ∧ tamperE.verifyChunk 32 32 = false ∧
    (play_song sampleK sampleS tamperE 8 play_input).1 = PlayStatus.returned ∧
    brams (play_song sampleK sampleS tamperE 8 play_input).2.trace = [(0, 32)] ∧
    bram_total (play_song sampleK sampleS tamperE 8 play_input).2.trace = 32 ∧
    dmas (play_song sampleK sampleS tamperE 8 play_input).2.trace = [(0, 32)] := by
  decide

/-- C19 (paused playback), evaluated at a failing input.  During the first
pass of the playback loop the host sends PAUSE and then QUERY_SONG.  The
interrupt loop sets PAUSED, leaves its wait at the second interrupt, falls
through `default` and goes on with the chunk.  Stopped inside the first pass
(fuel 1), the loop has copied the first chunk into the DMA buffer with
`drm_state = PAUSED`; run to the end, `play_song` plays the whole song (80
bytes, three chunks, three DMA transfers) and returns with
`drm_state = PAUSED`. -/
theorem play_song_plays_while_paused :
    (play_irq 80 [commands.PAUSE, commands.QUERY_SONG] (play_start 80 commands.PLAY)).1 =
      IrqStatus.go ∧
    (play_irq 80 [commands.PAUSE, commands.QUERY_SONG]
      (play_start 80 commands.PLAY)).2.drm_state = states.PAUSED ∧
    (play_loop sampleK pauseE 80 3 1 pauseE.irq (play_start 80 commands.PLAY)).2.drm_state =
      states.PAUSED ∧
    brams (play_loop sampleK pauseE 80 3 1 pauseE.irq (play_start 80 commands.PLAY)).2.events =
      [(0, 32)] ∧
    (play_song sampleK sampleS pauseE 8 play_input).1 = PlayStatus.returned ∧
    (play_song sampleK sampleS pauseE 8 play_input).2.c.drm_state = states.PAUSED ∧
    brams (play_song sampleK sampleS pauseE 8 play_input).2.trace =
      [(0, 32), (32, 32), (0, 16)] ∧
    dmas (play_song sampleK sampleS pauseE 8 play_input).2.trace =
      [(0, 32), (32, 32), (0, 16)] := by
  decide

theorem dma_wait_plain (K : Constants) (E : PlayEnv) (plain : Nat → Nat → IvSource → List Nat)
    (rem lenAudio : Nat) :
    ∀ (f t : Nat), dma_wait K { E with plainChunk := plain } rem lenAudio f t =
      dma_wait K E rem lenAudio f t := by
  intro f
  induction f with
  | zero => intro t; rfl
  | succ f ih =>
    intro t
    simp only [dma_wait, ih]

theorem dma_loop_plain (K : Constants) (E : PlayEnv) (plain : Nat → Nat → IvSource → List Nat)
    (offset rem lenAudio : Nat) :
    ∀ (f cnt : Nat) (st : PlayLoop),
      dma_loop K { E with plainChunk := plain } offset rem lenAudio f cnt st =
        dma_loop K E offset rem lenAudio f cnt st := by
  intro f
  induction f with
  | zero => intro cnt st; rfl
  | succ f ih =>
    intro cnt st
    simp only [dma_loop, ih, dma_wait_plain]

theorem play_loop_plain (K : Constants) (E : PlayEnv) (plain : Nat → Nat → IvSource → List Nat)
    (lenAudio nchunks : Nat) :
    ∀ (f : Nat) (irq : List (List commands)) (st : PlayLoop),
      play_loop K { E with plainChunk := plain } lenAudio nchunks f irq st =
        play_loop K E lenAudio nchunks f irq st := by
  intro f
  induction f with
  | zero => intro irq st; rfl
  | succ f ih =>
    intro irq st
    simp only [play_loop, ih, dma_loop_plain]

/-- `play_song` never reads the decrypted bytes: the run is the same whatever
the plaintext of the chunks is. -/
theorem play_song_plain (K : Constants) (S : Secrets) (E : PlayEnv)
    (plain : Nat → Nat → IvSource → List Nat) (fuel : Nat) (m : Machine) :
    play_song K S { E with plainChunk := plain } fuel m = play_song K S E fuel m := by
  simp only [play_song, play_loop_plain]

/-- C20 (terminal-chunk unpadding), evaluated at failing inputs.  The song of
alice has 80 bytes of audio: chunks of 32, 32 and 16 bytes, the last one
terminal.  Whatever the decrypted bytes are, the terminal chunk is copied to
the DMA buffer and transferred whole: with a final plaintext byte 4 (a valid
padding length) 16 bytes are passed on, not 12, and with a final byte 0 or 17
(invalid) playback does not abort and the 16 bytes are passed on as well. -/
theorem play_song_never_unpads :
    (∀ plain : Nat → Nat → IvSource → List Nat,
      (play_song sampleK sampleS { quietE with plainChunk := plain } 8 play_input).1 =
        PlayStatus.returned ∧
      brams (play_song sampleK sampleS { quietE with plainChunk := plain } 8 play_input).2.trace =
        [(0, 32), (32, 32), (0, 16)] ∧
      dmas (play_song sampleK sampleS { quietE with plainChunk := plain } 8 play_input).2.trace =
        [(0, 32), (32, 32), (0, 16)]) ∧
    ((paddedE 4).plainChunk 64 16 (IvSource.song 48)).getLast? = some 4 ∧
    brams (play_song sampleK sampleS (paddedE 4) 8 play_input).2.trace =
      [(0, 32), (32, 32), (0, 16)] ∧
    ((paddedE 0).plainChunk 64 16 (IvSource.song 48)).getLast? = some 0 ∧
    (play_song sampleK sampleS (paddedE 0) 8 play_input).1 = PlayStatus.returned ∧
    brams (play_song sampleK sampleS (paddedE 0) 8 play_input).2.trace =
      [(0, 32), (32, 32), (0, 16)] ∧
    brams (play_song sampleK sampleS (paddedE 17) 8 play_input).2.trace =
      [(0, 32), (32, 32), (0, 16)] := by
  refine ⟨fun plain => ?_, by decide, by decide, by decide, by decide, by decide, by decide⟩
  rw [play_song_plain]
  decide

/-! ### DMA bursts -/

/-- C22 (DMA burst sizing), evaluated at failing inputs, with `FIFO_CAP = 128`.
The burst size is the LARGER of `FIFO_CAP - fill` and `cp_xfil_cnt`.
With an empty FIFO (`fill = 0`) and a chunk of 16 bytes the first burst is 128
bytes, more than the 16 bytes of the chunk; `cp_xfil_cnt -= dma_cnt` wraps to
`2 ^ 32 - 112`, a second burst of that size follows, and the bursts of the
chunk add up to `2 ^ 32 + 16`, not 16.  With `fill = 120` and a chunk of 32
bytes the single burst is 32 bytes, more than the 8 bytes free in the FIFO.
Playing the 80-byte song of alice on the empty FIFO gives six bursts, two
per chunk. -/
theorem dma_loop_bursts_oversized :
    sub32 sampleK.FIFO_CAP (emptyFifoE.fifo_fill 0) = 128 ∧
    (dma_loop sampleK emptyFifoE 0 80 80 3 16 (play_start 80 commands.PLAY)).map
        (fun st => dmas st.events) = some [(0, 128), (0, 4294967184)] ∧
    sub32 16 128 = 4294967184 ∧
    128 + 4294967184 ≠ 16 ∧
    sub32 sampleK.FIFO_CAP (nearFullE.fifo_fill 0) = 8 ∧
    (dma_loop sampleK nearFullE 0 80 80 3 32 (play_start 80 commands.PLAY)).map
        (fun st => dmas st.events) = some [(0, 32)] ∧
    (play_song sampleK sampleS emptyFifoE 8 play_input).1 = PlayStatus.returned ∧
    dmas (play_song sampleK sampleS emptyFifoE 8 play_input).2.trace =
      [(0, 128), (0, 4294967200), (32, 128), (32, 4294967200), (0, 128), (0, 4294967184)] := by
  decide

/-! ### IV chaining -/

/-- The interrupt loop keeps the chaining invariant and leaves `rem` non-zero:
RESTART resets `rem` and `firstChunk` together, the other commands touch
neither. -/
theorem play_irq_chain (K : Constants) (lenAudio : Nat) :
    ∀ (cmds : List commands) (st : PlayLoop), chain_inv K lenAudio st → st.rem ≠ 0 →
      chain_inv K lenAudio (play_irq lenAudio cmds st).2 ∧
      (play_irq lenAudio cmds st).2.rem ≠ 0 := by
  intro cmds
  induction cmds with
  | nil => intro st h h0; exact ⟨h, h0⟩
  | cons cmd rest ih =>
    intro st h h0
    have hkeep : ∀ (c : commands) (d : states),
        chain_inv K lenAudio { st with cmd := c, drm_state := d } := fun _ _ => h
    have hkeep1 : ∀ (c : commands), chain_inv K lenAudio { st with cmd := c } := fun _ => h
    have hL : lenAudio ≠ 0 := by
      have := h.1
      omega
    have hrestart : ∀ (c : commands) (d : states), chain_inv K lenAudio
        { st with cmd := c, rem := lenAudio, firstChunk := true, drm_state := d } := by
      intro c d
      refine ⟨Nat.le_refl _, fun _ => ?_, fun _ => rfl, fun hf => ?_⟩
      · show K.CHUNK_SZ ∣ lenAudio - lenAudio
        rw [Nat.sub_self]
        exact Nat.dvd_zero _
      · have hf' : true = false := hf
        exact absurd hf' (by decide)
    cases cmd with
    | PAUSE =>
      cases rest with
      | nil => exact ⟨hkeep _ _, h0⟩
      | cons c2 r2 =>
        simp only [play_irq]
        exact ih _ (hkeep _ _) h0
    | STOP => exact ⟨hkeep1 _, h0⟩
    | LOGIN => simp only [play_irq]; exact ih _ (hkeep1 _) h0
    | LOGOUT => simp only [play_irq]; exact ih _ (hkeep1 _) h0
    | QUERY_PLAYER => simp only [play_irq]; exact ih _ (hkeep1 _) h0
    | QUERY_SONG => simp only [play_irq]; exact ih _ (hkeep1 _) h0
    | SHARE => simp only [play_irq]; exact ih _ (hkeep1 _) h0
    | PLAY => simp only [play_irq]; exact ih _ (hkeep _ _) h0
    | RESTART => simp only [play_irq]; exact ih _ (hrestart _ _) hL
    | DIGITAL_OUT => simp only [play_irq]; exact ih _ (hkeep1 _) h0
    | other code => simp only [play_irq]; exact ih _ (hkeep1 _) h0

/-- The chunk the playback loop is about to process, in a state that satisfies
the chaining invariant with `rem` non-zero, is chained. -/
theorem chain_inv_chained (K : Constants) (lenAudio : Nat) (st : PlayLoop)
    (hB : K.AES_BLK_SZ ≤ K.CHUNK_SZ) (hL : lenAudio < 2 ^ 32)
    (hinv : chain_inv K lenAudio st) (hne : st.rem ≠ 0) :
    sub32 lenAudio st.rem = lenAudio - st.rem ∧
    chained K lenAudio (sub32 lenAudio st.rem)
      (if st.rem > K.CHUNK_SZ then K.CHUNK_SZ else st.rem)
      (if st.firstChunk then IvSource.stored
        else IvSource.song (sub32 (sub32 lenAudio st.rem) K.AES_BLK_SZ)) := by
  obtain ⟨h1, h2, h3, h4⟩ := hinv
  have hpos : sub32 lenAudio st.rem = lenAudio - st.rem := sub32_of_le _ _ h1 hL
  have hdvd := h2 hne
  have hcp : (if st.rem > K.CHUNK_SZ then K.CHUNK_SZ else st.rem) ≤ st.rem := by
    split <;> omega
  refine ⟨hpos, ?_⟩
  rw [hpos]
  cases hf : st.firstChunk with
  | true =>
    have hr := h3 hf
    have hz : lenAudio - st.rem = 0 := by omega
    refine ⟨hdvd, by omega, ?_, ?_⟩
    · simp [hz]
    · intro hnz
      exact absurd hz hnz
  | false =>
    have hr := h4 hf
    have hnz : lenAudio - st.rem ≠ 0 := by omega
    have hge : K.CHUNK_SZ ≤ lenAudio - st.rem := Nat.le_of_dvd (by omega) hdvd
    refine ⟨hdvd, by omega, ?_, ?_⟩
    · simp [hnz]
    · intro _
      refine ⟨by omega, ?_⟩
      simp only [Bool.false_eq_true, if_false]
      rw [sub32_of_le _ _ (by omega) (by omega)]

/-- After a chunk, the state of the playback loop satisfies the chaining
invariant again. -/
theorem chain_inv_next (K : Constants) (lenAudio : Nat) (st r : PlayLoop)
    (hC : 0 < K.CHUNK_SZ) (hL : lenAudio < 2 ^ 32)
    (hinv : chain_inv K lenAudio st) (hne : st.rem ≠ 0)
    (hr : r.rem = st.rem) (hf : r.firstChunk = false) :
    chain_inv K lenAudio
      { r with rem := sub32 r.rem (if st.rem > K.CHUNK_SZ then K.CHUNK_SZ else st.rem) } := by
  obtain ⟨h1, h2, _, _⟩ := hinv
  have hdvd := h2 hne
  have hsub : sub32 r.rem (if st.rem > K.CHUNK_SZ then K.CHUNK_SZ else st.rem) =
      st.rem - (if st.rem > K.CHUNK_SZ then K.CHUNK_SZ else st.rem) := by
    rw [hr]
    exact sub32_of_le _ _ (by split <;> omega) (by omega)
  refine ⟨?_, ?_, ?_, ?_⟩
  · show sub32 r.rem _ ≤ lenAudio
    rw [hsub]
    omega
  · show sub32 r.rem _ ≠ 0 → K.CHUNK_SZ ∣ lenAudio - sub32 r.rem _
    rw [hsub]
    intro hnz
    by_cases hgt : st.rem > K.CHUNK_SZ
    · rw [if_pos hgt] at hnz ⊢
      have e : lenAudio - (st.rem - K.CHUNK_SZ) = (lenAudio - st.rem) + K.CHUNK_SZ := by omega
      rw [e]
      exact Nat.dvd_add hdvd (Nat.dvd_refl _)
    · rw [if_neg hgt] at hnz
      omega
  · intro h
    have h' : r.firstChunk = true := h
    rw [hf] at h'
    exact absurd h' (by decide)
  · intro _
    show sub32 r.rem _ < lenAudio
    rw [hsub]
    have : 0 < (if st.rem > K.CHUNK_SZ then K.CHUNK_SZ else st.rem) := by
      split <;> omega
    omega

/-- Every decryption of the playback loop, started in a state that satisfies
the chaining invariant, is chained, whatever interrupts arrive. -/
theorem play_loop_chain (K : Constants) (E : PlayEnv) (lenAudio nchunks : Nat)
    (hC : 0 < K.CHUNK_SZ) (hB : K.AES_BLK_SZ ≤ K.CHUNK_SZ) (hL : lenAudio < 2 ^ 32) :
    ∀ (fuel : Nat) (irq : List (List commands)) (st : PlayLoop), chain_inv K lenAudio st →
      ∃ evs, (play_loop K E lenAudio nchunks fuel irq st).2.events = st.events ++ evs ∧
        ∀ pos len iv, Event.decrypt pos len iv ∈ evs → chained K lenAudio pos len iv := by
  intro fuel
  induction fuel with
  | zero =>
    intro irq st _
    exact ⟨[], by simp [play_loop], by simp⟩
  | succ fuel ih =>
    intro irq st hinv
    unfold play_loop
    by_cases hrem : st.rem = 0
    · rw [if_pos hrem]
      exact ⟨[], by simp, by simp⟩
    · rw [if_neg hrem]
      have hev := play_irq_events lenAudio (irq.headD []) st
      have hci := play_irq_chain K lenAudio (irq.headD []) st hinv hrem
      rcases hirq : play_irq lenAudio (irq.headD []) st with ⟨status, st1⟩
      rw [hirq] at hev hci
      have hev1 : st1.events = st.events := hev
      obtain ⟨hinv1, hne1⟩ := hci
      have hinv1' : chain_inv K lenAudio st1 := hinv1
      have hne1' : st1.rem ≠ 0 := hne1
      cases status with
      | stop => exact ⟨[], by simp [hev1], by simp⟩
      | wait => exact ⟨[], by simp [hev1], by simp⟩
      | go =>
        dsimp only
        have hch := (chain_inv_chained K lenAudio st1 hB hL hinv1' hne1').2
        have hnext : ∀ r : PlayLoop, r.rem = st1.rem → r.firstChunk = false →
            chain_inv K lenAudio
              { r with rem := sub32 r.rem (if st1.rem > K.CHUNK_SZ then K.CHUNK_SZ else st1.rem) } :=
          fun r h1 h2 => chain_inv_next K lenAudio st1 r hC hL hinv1' hne1' h1 h2
        generalize (if st1.rem > K.CHUNK_SZ then K.CHUNK_SZ else st1.rem) = cp at hch hnext ⊢
        generalize (if st1.counter % 2 = 0 then 0 else K.CHUNK_SZ) = off
        generalize (if st1.firstChunk then IvSource.stored
          else IvSource.song (sub32 (sub32 lenAudio st1.rem) K.AES_BLK_SZ)) = iv at hch ⊢
        generalize sub32 lenAudio st1.rem = pos at hch ⊢
        rw [hev1]
        have hmem : ∀ (tl : List Event) (p l : Nat) (v : IvSource),
            Event.decrypt p l v ∈ [Event.verify pos cp, Event.decrypt pos cp iv] ++ tl →
            (∀ p l v, Event.decrypt p l v ∈ tl → chained K lenAudio p l v) →
            chained K lenAudio p l v := by
          intro tl p l v hm htl
          simp only [List.cons_append, List.nil_append, List.mem_cons] at hm
          rcases hm with h | h | h
          · cases h
          · injection h with e1 e2 e3
            rw [e1, e2, e3]
            exact hch
          · exact htl p l v h
        by_cases hv : E.verifyChunk pos cp = false
        · rw [if_pos hv]
          refine ⟨[Event.verify pos cp], rfl, ?_⟩
          intro p l v hm
          simp only [List.mem_singleton] at hm
          cases hm
        · rw [if_neg hv]
          by_cases hd : E.decryptChunk pos cp iv = false
          · rw [if_pos hd]
            refine ⟨[Event.verify pos cp, Event.decrypt pos cp iv] ++ [], by simp, ?_⟩
            intro p l v hm
            exact hmem [] p l v hm (by simp)
          · rw [if_neg hd]
            cases hdl : dma_loop K E off st1.rem lenAudio (fuel + 1) cp
                { st1 with
                  counter := (st1.counter + 1) % 2 ^ 32, firstChunk := false
                  events := st.events ++ [Event.verify pos cp] ++ [Event.decrypt pos cp iv] ++
                    [Event.bram off cp] } with
            | none =>
              refine ⟨[Event.verify pos cp, Event.decrypt pos cp iv] ++ [Event.bram off cp],
                by simp, ?_⟩
              intro p l v hm
              refine hmem _ p l v hm ?_
              intro p2 l2 v2 h2
              simp only [List.mem_singleton] at h2
              cases h2
            | some st5 =>
              obtain ⟨s1, _, s3, _, _, ds, s6, s7⟩ := dma_loop_spec K E _ _ _ _ _ _ _ hdl
              obtain ⟨evs, i1, i2⟩ := ih irq.tail { st5 with rem := sub32 st5.rem cp }
                (hnext st5 s1 s3)
              have i1' : (play_loop K E lenAudio nchunks fuel irq.tail
                  { st5 with rem := sub32 st5.rem cp }).2.events = st5.events ++ evs := i1
              have s6' : st5.events = st.events ++
                  ([Event.verify pos cp, Event.decrypt pos cp iv] ++
                    ([Event.bram off cp] ++ ds)) := by
                rw [s6]
                simp
              refine ⟨[Event.verify pos cp, Event.decrypt pos cp iv] ++
                (([Event.bram off cp] ++ ds) ++ evs), ?_, ?_⟩
              · rw [i1', s6']
                simp only [List.append_assoc]
              · intro p l v hm
                refine hmem _ p l v hm ?_
                intro p2 l2 v2 h2
                rcases List.mem_append.mp h2 with h3 | h3
                · rcases List.mem_append.mp h3 with h4 | h4
                  · simp only [List.mem_singleton] at h4
                    cases h4
                  · obtain ⟨o, c, hc⟩ := s7 _ h4
                    cases hc
                · exact i2 p2 l2 v2 h3

theorem play_start_chain (K : Constants) (lenAudio : Nat) (cmd : commands) :
    chain_inv K lenAudio (play_start lenAudio cmd) := by
  refine ⟨Nat.le_refl _, fun _ => ?_, fun _ => rfl, fun h => ?_⟩
  · show K.CHUNK_SZ ∣ lenAudio - lenAudio
    rw [Nat.sub_self]
    exact Nat.dvd_zero _
  · have h' : true = false := h
    exact absurd h' (by decide)

/-- C21 (CBC IV chaining).  With `0 < CHUNK_SZ` and `AES_BLK_SZ <= CHUNK_SZ`,
for every environment (any interrupts, PAUSE, PLAY and RESTART included, any
outcome of the checks, any fuel): every chunk `play_song` decrypts starts at
an offset `pos = lenAudio - rem` that is a multiple of `CHUNK_SZ` and lies
inside the audio; the IV is the stored IV exactly when `pos = 0`, and
otherwise it is the `AES_BLK_SZ` bytes at offset `pos - AES_BLK_SZ` of the
ciphertext, with `AES_BLK_SZ <= pos` (no underflow). -/
theorem play_song_iv_chaining (K : Constants) (S : Secrets) (E : PlayEnv) (fuel : Nat)
    (m : Machine) (hC : 0 < K.CHUNK_SZ) (hB : K.AES_BLK_SZ ≤ K.CHUNK_SZ) :
    ∃ evs, (play_song K S E fuel m).2.trace = m.trace ++ evs ∧
      ∀ pos len iv, Event.decrypt pos len iv ∈ evs →
        K.CHUNK_SZ ∣ pos ∧ pos + len ≤ play_len K S m ∧
        (iv = IvSource.stored ↔ pos = 0) ∧
        (pos ≠ 0 → K.AES_BLK_SZ ≤ pos ∧ iv = IvSource.song (pos - K.AES_BLK_SZ)) := by
  by_cases h1 : E.setKeyMd = true
  · by_cases h2 : E.verifySong = true
    · by_cases h3 : E.setKey = true
      · obtain ⟨n, _, r2, _⟩ := play_song_run K S E fuel m h1 h2 h3
        obtain ⟨evs, e1, e2⟩ := play_loop_chain K E (play_len K S m) n hC hB
          (play_len_lt K S m) fuel E.irq (play_start (play_len K S m) m.c.cmd)
          (play_start_chain K _ _)
        have e1' : (play_loop K E (play_len K S m) n fuel E.irq
            (play_start (play_len K S m) m.c.cmd)).2.events = evs := by
          rw [e1]; rfl
        exact ⟨evs, by rw [r2, e1'], e2⟩
      · have := play_song_early K S E fuel m (Or.inr (Or.inr (by simpa using h3)))
        exact ⟨[], by rw [this.2.1]; simp, by simp⟩
    · have := play_song_early K S E fuel m (Or.inr (Or.inl (by simpa using h2)))
      exact ⟨[], by rw [this.2.1]; simp, by simp⟩
  · have := play_song_early K S E fuel m (Or.inl (by simpa using h1))
    exact ⟨[], by rw [this.2.1]; simp, by simp⟩

/-- Witness of `play_song_iv_chaining`: alice plays her song while the host
sends PAUSE and PLAY during the second pass and RESTART during the third. -/
theorem play_song_iv_chaining_witness :
    ∃ evs, (play_song sampleK sampleS restartE 12 play_input).2.trace =
        play_input.trace ++ evs ∧
      ∀ pos len iv, Event.decrypt pos len iv ∈ evs →
        sampleK.CHUNK_SZ ∣ pos ∧ pos + len ≤ play_len sampleK sampleS play_input ∧
        (iv = IvSource.stored ↔ pos = 0) ∧
        (pos ≠ 0 → sampleK.AES_BLK_SZ ≤ pos ∧ iv = IvSource.song (pos - sampleK.AES_BLK_SZ)) :=
  play_song_iv_chaining sampleK sampleS restartE 12 play_input (by decide) (by decide)

end Drm
